import Mathlib

/-!
# apg_maths: a shallow embedding of Anton's 3D maths library

The C `float` is modelled by an arbitrary linearly ordered field `K`
(exact arithmetic, for instance `ℚ` or `ℝ`).  The functions of `<math.h>`
that the library calls (`sqrtf`, `tanf`, `sinf`, `cosf`) and the constant
`M_PI` are parameters of the definitions that use them.

Three functions whose branch or result range depends on rounding,
`normalise_quat`, `wrap_degrees_360` and `ray_aabb`, are also given in IEEE
binary32, with every operation rounded (the definitions ending in `_f32`).
-/

namespace Apg

/-! ## Data model -/

/-- The C struct vec3: three floats. -/
@[ext]
structure vec3 (K : Type) where
  x : K
  y : K
  z : K
deriving DecidableEq, Repr

/-- The C struct vec4: four floats. -/
@[ext]
structure vec4 (K : Type) where
  x : K
  y : K
  z : K
  w : K
deriving DecidableEq, Repr

/-- The C struct mat4: an array of 16 floats, stored column-major. -/
@[ext]
structure mat4 (K : Type) where
  m : Fin 16 → K

section Defs

variable {K : Type} [LinearOrderedField K]

/-- The initialiser of a mat4 whose elements are all zero. -/
def mat4.zero : mat4 K := ⟨fun _ => 0⟩

/-- Array read `a.m[i]`. -/
def mat4.get (a : mat4 K) (i : Nat) : K :=
  if h : i < 16 then a.m ⟨i, h⟩ else 0

/-- Array write `a.m[i] = x`. -/
def mat4.set (a : mat4 K) (i : Nat) (x : K) : mat4 K :=
  ⟨fun j => if j.val = i then x else a.m j⟩

def v3_v4 (v : vec4 K) : vec3 K := ⟨v.x, v.y, v.z⟩

def v4_v3f (v : vec3 K) (f : K) : vec4 K := ⟨v.x, v.y, v.z, f⟩

def sub_vec3_vec3 (a b : vec3 K) : vec3 K := ⟨a.x - b.x, a.y - b.y, a.z - b.z⟩

def div_vec4_f (v : vec4 K) (f : K) : vec4 K := ⟨v.x / f, v.y / f, v.z / f, v.w / f⟩

/-- Length of a vec3; `sqrtf` is the square root of the C library. -/
def length_vec3 (sqrtf : K → K) (v : vec3 K) : K :=
  sqrtf (v.x * v.x + v.y * v.y + v.z * v.z)

def normalise_vec3 (sqrtf : K → K) (v : vec3 K) : vec3 K :=
  let l := length_vec3 sqrtf v
  if 0 = l then ⟨0, 0, 0⟩
  else ⟨v.x / l, v.y / l, v.z / l⟩

def dot_vec3 (a b : vec3 K) : K := a.x * b.x + a.y * b.y + a.z * b.z

def cross_vec3 (a b : vec3 K) : vec3 K :=
  ⟨a.y * b.z - a.z * b.y, a.z * b.x - a.x * b.z, a.x * b.y - a.y * b.x⟩

def identity_mat4 : mat4 K :=
  let r : mat4 K := mat4.zero
  let r := r.set 0 1
  let r := r.set 5 1
  let r := r.set 10 1
  let r := r.set 15 1
  r

/-- The three nested loops of the source, with the running output index
`r_index` carried in the loop state. -/
def mult_mat4_mat4 (a b : mat4 K) : mat4 K :=
  ((List.range 4).foldl (fun (st : mat4 K × Nat) col =>
    (List.range 4).foldl (fun (st : mat4 K × Nat) row =>
      let sum := (List.range 4).foldl
        (fun (sum : K) i => sum + b.get (i + col * 4) * a.get (row + i * 4)) 0
      (st.1.set st.2 sum, st.2 + 1)) st) (mat4.zero, 0)).1

def mult_mat4_vec4 (m : mat4 K) (v : vec4 K) : vec4 K :=
  let x := m.get 0 * v.x + m.get 4 * v.y + m.get 8 * v.z + m.get 12 * v.w
  let y := m.get 1 * v.x + m.get 5 * v.y + m.get 9 * v.z + m.get 13 * v.w
  let z := m.get 2 * v.x + m.get 6 * v.y + m.get 10 * v.z + m.get 14 * v.w
  let w := m.get 3 * v.x + m.get 7 * v.y + m.get 11 * v.z + m.get 15 * v.w
  ⟨x, y, z, w⟩

def det_mat4 (mm : mat4 K) : K :=
  mm.get 12 * mm.get 9 * mm.get 6 * mm.get 3 - mm.get 8 * mm.get 13 * mm.get 6 * mm.get 3 - mm.get 12 * mm.get 5 * mm.get 10 * mm.get 3 +
  mm.get 4 * mm.get 13 * mm.get 10 * mm.get 3 + mm.get 8 * mm.get 5 * mm.get 14 * mm.get 3 - mm.get 4 * mm.get 9 * mm.get 14 * mm.get 3 -
  mm.get 12 * mm.get 9 * mm.get 2 * mm.get 7 + mm.get 8 * mm.get 13 * mm.get 2 * mm.get 7 + mm.get 12 * mm.get 1 * mm.get 10 * mm.get 7 -
  mm.get 0 * mm.get 13 * mm.get 10 * mm.get 7 - mm.get 8 * mm.get 1 * mm.get 14 * mm.get 7 + mm.get 0 * mm.get 9 * mm.get 14 * mm.get 7 +
  mm.get 12 * mm.get 5 * mm.get 2 * mm.get 11 - mm.get 4 * mm.get 13 * mm.get 2 * mm.get 11 - mm.get 12 * mm.get 1 * mm.get 6 * mm.get 11 +
  mm.get 0 * mm.get 13 * mm.get 6 * mm.get 11 + mm.get 4 * mm.get 1 * mm.get 14 * mm.get 11 - mm.get 0 * mm.get 5 * mm.get 14 * mm.get 11 -
  mm.get 8 * mm.get 5 * mm.get 2 * mm.get 15 + mm.get 4 * mm.get 9 * mm.get 2 * mm.get 15 + mm.get 8 * mm.get 1 * mm.get 6 * mm.get 15 -
  mm.get 0 * mm.get 9 * mm.get 6 * mm.get 15 - mm.get 4 * mm.get 1 * mm.get 10 * mm.get 15 + mm.get 0 * mm.get 5 * mm.get 10 * mm.get 15

/-- Inverse by cofactors.  The local `mat4 r` of the source is uninitialised; all of its
16 elements are assigned before it is returned, so it starts here from the zero matrix. -/
def inverse_mat4 (mm : mat4 K) : mat4 K :=
  let det := det_mat4 mm
  if 0 = det then mm
  else
    let inv_det := 1 / det
    let r : mat4 K := mat4.zero
    let r := r.set 0 (inv_det * (mm.get 9 * mm.get 14 * mm.get 7 - mm.get 13 * mm.get 10 * mm.get 7 + mm.get 13 * mm.get 6 * mm.get 11 - mm.get 5 * mm.get 14 * mm.get 11 -
      mm.get 9 * mm.get 6 * mm.get 15 + mm.get 5 * mm.get 10 * mm.get 15))
    let r := r.set 1 (inv_det * (mm.get 13 * mm.get 10 * mm.get 3 - mm.get 9 * mm.get 14 * mm.get 3 - mm.get 13 * mm.get 2 * mm.get 11 + mm.get 1 * mm.get 14 * mm.get 11 +
      mm.get 9 * mm.get 2 * mm.get 15 - mm.get 1 * mm.get 10 * mm.get 15))
    let r := r.set 2 (inv_det * (mm.get 5 * mm.get 14 * mm.get 3 - mm.get 13 * mm.get 6 * mm.get 3 + mm.get 13 * mm.get 2 * mm.get 7 - mm.get 1 * mm.get 14 * mm.get 7 -
      mm.get 5 * mm.get 2 * mm.get 15 + mm.get 1 * mm.get 6 * mm.get 15))
    let r := r.set 3 (inv_det * (mm.get 9 * mm.get 6 * mm.get 3 - mm.get 5 * mm.get 10 * mm.get 3 - mm.get 9 * mm.get 2 * mm.get 7 + mm.get 1 * mm.get 10 * mm.get 7 +
      mm.get 5 * mm.get 2 * mm.get 11 - mm.get 1 * mm.get 6 * mm.get 11))
    let r := r.set 4 (inv_det * (mm.get 12 * mm.get 10 * mm.get 7 - mm.get 8 * mm.get 14 * mm.get 7 - mm.get 12 * mm.get 6 * mm.get 11 + mm.get 4 * mm.get 14 * mm.get 11 +
      mm.get 8 * mm.get 6 * mm.get 15 - mm.get 4 * mm.get 10 * mm.get 15))
    let r := r.set 5 (inv_det * (mm.get 8 * mm.get 14 * mm.get 3 - mm.get 12 * mm.get 10 * mm.get 3 + mm.get 12 * mm.get 2 * mm.get 11 - mm.get 0 * mm.get 14 * mm.get 11 -
      mm.get 8 * mm.get 2 * mm.get 15 + mm.get 0 * mm.get 10 * mm.get 15))
    let r := r.set 6 (inv_det * (mm.get 12 * mm.get 6 * mm.get 3 - mm.get 4 * mm.get 14 * mm.get 3 - mm.get 12 * mm.get 2 * mm.get 7 + mm.get 0 * mm.get 14 * mm.get 7 +
      mm.get 4 * mm.get 2 * mm.get 15 - mm.get 0 * mm.get 6 * mm.get 15))
    let r := r.set 7 (inv_det * (mm.get 4 * mm.get 10 * mm.get 3 - mm.get 8 * mm.get 6 * mm.get 3 + mm.get 8 * mm.get 2 * mm.get 7 - mm.get 0 * mm.get 10 * mm.get 7 -
      mm.get 4 * mm.get 2 * mm.get 11 + mm.get 0 * mm.get 6 * mm.get 11))
    let r := r.set 8 (inv_det * (mm.get 8 * mm.get 13 * mm.get 7 - mm.get 12 * mm.get 9 * mm.get 7 + mm.get 12 * mm.get 5 * mm.get 11 - mm.get 4 * mm.get 13 * mm.get 11 -
      mm.get 8 * mm.get 5 * mm.get 15 + mm.get 4 * mm.get 9 * mm.get 15))
    let r := r.set 9 (inv_det * (mm.get 12 * mm.get 9 * mm.get 3 - mm.get 8 * mm.get 13 * mm.get 3 - mm.get 12 * mm.get 1 * mm.get 11 + mm.get 0 * mm.get 13 * mm.get 11 +
      mm.get 8 * mm.get 1 * mm.get 15 - mm.get 0 * mm.get 9 * mm.get 15))
    let r := r.set 10 (inv_det * (mm.get 4 * mm.get 13 * mm.get 3 - mm.get 12 * mm.get 5 * mm.get 3 + mm.get 12 * mm.get 1 * mm.get 7 - mm.get 0 * mm.get 13 * mm.get 7 -
      mm.get 4 * mm.get 1 * mm.get 15 + mm.get 0 * mm.get 5 * mm.get 15))
    let r := r.set 11 (inv_det * (mm.get 8 * mm.get 5 * mm.get 3 - mm.get 4 * mm.get 9 * mm.get 3 - mm.get 8 * mm.get 1 * mm.get 7 + mm.get 0 * mm.get 9 * mm.get 7 +
      mm.get 4 * mm.get 1 * mm.get 11 - mm.get 0 * mm.get 5 * mm.get 11))
    let r := r.set 12 (inv_det * (mm.get 12 * mm.get 9 * mm.get 6 - mm.get 8 * mm.get 13 * mm.get 6 - mm.get 12 * mm.get 5 * mm.get 10 + mm.get 4 * mm.get 13 * mm.get 10 +
      mm.get 8 * mm.get 5 * mm.get 14 - mm.get 4 * mm.get 9 * mm.get 14))
    let r := r.set 13 (inv_det * (mm.get 8 * mm.get 13 * mm.get 2 - mm.get 12 * mm.get 9 * mm.get 2 + mm.get 12 * mm.get 1 * mm.get 10 - mm.get 0 * mm.get 13 * mm.get 10 -
      mm.get 8 * mm.get 1 * mm.get 14 + mm.get 0 * mm.get 9 * mm.get 14))
    let r := r.set 14 (inv_det * (mm.get 12 * mm.get 5 * mm.get 2 - mm.get 4 * mm.get 13 * mm.get 2 - mm.get 12 * mm.get 1 * mm.get 6 + mm.get 0 * mm.get 13 * mm.get 6 +
      mm.get 4 * mm.get 1 * mm.get 14 - mm.get 0 * mm.get 5 * mm.get 14))
    let r := r.set 15 (inv_det * (mm.get 4 * mm.get 9 * mm.get 2 - mm.get 8 * mm.get 5 * mm.get 2 + mm.get 8 * mm.get 1 * mm.get 6 - mm.get 0 * mm.get 9 * mm.get 6 -
      mm.get 4 * mm.get 1 * mm.get 10 + mm.get 0 * mm.get 5 * mm.get 10))
    r

def translate_mat4 (vv : vec3 K) : mat4 K :=
  let r : mat4 K := identity_mat4
  let r := r.set 12 vv.x
  let r := r.set 13 vv.y
  let r := r.set 14 vv.z
  r

/-- Rotation about Y.  `deg * ONE_DEG_IN_RAD` is written as the macro expands,
`deg * ( 2.0f * M_PI ) / 360.0f`; the chained assignment `r.m[0] = r.m[10] = cosf( rad )`
writes element 10 first. -/
def rot_y_deg_mat4 (sinf cosf : K → K) (pi : K) (deg : K) : mat4 K :=
  let rad := deg * (2 * pi) / 360
  let r : mat4 K := identity_mat4
  let r := r.set 10 (cosf rad)
  let r := r.set 0 (r.get 10)
  let r := r.set 8 (sinf rad)
  let r := r.set 2 (-sinf rad)
  r

def scale_mat4 (v : vec3 K) : mat4 K :=
  let r : mat4 K := identity_mat4
  let r := r.set 0 v.x
  let r := r.set 5 v.y
  let r := r.set 10 v.z
  r

def look_at (sqrtf : K → K) (cam_pos targ_pos up : vec3 K) : mat4 K :=
  let p := translate_mat4 (⟨-cam_pos.x, -cam_pos.y, -cam_pos.z⟩ : vec3 K)
  let d := sub_vec3_vec3 targ_pos cam_pos
  let f := normalise_vec3 sqrtf d
  let r := normalise_vec3 sqrtf (cross_vec3 f up)
  let u := normalise_vec3 sqrtf (cross_vec3 r f)
  let ori : mat4 K := identity_mat4
  let ori := ori.set 0 r.x
  let ori := ori.set 4 r.y
  let ori := ori.set 8 r.z
  let ori := ori.set 1 u.x
  let ori := ori.set 5 u.y
  let ori := ori.set 9 u.z
  let ori := ori.set 2 (-f.x)
  let ori := ori.set 6 (-f.y)
  let ori := ori.set 10 (-f.z)
  mult_mat4_mat4 ori p

/-- Perspective projection.  `fovy * ONE_DEG_IN_RAD` is written as the macro expands. -/
def perspective (tanf : K → K) (pi : K) (fovy aspect near_plane far_plane : K) : mat4 K :=
  let fov_rad := fovy * (2 * pi) / 360
  let range := tanf (fov_rad / 2) * near_plane
  let sx := (2 * near_plane) / (range * aspect + range * aspect)
  let sy := near_plane / range
  let sz := -(far_plane + near_plane) / (far_plane - near_plane)
  let pz := -(2 * far_plane * near_plane) / (far_plane - near_plane)
  let m : mat4 K := mat4.zero
  let m := m.set 0 sx
  let m := m.set 5 sy
  let m := m.set 10 sz
  let m := m.set 14 pz
  let m := m.set 11 (-1)
  m

/-- Asymmetric projection for a sub-window; the `int` arguments are cast to `float`. -/
def perspective_offcentre_viewport (vp_w vp_h subvp_x subvp_y subvp_w subvp_h : Int)
    (P_orig : mat4 K) : mat4 K :=
  let subvp_x_ndc : K := ((subvp_x : K) / (vp_w : K)) * 2 - 1
  let subvp_y_ndc : K := ((subvp_y : K) / (vp_h : K)) * 2 - 1
  let subvp_w_ndc : K := ((subvp_w : K) / (vp_w : K)) * 2
  let subvp_h_ndc : K := ((subvp_h : K) / (vp_h : K)) * 2
  let M : mat4 K := mat4.zero
  let M := M.set 0 (2 / subvp_w_ndc)
  let M := M.set 5 (2 / subvp_h_ndc)
  let M := M.set 10 1
  let M := M.set 12 (-2 * subvp_x_ndc / subvp_w_ndc - 1)
  let M := M.set 13 (-2 * subvp_y_ndc / subvp_h_ndc - 1)
  let M := M.set 15 1
  let P_asym := mult_mat4_mat4 M P_orig
  P_asym

/-- The eight clip-space corners of the source's local array `corners_clip`. -/
def corners_clip : Fin 8 → vec4 K :=
  ![⟨-1, -1, -1, 1⟩, ⟨-1, 1, -1, 1⟩, ⟨1, 1, -1, 1⟩, ⟨1, -1, -1, 1⟩,
    ⟨-1, -1, 1, 1⟩, ⟨-1, 1, 1, 1⟩, ⟨1, 1, 1, 1⟩, ⟨1, -1, 1, 1⟩]

/-- The output buffer `corners_wor` of 8 points is the returned function; iteration `i` of
the loop reads and writes only element `i`. -/
def frustum_points_from_PV (PV : mat4 K) : Fin 8 → vec3 K :=
  let clip_to_world := inverse_mat4 PV
  fun i =>
    let c := mult_mat4_vec4 clip_to_world (corners_clip i)
    v3_v4 (div_vec4_f c c.w)

/-- The output buffer `planes_wor` of 6 normals is the returned function. -/
def frustum_planes_from_points (sqrtf : K → K) (corners_wor : Fin 8 → vec3 K) :
    Fin 6 → vec3 K :=
  let ftr_m_fbr := sub_vec3_vec3 (corners_wor 6) (corners_wor 7)
  let nbr_m_fbr := sub_vec3_vec3 (corners_wor 3) (corners_wor 7)
  let ftl_m_fbl := sub_vec3_vec3 (corners_wor 5) (corners_wor 4)
  let nbl_m_fbl := sub_vec3_vec3 (corners_wor 0) (corners_wor 4)
  let ntr_m_ntl := sub_vec3_vec3 (corners_wor 2) (corners_wor 1)
  let ftl_m_ntl := sub_vec3_vec3 (corners_wor 5) (corners_wor 1)
  let nbr_m_nbl := sub_vec3_vec3 (corners_wor 3) (corners_wor 0)
  let ntl_m_nbl := sub_vec3_vec3 (corners_wor 1) (corners_wor 0)
  let fbr_m_fbl := sub_vec3_vec3 (corners_wor 7) (corners_wor 4)
  ![normalise_vec3 sqrtf (cross_vec3 nbr_m_fbr ftr_m_fbr),
    normalise_vec3 sqrtf (cross_vec3 ftl_m_fbl nbl_m_fbl),
    normalise_vec3 sqrtf (cross_vec3 ftl_m_ntl ntr_m_ntl),
    normalise_vec3 sqrtf (cross_vec3 nbl_m_fbl fbr_m_fbl),
    normalise_vec3 sqrtf (cross_vec3 ntl_m_nbl nbr_m_nbl),
    normalise_vec3 sqrtf (cross_vec3 fbr_m_fbl ftl_m_fbl)]

/-! ### Inputs and measures used to state the frustum claims -/

/-- The eight corners, in the order nbl, ntl, ntr, nbr, fbl, ftl, ftr, fbr, of a frustum that
looks down -Z: near rectangle of half-extents `a`, `b` at `z = -n`, far rectangle of
half-extents `A`, `B` at `z = -f`. -/
def symmetric_frustum (a b A B n f : K) : Fin 8 → vec3 K :=
  ![⟨-a, -b, -n⟩, ⟨-a, b, -n⟩, ⟨a, b, -n⟩, ⟨a, -b, -n⟩,
    ⟨-A, -B, -f⟩, ⟨-A, B, -f⟩, ⟨A, B, -f⟩, ⟨A, -B, -f⟩]

/-- The centroid (arithmetic mean) of eight points. -/
def centroid (c : Fin 8 → vec3 K) : vec3 K :=
  ⟨((c 0).x + (c 1).x + (c 2).x + (c 3).x + (c 4).x + (c 5).x + (c 6).x + (c 7).x) / 8,
   ((c 0).y + (c 1).y + (c 2).y + (c 3).y + (c 4).y + (c 5).y + (c 6).y + (c 7).y) / 8,
   ((c 0).z + (c 1).z + (c 2).z + (c 3).z + (c 4).z + (c 5).z + (c 6).z + (c 7).z) / 8⟩

/-! ### Quaternions -/

/-- The C struct versor: a quaternion stored as w, x, y, z. -/
@[ext]
structure versor (K : Type) where
  w : K
  x : K
  y : K
  z : K
deriving DecidableEq, Repr

def add_vec3_vec3 (a b : vec3 K) : vec3 K := ⟨a.x + b.x, a.y + b.y, a.z + b.z⟩

def mult_vec3_f (a : vec3 K) (b : K) : vec3 K := ⟨a.x * b, a.y * b, a.z * b⟩

def div_quat_f (qq : versor K) (s : K) : versor K := ⟨qq.w / s, qq.x / s, qq.y / s, qq.z / s⟩

def mult_quat_f (qq : versor K) (s : K) : versor K := ⟨qq.w * s, qq.x * s, qq.y * s, qq.z * s⟩

def mult_quat_vec3 (q : versor K) (v : vec3 K) : vec3 K :=
  let b : vec3 K := ⟨q.x, q.y, q.z⟩
  let b2 := b.x * b.x + b.y * b.y + b.z * b.z
  let part_a := mult_vec3_f v (q.w * q.w - b2)
  let part_b := mult_vec3_f b (dot_vec3 v b * 2)
  let part_c := mult_vec3_f (cross_vec3 b v) (q.w * 2)
  let out := add_vec3_vec3 part_a (add_vec3_vec3 part_b part_c)
  out

/-- Normalisation with the epsilon short-circuit; `thresh` is the value of the binary32
literal `0.0001f`, which is 13743895 / 2^37, a little below 1/10000, and `fabs` is the
absolute value. -/
def normalise_quat (sqrtf : K → K) (q : versor K) : versor K :=
  let sum := q.w * q.w + q.x * q.x + q.y * q.y + q.z * q.z
  let thresh : K := 13743895 / 137438953472
  if |1 - sum| < thresh then q
  else
    let mag := sqrtf sum
    div_quat_f q mag

def mult_quat_quat (sqrtf : K → K) (a b : versor K) : versor K :=
  let result : versor K :=
    ⟨b.w * a.w - b.x * a.x - b.y * a.y - b.z * a.z,
     b.w * a.x + b.x * a.w - b.y * a.z + b.z * a.y,
     b.w * a.y + b.x * a.z + b.y * a.w - b.z * a.x,
     b.w * a.z - b.x * a.y + b.y * a.x + b.z * a.w⟩
  normalise_quat sqrtf result

def quat_from_axis_rad (sinf cosf : K → K) (radians : K) (axis : vec3 K) : versor K :=
  ⟨cosf (radians / 2),
   sinf (radians / 2) * axis.x,
   sinf (radians / 2) * axis.y,
   sinf (radians / 2) * axis.z⟩

/-- The argument `ONE_DEG_IN_RAD * degrees` is written as the macro expands,
`( 2.0f * M_PI ) / 360.0f * degrees`. -/
def quat_from_axis_deg (sinf cosf : K → K) (pi : K) (degrees : K) (axis : vec3 K) : versor K :=
  quat_from_axis_rad sinf cosf ((2 * pi) / 360 * degrees) axis

/-- Matrix of a quaternion.  The local `mat4 r` starts from the zero matrix (all 16 elements
are assigned); the chained assignment `r.m[11] = r.m[12] = r.m[13] = r.m[14] = 0.0f` writes
element 14 first. -/
def quat_to_mat4 (q : versor K) : mat4 K :=
  let w := q.w
  let x := q.x
  let y := q.y
  let z := q.z
  let r : mat4 K := mat4.zero
  let r := r.set 0 (1 - 2 * y * y - 2 * z * z)
  let r := r.set 1 (2 * x * y + 2 * w * z)
  let r := r.set 2 (2 * x * z - 2 * w * y)
  let r := r.set 3 0
  let r := r.set 4 (2 * x * y - 2 * w * z)
  let r := r.set 5 (1 - 2 * x * x - 2 * z * z)
  let r := r.set 6 (2 * y * z + 2 * w * x)
  let r := r.set 7 0
  let r := r.set 8 (2 * x * z + 2 * w * y)
  let r := r.set 9 (2 * y * z - 2 * w * x)
  let r := r.set 10 (1 - 2 * x * x - 2 * y * y)
  let r := r.set 14 0
  let r := r.set 13 0
  let r := r.set 12 0
  let r := r.set 11 0
  let r := r.set 15 1
  r

def dot_quat (q r : versor K) : K := q.w * r.w + q.x * r.x + q.y * r.y + q.z * r.z

/-- Spherical interpolation.  The reassignments of the parameter `q` and of the local
`cos_half_theta` inside the first `if` are the two conditional definitions `q1` and
`cos_half_theta1`; `0.001f` is the rational 1/1000. -/
def slerp_quat (sqrtf acosf sinf : K → K) (q r : versor K) (t : K) : versor K :=
  let cos_half_theta := dot_quat q r
  let q1 := if cos_half_theta < 0 then mult_quat_f q (-1) else q
  let cos_half_theta1 := if cos_half_theta < 0 then dot_quat q1 r else cos_half_theta
  if |cos_half_theta1| ≥ 1 then q1
  else
    let sin_half_theta := sqrtf (1 - cos_half_theta1 * cos_half_theta1)
    if |sin_half_theta| < 1 / 1000 then
      ⟨(1 - t) * q1.w + t * r.w,
       (1 - t) * q1.x + t * r.x,
       (1 - t) * q1.y + t * r.y,
       (1 - t) * q1.z + t * r.z⟩
    else
      let half_theta := acosf cos_half_theta1
      let a := sinf ((1 - t) * half_theta) / sin_half_theta
      let b := sinf (t * half_theta) / sin_half_theta
      ⟨q1.w * a + r.w * b,
       q1.x * a + r.x * b,
       q1.y * a + r.y * b,
       q1.z * a + r.z * b⟩

/-! ### Ray intersection -/

def ray_plane (ray_origin ray_direction plane_normal : vec3 K) (plane_d : K) : K :=
  -(dot_vec3 ray_origin plane_normal + plane_d) / dot_vec3 ray_direction plane_normal

/-- A `float` that may also be one of the IEEE special values: the ray tests start from
`INFINITY` and `ray_aabb` divides by direction components that may be zero.  Finite values
are exact elements of `K`; there is one zero, treated as `+0`. -/
inductive xfloat (K : Type) where
  | nan : xfloat K
  | neg_inf : xfloat K
  | val : K → xfloat K
  | pos_inf : xfloat K
deriving DecidableEq, Repr

/-- IEEE `a < b`: false when either side is NaN. -/
def xfloat.lt : xfloat K → xfloat K → Bool
  | .nan, _ => false
  | _, .nan => false
  | .neg_inf, .neg_inf => false
  | .neg_inf, _ => true
  | .val _, .neg_inf => false
  | .val a, .val b => decide (a < b)
  | .val _, .pos_inf => true
  | .pos_inf, _ => false

/-- IEEE `a <= b`: false when either side is NaN. -/
def xfloat.le : xfloat K → xfloat K → Bool
  | .nan, _ => false
  | _, .nan => false
  | .neg_inf, _ => true
  | .val _, .neg_inf => false
  | .val a, .val b => decide (a ≤ b)
  | .val _, .pos_inf => true
  | .pos_inf, .pos_inf => true
  | .pos_inf, _ => false

/-- The infinity with the sign of `a`, and NaN when `a` is zero. -/
def xfloat.signed_inf (a : K) : xfloat K :=
  if 0 < a then .pos_inf else if a < 0 then .neg_inf else .nan

/-- IEEE multiplication on exact values: `0 * inf` is NaN. -/
def xfloat.mul : xfloat K → xfloat K → xfloat K
  | .nan, _ => .nan
  | _, .nan => .nan
  | .val a, .val b => .val (a * b)
  | .val a, .pos_inf => xfloat.signed_inf a
  | .val a, .neg_inf => xfloat.signed_inf (-a)
  | .pos_inf, .val b => xfloat.signed_inf b
  | .neg_inf, .val b => xfloat.signed_inf (-b)
  | .pos_inf, .pos_inf => .pos_inf
  | .pos_inf, .neg_inf => .neg_inf
  | .neg_inf, .pos_inf => .neg_inf
  | .neg_inf, .neg_inf => .pos_inf

/-- IEEE division on exact values: a non-zero value over zero is an infinity with the sign
of the numerator, `0 / 0` and `inf / inf` are NaN, a finite value over an infinity is zero. -/
def xfloat.div : xfloat K → xfloat K → xfloat K
  | .nan, _ => .nan
  | _, .nan => .nan
  | .val a, .val b => if b = 0 then xfloat.signed_inf a else .val (a / b)
  | .val _, .pos_inf => .val 0
  | .val _, .neg_inf => .val 0
  | .pos_inf, .val b => if 0 ≤ b then .pos_inf else .neg_inf
  | .neg_inf, .val b => if 0 ≤ b then .neg_inf else .pos_inf
  | .pos_inf, .pos_inf => .nan
  | .pos_inf, .neg_inf => .nan
  | .neg_inf, .pos_inf => .nan
  | .neg_inf, .neg_inf => .nan

/-- Pointer indexing `(&v.x)[i]` into the three consecutive floats of a vec3. -/
def vec3.idx (v : vec3 K) (i : Nat) : K :=
  match i with
  | 0 => v.x
  | 1 => v.y
  | 2 => v.z
  | _ => 0

/-- One iteration of the loop of `ray_aabb` on the running `(tmin, tmax)`; `none` is the
early `return false`. -/
def ray_aabb_slab (ray_origin ray_direction aabb_min aabb_max : vec3 K)
    (st : xfloat K × xfloat K) (i : Nat) : Option (xfloat K × xfloat K) :=
  let tmin := st.1
  let tmax := st.2
  let invD := xfloat.div (.val 1) (.val (ray_direction.idx i))
  let t0 := xfloat.mul (.val (aabb_min.idx i - ray_origin.idx i)) invD
  let t1 := xfloat.mul (.val (aabb_max.idx i - ray_origin.idx i)) invD
  let t0s := if xfloat.lt invD (.val 0) then t1 else t0
  let t1s := if xfloat.lt invD (.val 0) then t0 else t1
  let tmin := if xfloat.lt tmin t0s then t0s else tmin
  let tmax := if xfloat.lt t1s tmax then t1s else tmax
  if xfloat.le tmax tmin then none else some (tmin, tmax)

/-- Slab test against an axis-aligned box: the loop over the three axes, leaving with
`false` as soon as an iteration does. -/
def ray_aabb (ray_origin ray_direction aabb_min aabb_max : vec3 K) (tmin tmax : xfloat K) :
    Bool :=
  match (List.range 3).foldlM
      (ray_aabb_slab ray_origin ray_direction aabb_min aabb_max) (tmin, tmax) with
  | some _ => true
  | none => false

/-- The C struct obb_t: centre, three side directions and three half lengths. -/
structure obb_t (K : Type) where
  centre : vec3 K
  norm_side_dir : Fin 3 → vec3 K
  half_lengths : Fin 3 → K

/-- The constant `FLT_EPSILON` of `<float.h>` for IEEE single precision, 2^-23. -/
def FLT_EPSILON : K := 1 / 8388608

/-- The locals of `ray_obb` that the loop updates. -/
structure ray_obb_state (K : Type) where
  tmin : xfloat K
  tmax : xfloat K
  imin : Int
  imax : Int

/-- One iteration of the loop of `ray_obb`; `none` is an early `return false`.  The swap of
`t1` and `t2` is the pair of conditional definitions `t1s`, `t2s`. -/
def ray_obb_slab (box : obb_t K) (p ray_d : vec3 K) (st : ray_obb_state K) (i : Fin 3) :
    Option (ray_obb_state K) :=
  let e := dot_vec3 (box.norm_side_dir i) p
  let f := dot_vec3 (box.norm_side_dir i) ray_d
  if |f| > FLT_EPSILON then
    let t1 := (e + box.half_lengths i) / f
    let t2 := (e - box.half_lengths i) / f
    let t1s := if t1 > t2 then t2 else t1
    let t2s := if t1 > t2 then t1 else t2
    let tmin := if xfloat.lt st.tmin (.val t1s) then .val t1s else st.tmin
    let imin := if xfloat.lt st.tmin (.val t1s) then (i.val : Int) else st.imin
    let tmax := if xfloat.lt (.val t2s) st.tmax then .val t2s else st.tmax
    let imax := if xfloat.lt (.val t2s) st.tmax then -(i.val : Int) else st.imax
    if xfloat.lt tmax tmin then none
    else if xfloat.lt tmax (.val 0) then none
    else some ⟨tmin, tmax, imin, imax⟩
  else if -e - box.half_lengths i > 0 ∨ -e + box.half_lengths i < 0 then none
  else some st

/-- What a call of `ray_obb` leaves behind: the returned bool and the contents of the two
out-parameters `*t` and `*face_num`. -/
structure ray_obb_result (K : Type) where
  hit : Bool
  t : xfloat K
  face_num : Int

/-- Ray against oriented box.  `face_num0` is what `*face_num` held before the call: a miss
leaves it untouched and leaves `*t` at the `0.0f` written on entry. -/
def ray_obb (box : obb_t K) (ray_o ray_d : vec3 K) (face_num0 : Int) : ray_obb_result K :=
  let p := sub_vec3_vec3 box.centre ray_o
  match ([0, 1, 2] : List (Fin 3)).foldlM (ray_obb_slab box p ray_d)
      ⟨.neg_inf, .pos_inf, 0, 0⟩ with
  | none => ⟨false, .val 0, face_num0⟩
  | some st =>
    ⟨true,
     if xfloat.lt (.val 0) st.tmin then st.tmin else st.tmax,
     if xfloat.lt (.val 0) st.tmin then st.imin + 1 else st.imax + 1⟩

/-! ### Inputs used to state the ray claims -/

/-- The box of the ray-OBB scenario: centre at the origin, world axes, half lengths 1. -/
def unit_obb : obb_t K :=
  ⟨⟨0, 0, 0⟩, ![⟨1, 0, 0⟩, ⟨0, 1, 0⟩, ⟨0, 0, 1⟩], ![1, 1, 1]⟩

/-! ### Transpose and angle wrapping -/

/-- Transpose.  The local `mat4 r` starts from the zero matrix; all 16 elements are
assigned. -/
def transpose_mat4 (mm : mat4 K) : mat4 K :=
  let r : mat4 K := mat4.zero
  let r := r.set 0 (mm.get 0)
  let r := r.set 4 (mm.get 1)
  let r := r.set 8 (mm.get 2)
  let r := r.set 12 (mm.get 3)
  let r := r.set 1 (mm.get 4)
  let r := r.set 5 (mm.get 5)
  let r := r.set 9 (mm.get 6)
  let r := r.set 13 (mm.get 7)
  let r := r.set 2 (mm.get 8)
  let r := r.set 6 (mm.get 9)
  let r := r.set 10 (mm.get 10)
  let r := r.set 14 (mm.get 11)
  let r := r.set 3 (mm.get 12)
  let r := r.set 7 (mm.get 13)
  let r := r.set 11 (mm.get 14)
  let r := r.set 15 (mm.get 15)
  r

/-- The conversion `(int)x` of a float: truncation toward zero.  A value outside the range of
`int` is undefined behaviour in C and is not modelled: the result is the unbounded integer. -/
def float_to_int [FloorRing K] (x : K) : Int :=
  if 0 ≤ x then ⌊x⌋ else ⌈x⌉

def wrap_degrees_360 [FloorRing K] (degrees : K) : K :=
  if degrees ≥ 0 ∧ degrees < 360 then degrees
  else
    let multiples : Int := float_to_int (degrees / 360)
    if degrees > 0 then degrees - (multiples : K) * 360
    else degrees + (multiples : K) * 360

def abs_diff_btw_degrees [FloorRing K] (first second : K) : K :=
  let first := wrap_degrees_360 first
  let second := wrap_degrees_360 second
  let diff := |first - second|
  if diff ≥ 180 then |diff - 360| else diff

/-! ### Binary32 arithmetic

The definitions above compute on exact values.  The ones below repeat `normalise_quat`,
`wrap_degrees_360` and `ray_aabb` with every float operation rounded to IEEE binary32 (round
to nearest, ties to even, gradual underflow, overflow to an infinity), each operation rounded
on its own.  They are used where the branch taken or the range of the result depends on the
rounding.  There is one zero, treated as `+0`. -/

/-- The integer nearest to `x`, the even one of the two on a tie. -/
def round_half_even [FloorRing K] (x : K) : Int :=
  if x - ⌊x⌋ < 1 / 2 then ⌊x⌋
  else if 1 / 2 < x - ⌊x⌋ then ⌊x⌋ + 1
  else if ⌊x⌋ % 2 = 0 then ⌊x⌋
  else ⌊x⌋ + 1

/-- The exponent of the unit in the last place of binary32 at `x`: 23 below the binary
exponent of `x` (24 significant bits), and -149 throughout the subnormal range. -/
def f32_ulp_exp [FloorRing K] (x : K) : Int :=
  max (Int.log 2 |x| - 23) (-149)

/-- The binary32 value nearest to `x`: `x` is rounded to a whole multiple of its unit in the
last place, ties to even; a result of magnitude `2^128` or more is an infinity. -/
def round_f32 [FloorRing K] (x : K) : xfloat K :=
  let r : K := (round_half_even (x / 2 ^ f32_ulp_exp x) : K) * 2 ^ f32_ulp_exp x
  if 2 ^ 128 ≤ r then .pos_inf
  else if r ≤ -2 ^ 128 then .neg_inf
  else .val r

/-- Rounding of an exact result: the special values stay as they are. -/
def xfloat.rnd [FloorRing K] : xfloat K → xfloat K
  | .nan => .nan
  | .neg_inf => .neg_inf
  | .val a => round_f32 a
  | .pos_inf => .pos_inf

/-- IEEE negation. -/
def xfloat.neg : xfloat K → xfloat K
  | .nan => .nan
  | .neg_inf => .pos_inf
  | .val a => .val (-a)
  | .pos_inf => .neg_inf

/-- The function `fabs`. -/
def xfloat.abs : xfloat K → xfloat K
  | .nan => .nan
  | .neg_inf => .pos_inf
  | .val a => .val |a|
  | .pos_inf => .pos_inf

/-- IEEE addition on exact values: `inf + (-inf)` is NaN. -/
def xfloat.add : xfloat K → xfloat K → xfloat K
  | .nan, _ => .nan
  | _, .nan => .nan
  | .val a, .val b => .val (a + b)
  | .val _, .pos_inf => .pos_inf
  | .val _, .neg_inf => .neg_inf
  | .pos_inf, .val _ => .pos_inf
  | .neg_inf, .val _ => .neg_inf
  | .pos_inf, .pos_inf => .pos_inf
  | .pos_inf, .neg_inf => .nan
  | .neg_inf, .pos_inf => .nan
  | .neg_inf, .neg_inf => .neg_inf

/-- The binary32 operation `a + b`. -/
def f32_add [FloorRing K] (a b : xfloat K) : xfloat K := (xfloat.add a b).rnd

/-- The binary32 operation `a - b`. -/
def f32_sub [FloorRing K] (a b : xfloat K) : xfloat K := (xfloat.add a (xfloat.neg b)).rnd

/-- The binary32 operation `a * b`. -/
def f32_mul [FloorRing K] (a b : xfloat K) : xfloat K := (xfloat.mul a b).rnd

/-- The binary32 operation `a / b`. -/
def f32_div [FloorRing K] (a b : xfloat K) : xfloat K := (xfloat.div a b).rnd

/-- The conversion `(float)n` of an `int`. -/
def int_to_f32 [FloorRing K] (n : Int) : xfloat K := round_f32 (n : K)

/-- The conversion `(int)x` of a binary32 value: truncation toward zero.  For NaN, an
infinity or a value outside the range of `int` the conversion is undefined behaviour in C and
is not modelled: a special value gives 0 and a finite value the unbounded integer. -/
def xfloat.to_int [FloorRing K] : xfloat K → Int
  | .val a => float_to_int a
  | _ => 0

/-- A function of `<math.h>` given by its exact counterpart `f`, correctly rounded, on the
finite arguments where `f` is defined (for `sqrtf`: the non-negative ones); special values are
returned as they are. -/
def xfloat.libm [FloorRing K] (f : K → K) : xfloat K → xfloat K
  | .val a => round_f32 (f a)
  | s => s

def div_quat_f_f32 [FloorRing K] (qq : versor (xfloat K)) (s : xfloat K) : versor (xfloat K) :=
  ⟨f32_div qq.w s, f32_div qq.x s, f32_div qq.y s, f32_div qq.z s⟩

/-- The function `normalise_quat` in binary32.  `thresh` is the value of the literal
`0.0001f`, 13743895 / 2^37; `fabs` and the comparison are exact on binary32 values. -/
def normalise_quat_f32 [FloorRing K] (sqrtf : xfloat K → xfloat K) (q : versor (xfloat K)) :
    versor (xfloat K) :=
  let sum := f32_add (f32_add (f32_add (f32_mul q.w q.w) (f32_mul q.x q.x))
    (f32_mul q.y q.y)) (f32_mul q.z q.z)
  let thresh : xfloat K := .val (13743895 / 137438953472)
  if xfloat.lt (xfloat.abs (f32_sub (.val 1) sum)) thresh then q
  else
    let mag := sqrtf sum
    div_quat_f_f32 q mag

/-- The function `wrap_degrees_360` in binary32. -/
def wrap_degrees_360_f32 [FloorRing K] (degrees : xfloat K) : xfloat K :=
  if xfloat.le (.val 0) degrees ∧ xfloat.lt degrees (.val 360) then degrees
  else
    let multiples : Int := xfloat.to_int (f32_div degrees (.val 360))
    if xfloat.lt (.val 0) degrees then
      f32_sub degrees (f32_mul (int_to_f32 multiples) (.val 360))
    else
      f32_add degrees (f32_mul (int_to_f32 multiples) (.val 360))

/-- The first lines of the loop body of `ray_aabb` in binary32, for axis `i`: `invD`, `t0`,
`t1` and the swap.  The result is the pair `(t0, t1)` after the swap. -/
def ray_aabb_t0_t1_f32 [FloorRing K] (ray_origin ray_direction aabb_min aabb_max : vec3 K)
    (i : Nat) : xfloat K × xfloat K :=
  let invD := f32_div (.val 1) (.val (ray_direction.idx i))
  let t0 := f32_mul (f32_sub (.val (aabb_min.idx i)) (.val (ray_origin.idx i))) invD
  let t1 := f32_mul (f32_sub (.val (aabb_max.idx i)) (.val (ray_origin.idx i))) invD
  if xfloat.lt invD (.val 0) then (t1, t0) else (t0, t1)

/-- One iteration of the loop of `ray_aabb` in binary32 on the running `(tmin, tmax)`;
`none` is the early `return false`. -/
def ray_aabb_slab_f32 [FloorRing K] (ray_origin ray_direction aabb_min aabb_max : vec3 K)
    (st : xfloat K × xfloat K) (i : Nat) : Option (xfloat K × xfloat K) :=
  let tmin := st.1
  let tmax := st.2
  let t := ray_aabb_t0_t1_f32 ray_origin ray_direction aabb_min aabb_max i
  let tmin := if xfloat.lt tmin t.1 then t.1 else tmin
  let tmax := if xfloat.lt t.2 tmax then t.2 else tmax
  if xfloat.le tmax tmin then none else some (tmin, tmax)

/-- The function `ray_aabb` in binary32, on finite box corners, origin and direction. -/
def ray_aabb_f32 [FloorRing K] (ray_origin ray_direction aabb_min aabb_max : vec3 K)
    (tmin tmax : xfloat K) : Bool :=
  match (List.range 3).foldlM
      (ray_aabb_slab_f32 ray_origin ray_direction aabb_min aabb_max) (tmin, tmax) with
  | some _ => true
  | none => false

end Defs

section Lemmas

variable {K : Type} [LinearOrderedField K]

/-- Reading the element that was just written. -/
theorem mat4.get_set_eq (a : mat4 K) (i : Nat) (x : K) (hi : i < 16) :
    (a.set i x).get i = x := by
  simp [mat4.get, mat4.set, hi]

/-- Reading another element than the one that was just written. -/
theorem mat4.get_set_ne (a : mat4 K) (i j : Nat) (x : K) (h : j ≠ i) :
    (a.set i x).get j = a.get j := by
  simp [mat4.get, mat4.set, h]

theorem mat4.get_zero (j : Nat) : (mat4.zero : mat4 K).get j = 0 := by
  simp [mat4.get, mat4.zero]

theorem mat4.ext_get {a b : mat4 K} (h : ∀ i, i < 16 → a.get i = b.get i) : a = b := by
  ext j
  have := h j.val j.isLt
  simpa [mat4.get, j.isLt] using this

/-- The loops of `mult_mat4_mat4` unrolled: element `i` of the product, read off the code. -/
theorem mult_mat4_mat4_get (a b : mat4 K) (i : Nat) (hi : i < 16) :
    (mult_mat4_mat4 a b).get i =
      0 + b.get (0 + i / 4 * 4) * a.get (i % 4 + 0 * 4)
        + b.get (1 + i / 4 * 4) * a.get (i % 4 + 1 * 4)
        + b.get (2 + i / 4 * 4) * a.get (i % 4 + 2 * 4)
        + b.get (3 + i / 4 * 4) * a.get (i % 4 + 3 * 4) := by
  interval_cases i <;> rfl

set_option maxHeartbeats 1000000 in
theorem mult_mat4_mat4_inverse_right (M : mat4 K) (h : det_mat4 M ≠ 0) :
    mult_mat4_mat4 M (inverse_mat4 M) = identity_mat4 := by
  have h' : ¬ (0 = det_mat4 M) := fun e => h e.symm
  have hc : 1 / det_mat4 M * det_mat4 M = 1 := one_div_mul_cancel h
  have hd : det_mat4 M = _ := det_mat4.eq_1 M
  apply mat4.ext_get
  intro i hi
  rw [mult_mat4_mat4_get _ _ _ hi]
  simp only [inverse_mat4, if_neg h', identity_mat4]
  generalize 1 / det_mat4 M = c at hc ⊢
  generalize det_mat4 M = d at hc hd
  interval_cases i <;>
  · simp (disch := decide) only [↓mat4.get_set_eq, ↓mat4.get_set_ne, mat4.get_zero,
      Nat.reduceDiv, Nat.reduceMod, Nat.reduceMul, Nat.reduceAdd]
    first
      | ring1
      | linear_combination hc - c * hd

set_option maxHeartbeats 1000000 in
theorem mult_mat4_mat4_inverse_left (M : mat4 K) (h : det_mat4 M ≠ 0) :
    mult_mat4_mat4 (inverse_mat4 M) M = identity_mat4 := by
  have h' : ¬ (0 = det_mat4 M) := fun e => h e.symm
  have hc : 1 / det_mat4 M * det_mat4 M = 1 := one_div_mul_cancel h
  have hd : det_mat4 M = _ := det_mat4.eq_1 M
  apply mat4.ext_get
  intro i hi
  rw [mult_mat4_mat4_get _ _ _ hi]
  simp only [inverse_mat4, if_neg h', identity_mat4]
  generalize 1 / det_mat4 M = c at hc ⊢
  generalize det_mat4 M = d at hc hd
  interval_cases i <;>
  · simp (disch := decide) only [↓mat4.get_set_eq, ↓mat4.get_set_ne, mat4.get_zero,
      Nat.reduceDiv, Nat.reduceMod, Nat.reduceMul, Nat.reduceAdd]
    first
      | ring1
      | linear_combination hc - c * hd

/-- The product applied to a vector is the two factors applied in turn, right factor first. -/
theorem mult_mat4_vec4_mult (A B : mat4 K) (v : vec4 K) :
    mult_mat4_vec4 (mult_mat4_mat4 A B) v = mult_mat4_vec4 A (mult_mat4_vec4 B v) := by
  simp only [mult_mat4_vec4]
  rw [mult_mat4_mat4_get _ _ 0 (by norm_num), mult_mat4_mat4_get _ _ 1 (by norm_num),
    mult_mat4_mat4_get _ _ 2 (by norm_num), mult_mat4_mat4_get _ _ 3 (by norm_num),
    mult_mat4_mat4_get _ _ 4 (by norm_num), mult_mat4_mat4_get _ _ 5 (by norm_num),
    mult_mat4_mat4_get _ _ 6 (by norm_num), mult_mat4_mat4_get _ _ 7 (by norm_num),
    mult_mat4_mat4_get _ _ 8 (by norm_num), mult_mat4_mat4_get _ _ 9 (by norm_num),
    mult_mat4_mat4_get _ _ 10 (by norm_num), mult_mat4_mat4_get _ _ 11 (by norm_num),
    mult_mat4_mat4_get _ _ 12 (by norm_num), mult_mat4_mat4_get _ _ 13 (by norm_num),
    mult_mat4_mat4_get _ _ 14 (by norm_num), mult_mat4_mat4_get _ _ 15 (by norm_num)]
  ext <;> norm_num <;> ring

theorem mult_mat4_vec4_identity (v : vec4 K) : mult_mat4_vec4 identity_mat4 v = v := by
  ext <;> simp (disch := decide) [mult_mat4_vec4, identity_mat4, ↓mat4.get_set_eq, ↓mat4.get_set_ne,
    mat4.get_zero]

/-- The determinant of the scenario matrix `translate · rot_y · scale`, for any `sinf`, `cosf`
that satisfy the Pythagorean identity. -/
theorem det_mat4_scenario (sinf cosf : K → K) (pi : K)
    (h : ∀ x, sinf x * sinf x + cosf x * cosf x = 1) :
    det_mat4 (mult_mat4_mat4 (mult_mat4_mat4 (translate_mat4 ⟨1, 2, 3⟩)
      (rot_y_deg_mat4 sinf cosf pi 30)) (scale_mat4 ⟨2, 2, 2⟩)) = 8 := by
  simp only [det_mat4]
  simp (disch := decide) only [mult_mat4_mat4_get, translate_mat4, rot_y_deg_mat4, scale_mat4,
    identity_mat4, ↓mat4.get_set_eq, ↓mat4.get_set_ne, mat4.get_zero,
    Nat.reduceDiv, Nat.reduceMod, Nat.reduceMul, Nat.reduceAdd,
    mul_zero, zero_mul, add_zero, zero_add, mul_one, one_mul, sub_zero, zero_sub, neg_zero]
  have := h (30 * (2 * pi) / 360)
  linear_combination 8 * this

/-- The view matrix applied to a point: the coordinates of the point relative to the camera
along the three normalised axes computed by `look_at`. -/
theorem look_at_apply (sqrtf : K → K) (eye target up v : vec3 K) :
    mult_mat4_vec4 (look_at sqrtf eye target up) (v4_v3f v 1) =
      ⟨dot_vec3 (normalise_vec3 sqrtf
          (cross_vec3 (normalise_vec3 sqrtf (sub_vec3_vec3 target eye)) up))
          (sub_vec3_vec3 v eye),
       dot_vec3 (normalise_vec3 sqrtf (cross_vec3
          (normalise_vec3 sqrtf
            (cross_vec3 (normalise_vec3 sqrtf (sub_vec3_vec3 target eye)) up))
          (normalise_vec3 sqrtf (sub_vec3_vec3 target eye)))) (sub_vec3_vec3 v eye),
       -dot_vec3 (normalise_vec3 sqrtf (sub_vec3_vec3 target eye)) (sub_vec3_vec3 v eye),
       1⟩ := by
  simp only [look_at, mult_mat4_vec4_mult]
  ext <;>
    simp (disch := decide) only [mult_mat4_vec4, translate_mat4, identity_mat4,
      ↓mat4.get_set_eq, ↓mat4.get_set_ne, mat4.get_zero, v4_v3f, dot_vec3, sub_vec3_vec3] <;>
    ring

/-- Whatever the length is, `normalise_vec3` returns a scalar multiple of its argument. -/
theorem normalise_vec3_scale (sqrtf : K → K) (v : vec3 K) :
    ∃ k, normalise_vec3 sqrtf v = ⟨k * v.x, k * v.y, k * v.z⟩ := by
  by_cases h : 0 = length_vec3 sqrtf v
  · exact ⟨0, by simp [normalise_vec3, if_pos h]⟩
  · exact ⟨1 / length_vec3 sqrtf v, by simp [normalise_vec3, h, div_eq_inv_mul]⟩

theorem length2_nonneg (v : vec3 K) : 0 ≤ v.x * v.x + v.y * v.y + v.z * v.z :=
  add_nonneg (add_nonneg (mul_self_nonneg _) (mul_self_nonneg _)) (mul_self_nonneg _)

theorem dot_normalise_self (sqrtf : K → K)
    (hsq : ∀ x, 0 ≤ x → 0 ≤ sqrtf x ∧ sqrtf x * sqrtf x = x) (v : vec3 K) :
    dot_vec3 (normalise_vec3 sqrtf v) v = length_vec3 sqrtf v := by
  have hl : length_vec3 sqrtf v * length_vec3 sqrtf v = v.x * v.x + v.y * v.y + v.z * v.z :=
    (hsq _ (length2_nonneg v)).2
  by_cases h : 0 = length_vec3 sqrtf v
  · simp [normalise_vec3, if_pos h, dot_vec3, ← h]
  · have hne : length_vec3 sqrtf v ≠ 0 := fun e => h e.symm
    simp only [normalise_vec3, if_neg h, dot_vec3]
    field_simp
    linear_combination -hl

theorem mult_mat4_vec4_div (M : mat4 K) (v : vec4 K) (s : K) :
    mult_mat4_vec4 M (div_vec4_f v s) = div_vec4_f (mult_mat4_vec4 M v) s := by
  ext <;> simp [mult_mat4_vec4, div_vec4_f] <;> ring

theorem mult_mat4_vec4_inverse (M : mat4 K) (h : det_mat4 M ≠ 0) (v : vec4 K) :
    mult_mat4_vec4 M (mult_mat4_vec4 (inverse_mat4 M) v) = v := by
  rw [← mult_mat4_vec4_mult, mult_mat4_mat4_inverse_right M h, mult_mat4_vec4_identity]

theorem corners_clip_w (i : Fin 8) : (corners_clip (K := K) i).w = 1 := by
  fin_cases i <;> rfl

theorem corners_clip_z (i : Fin 8) :
    (corners_clip (K := K) i).z = -1 ∨ (corners_clip (K := K) i).z = 1 := by
  fin_cases i <;> first | exact Or.inl rfl | exact Or.inr rfl

/-- The elements of the projection `perspective(90, 1, 1, 3)` over the rationals, with the
tangent of 45 degrees taken as 1. -/
theorem perspective_example_get (i : Nat) (hi : i < 16) :
    (perspective (fun _ => (1 : ℚ)) 0 90 1 1 3).get i =
      if i = 0 then 1 else if i = 5 then 1 else if i = 10 then -2 else if i = 14 then -3
      else if i = 11 then -1 else 0 := by
  interval_cases i <;>
    simp (disch := decide) only [perspective, ↓mat4.get_set_eq, ↓mat4.get_set_ne,
      mat4.get_zero] <;>
    norm_num

theorem length2_pos_of_dot_pos (v w : vec3 K) (h : 0 < dot_vec3 v w) :
    0 < v.x * v.x + v.y * v.y + v.z * v.z := by
  rcases (length2_nonneg v).lt_or_eq with h1 | h1
  · exact h1
  · exfalso
    have hx : v.x = 0 := by
      nlinarith [mul_self_nonneg v.x, mul_self_nonneg v.y, mul_self_nonneg v.z]
    have hy : v.y = 0 := by
      nlinarith [mul_self_nonneg v.x, mul_self_nonneg v.y, mul_self_nonneg v.z]
    have hz : v.z = 0 := by
      nlinarith [mul_self_nonneg v.x, mul_self_nonneg v.y, mul_self_nonneg v.z]
    simp [dot_vec3, hx, hy, hz] at h

theorem length_vec3_pos (sqrtf : K → K)
    (hsq : ∀ x, 0 ≤ x → 0 ≤ sqrtf x ∧ sqrtf x * sqrtf x = x) (v : vec3 K)
    (h : 0 < v.x * v.x + v.y * v.y + v.z * v.z) : 0 < length_vec3 sqrtf v := by
  obtain ⟨h0, h1⟩ := hsq _ h.le
  rcases h0.lt_or_eq with h2 | h2
  · exact h2
  · exfalso
    rw [← h2, zero_mul] at h1
    linarith

theorem dot_normalise_pos (sqrtf : K → K)
    (hsq : ∀ x, 0 ≤ x → 0 ≤ sqrtf x ∧ sqrtf x * sqrtf x = x) (v w : vec3 K)
    (h : 0 < dot_vec3 v w) : 0 < dot_vec3 (normalise_vec3 sqrtf v) w := by
  have hl := length_vec3_pos sqrtf hsq v (length2_pos_of_dot_pos v w h)
  have hne : ¬ (0 = length_vec3 sqrtf v) := fun e => by rw [← e] at hl; exact lt_irrefl _ hl
  simp only [normalise_vec3, if_neg hne, dot_vec3] at h ⊢
  have : v.x / length_vec3 sqrtf v * w.x + v.y / length_vec3 sqrtf v * w.y
      + v.z / length_vec3 sqrtf v * w.z
        = (v.x * w.x + v.y * w.y + v.z * w.z) / length_vec3 sqrtf v := by
    field_simp
  rw [this]
  exact div_pos h hl

theorem length_normalise_vec3 (sqrtf : K → K)
    (hsq : ∀ x, 0 ≤ x → 0 ≤ sqrtf x ∧ sqrtf x * sqrtf x = x) (v : vec3 K)
    (h : 0 < v.x * v.x + v.y * v.y + v.z * v.z) :
    length_vec3 sqrtf (normalise_vec3 sqrtf v) = 1 := by
  have hl := length_vec3_pos sqrtf hsq v h
  have hne : ¬ (0 = length_vec3 sqrtf v) := fun e => by rw [← e] at hl; exact lt_irrefl _ hl
  have hll : length_vec3 sqrtf v * length_vec3 sqrtf v = v.x * v.x + v.y * v.y + v.z * v.z :=
    (hsq _ h.le).2
  have e : length_vec3 sqrtf (normalise_vec3 sqrtf v) = sqrtf 1 := by
    simp only [normalise_vec3, if_neg hne]
    simp only [length_vec3] at hll hl ⊢
    congr 1
    field_simp
    linear_combination -hll
  obtain ⟨h0, h1⟩ := hsq 1 zero_le_one
  rw [e]
  nlinarith

/-- The six writes of `frustum_planes_from_points`, one per output index. -/
theorem frustum_planes_from_points_get (sqrtf : K → K) (c : Fin 8 → vec3 K) :
    frustum_planes_from_points sqrtf c 0 = normalise_vec3 sqrtf
      (cross_vec3 (sub_vec3_vec3 (c 3) (c 7)) (sub_vec3_vec3 (c 6) (c 7))) ∧
    frustum_planes_from_points sqrtf c 1 = normalise_vec3 sqrtf
      (cross_vec3 (sub_vec3_vec3 (c 5) (c 4)) (sub_vec3_vec3 (c 0) (c 4))) ∧
    frustum_planes_from_points sqrtf c 2 = normalise_vec3 sqrtf
      (cross_vec3 (sub_vec3_vec3 (c 5) (c 1)) (sub_vec3_vec3 (c 2) (c 1))) ∧
    frustum_planes_from_points sqrtf c 3 = normalise_vec3 sqrtf
      (cross_vec3 (sub_vec3_vec3 (c 0) (c 4)) (sub_vec3_vec3 (c 7) (c 4))) ∧
    frustum_planes_from_points sqrtf c 4 = normalise_vec3 sqrtf
      (cross_vec3 (sub_vec3_vec3 (c 1) (c 0)) (sub_vec3_vec3 (c 3) (c 0))) ∧
    frustum_planes_from_points sqrtf c 5 = normalise_vec3 sqrtf
      (cross_vec3 (sub_vec3_vec3 (c 7) (c 4)) (sub_vec3_vec3 (c 5) (c 4))) :=
  ⟨rfl, rfl, rfl, rfl, rfl, rfl⟩

theorem symmetric_frustum_get (a b A B n f : K) :
    symmetric_frustum a b A B n f 0 = ⟨-a, -b, -n⟩ ∧
    symmetric_frustum a b A B n f 1 = ⟨-a, b, -n⟩ ∧
    symmetric_frustum a b A B n f 2 = ⟨a, b, -n⟩ ∧
    symmetric_frustum a b A B n f 3 = ⟨a, -b, -n⟩ ∧
    symmetric_frustum a b A B n f 4 = ⟨-A, -B, -f⟩ ∧
    symmetric_frustum a b A B n f 5 = ⟨-A, B, -f⟩ ∧
    symmetric_frustum a b A B n f 6 = ⟨A, B, -f⟩ ∧
    symmetric_frustum a b A B n f 7 = ⟨A, -B, -f⟩ :=
  ⟨rfl, rfl, rfl, rfl, rfl, rfl, rfl, rfl⟩

theorem fin8_cases (j : Fin 8) :
    j = 0 ∨ j = 1 ∨ j = 2 ∨ j = 3 ∨ j = 4 ∨ j = 5 ∨ j = 6 ∨ j = 7 := by
  revert j; decide

/-- The un-normalised cross product of the right plane already points inwards. -/
theorem symmetric_frustum_right (a b A B n f : K) (ha : 0 < a) (hA : 0 < A) (hB : 0 < B)
    (hnf : n < f) (j : Fin 8) (hj : 0 < (symmetric_frustum a b A B n f j).x) :
    0 < dot_vec3 (cross_vec3
        (sub_vec3_vec3 (symmetric_frustum a b A B n f 3) (symmetric_frustum a b A B n f 7))
        (sub_vec3_vec3 (symmetric_frustum a b A B n f 6) (symmetric_frustum a b A B n f 7)))
      (sub_vec3_vec3 (centroid (symmetric_frustum a b A B n f))
        (symmetric_frustum a b A B n f j)) := by
  obtain ⟨c0, c1, c2, c3, c4, c5, c6, c7⟩ := symmetric_frustum_get a b A B n f
  have t := mul_pos (mul_pos hB (sub_pos.mpr hnf)) (add_pos hA ha)
  rcases fin8_cases j with rfl | rfl | rfl | rfl | rfl | rfl | rfl | rfl <;>
    simp only [centroid, c0, c1, c2, c3, c4, c5, c6, c7, dot_vec3, cross_vec3, sub_vec3_vec3]
      at hj ⊢ <;>
    first
      | (exfalso; linarith)
      | linarith

/-- The un-normalised cross product of the left plane already points inwards. -/
theorem symmetric_frustum_left (a b A B n f : K) (ha : 0 < a) (hA : 0 < A) (hB : 0 < B)
    (hnf : n < f) (j : Fin 8) (hj : (symmetric_frustum a b A B n f j).x < 0) :
    0 < dot_vec3 (cross_vec3
        (sub_vec3_vec3 (symmetric_frustum a b A B n f 5) (symmetric_frustum a b A B n f 4))
        (sub_vec3_vec3 (symmetric_frustum a b A B n f 0) (symmetric_frustum a b A B n f 4)))
      (sub_vec3_vec3 (centroid (symmetric_frustum a b A B n f))
        (symmetric_frustum a b A B n f j)) := by
  obtain ⟨c0, c1, c2, c3, c4, c5, c6, c7⟩ := symmetric_frustum_get a b A B n f
  have t := mul_pos (mul_pos hB (sub_pos.mpr hnf)) (add_pos hA ha)
  rcases fin8_cases j with rfl | rfl | rfl | rfl | rfl | rfl | rfl | rfl <;>
    simp only [centroid, c0, c1, c2, c3, c4, c5, c6, c7, dot_vec3, cross_vec3, sub_vec3_vec3]
      at hj ⊢ <;>
    first
      | (exfalso; linarith)
      | linarith

/-- The un-normalised cross product of the top plane already points inwards. -/
theorem symmetric_frustum_top (a b A B n f : K) (ha : 0 < a) (hb : 0 < b) (hB : 0 < B)
    (hnf : n < f) (j : Fin 8) (hj : 0 < (symmetric_frustum a b A B n f j).y) :
    0 < dot_vec3 (cross_vec3
        (sub_vec3_vec3 (symmetric_frustum a b A B n f 5) (symmetric_frustum a b A B n f 1))
        (sub_vec3_vec3 (symmetric_frustum a b A B n f 2) (symmetric_frustum a b A B n f 1)))
      (sub_vec3_vec3 (centroid (symmetric_frustum a b A B n f))
        (symmetric_frustum a b A B n f j)) := by
  obtain ⟨c0, c1, c2, c3, c4, c5, c6, c7⟩ := symmetric_frustum_get a b A B n f
  have t := mul_pos (mul_pos ha (sub_pos.mpr hnf)) (add_pos hB hb)
  rcases fin8_cases j with rfl | rfl | rfl | rfl | rfl | rfl | rfl | rfl <;>
    simp only [centroid, c0, c1, c2, c3, c4, c5, c6, c7, dot_vec3, cross_vec3, sub_vec3_vec3]
      at hj ⊢ <;>
    first
      | (exfalso; linarith)
      | linarith

/-- The un-normalised cross product of the bottom plane already points inwards. -/
theorem symmetric_frustum_bottom (a b A B n f : K) (hb : 0 < b) (hA : 0 < A) (hB : 0 < B)
    (hnf : n < f) (j : Fin 8) (hj : (symmetric_frustum a b A B n f j).y < 0) :
    0 < dot_vec3 (cross_vec3
        (sub_vec3_vec3 (symmetric_frustum a b A B n f 0) (symmetric_frustum a b A B n f 4))
        (sub_vec3_vec3 (symmetric_frustum a b A B n f 7) (symmetric_frustum a b A B n f 4)))
      (sub_vec3_vec3 (centroid (symmetric_frustum a b A B n f))
        (symmetric_frustum a b A B n f j)) := by
  obtain ⟨c0, c1, c2, c3, c4, c5, c6, c7⟩ := symmetric_frustum_get a b A B n f
  have t := mul_pos (mul_pos hA (sub_pos.mpr hnf)) (add_pos hB hb)
  rcases fin8_cases j with rfl | rfl | rfl | rfl | rfl | rfl | rfl | rfl <;>
    simp only [centroid, c0, c1, c2, c3, c4, c5, c6, c7, dot_vec3, cross_vec3, sub_vec3_vec3]
      at hj ⊢ <;>
    first
      | (exfalso; linarith)
      | linarith

/-- The un-normalised cross product of the near plane already points inwards. -/
theorem symmetric_frustum_near (a b A B n f : K) (ha : 0 < a) (hb : 0 < b)
    (hnf : n < f) (j : Fin 8) (hj : (symmetric_frustum a b A B n f j).z = -n) :
    0 < dot_vec3 (cross_vec3
        (sub_vec3_vec3 (symmetric_frustum a b A B n f 1) (symmetric_frustum a b A B n f 0))
        (sub_vec3_vec3 (symmetric_frustum a b A B n f 3) (symmetric_frustum a b A B n f 0)))
      (sub_vec3_vec3 (centroid (symmetric_frustum a b A B n f))
        (symmetric_frustum a b A B n f j)) := by
  obtain ⟨c0, c1, c2, c3, c4, c5, c6, c7⟩ := symmetric_frustum_get a b A B n f
  have t := mul_pos (mul_pos ha hb) (sub_pos.mpr hnf)
  rcases fin8_cases j with rfl | rfl | rfl | rfl | rfl | rfl | rfl | rfl <;>
    simp only [centroid, c0, c1, c2, c3, c4, c5, c6, c7, dot_vec3, cross_vec3, sub_vec3_vec3]
      at hj ⊢ <;>
    first
      | (exfalso; linarith)
      | linarith

/-- The un-normalised cross product of the far plane already points inwards. -/
theorem symmetric_frustum_far (a b A B n f : K) (hA : 0 < A) (hB : 0 < B)
    (hnf : n < f) (j : Fin 8) (hj : (symmetric_frustum a b A B n f j).z = -f) :
    0 < dot_vec3 (cross_vec3
        (sub_vec3_vec3 (symmetric_frustum a b A B n f 7) (symmetric_frustum a b A B n f 4))
        (sub_vec3_vec3 (symmetric_frustum a b A B n f 5) (symmetric_frustum a b A B n f 4)))
      (sub_vec3_vec3 (centroid (symmetric_frustum a b A B n f))
        (symmetric_frustum a b A B n f j)) := by
  obtain ⟨c0, c1, c2, c3, c4, c5, c6, c7⟩ := symmetric_frustum_get a b A B n f
  have t := mul_pos (mul_pos hA hB) (sub_pos.mpr hnf)
  rcases fin8_cases j with rfl | rfl | rfl | rfl | rfl | rfl | rfl | rfl <;>
    simp only [centroid, c0, c1, c2, c3, c4, c5, c6, c7, dot_vec3, cross_vec3, sub_vec3_vec3]
      at hj ⊢ <;>
    first
      | (exfalso; linarith)
      | linarith

theorem normalise_quat_of_lt (sqrtf : K → K) (q : versor K)
    (h : |1 - (q.w * q.w + q.x * q.x + q.y * q.y + q.z * q.z)| < 13743895 / 137438953472) :
    normalise_quat sqrtf q = q := by
  simp only [normalise_quat, if_pos h]

/-- Dividing a non-zero quaternion by the square root of its squared length gives squared
length 1. -/
theorem dot_quat_div_sqrt (sqrtf : K → K)
    (hsq : ∀ x, 0 ≤ x → 0 ≤ sqrtf x ∧ sqrtf x * sqrtf x = x) (q : versor K)
    (hs : 0 < q.w * q.w + q.x * q.x + q.y * q.y + q.z * q.z) :
    dot_quat (div_quat_f q (sqrtf (q.w * q.w + q.x * q.x + q.y * q.y + q.z * q.z)))
      (div_quat_f q (sqrtf (q.w * q.w + q.x * q.x + q.y * q.y + q.z * q.z))) = 1 := by
  obtain ⟨-, h1⟩ := hsq _ hs.le
  generalize sqrtf (q.w * q.w + q.x * q.x + q.y * q.y + q.z * q.z) = m at h1
  have hm : m ≠ 0 := by
    intro e
    rw [e, zero_mul] at h1
    exact absurd h1 (ne_of_lt hs)
  simp only [dot_quat, div_quat_f]
  field_simp
  linear_combination -h1

/-- The squared length of the Hamilton product computed by `mult_quat_quat` is the product
of the squared lengths. -/
theorem hamilton_norm (a b : versor K) :
    (b.w * a.w - b.x * a.x - b.y * a.y - b.z * a.z)
        * (b.w * a.w - b.x * a.x - b.y * a.y - b.z * a.z)
    + (b.w * a.x + b.x * a.w - b.y * a.z + b.z * a.y)
        * (b.w * a.x + b.x * a.w - b.y * a.z + b.z * a.y)
    + (b.w * a.y + b.x * a.z + b.y * a.w - b.z * a.x)
        * (b.w * a.y + b.x * a.z + b.y * a.w - b.z * a.x)
    + (b.w * a.z - b.x * a.y + b.y * a.x + b.z * a.w)
        * (b.w * a.z - b.x * a.y + b.y * a.x + b.z * a.w)
    = dot_quat a a * dot_quat b b := by
  simp only [dot_quat]; ring

/-- A quaternion built from a unit axis has squared length 1 when `sinf` and `cosf` satisfy
the Pythagorean identity. -/
theorem quat_from_axis_deg_unit (sinf cosf : K → K) (pi : K)
    (hsc : ∀ x, sinf x * sinf x + cosf x * cosf x = 1) (degrees : K) (axis : vec3 K)
    (hax : axis.x * axis.x + axis.y * axis.y + axis.z * axis.z = 1) :
    (quat_from_axis_deg sinf cosf pi degrees axis).w
        * (quat_from_axis_deg sinf cosf pi degrees axis).w
    + (quat_from_axis_deg sinf cosf pi degrees axis).x
        * (quat_from_axis_deg sinf cosf pi degrees axis).x
    + (quat_from_axis_deg sinf cosf pi degrees axis).y
        * (quat_from_axis_deg sinf cosf pi degrees axis).y
    + (quat_from_axis_deg sinf cosf pi degrees axis).z
        * (quat_from_axis_deg sinf cosf pi degrees axis).z
      = 1 := by
  simp only [quat_from_axis_deg, quat_from_axis_rad]
  have h := hsc (2 * pi / 360 * degrees / 2)
  generalize sinf (2 * pi / 360 * degrees / 2) = s at h ⊢
  generalize cosf (2 * pi / 360 * degrees / 2) = c at h ⊢
  linear_combination h + s * s * hax

/-- The early return of `slerp_quat`: two unit quaternions whose dot product is at least 1
are equal. -/
theorem versor_eq_of_dot_ge_one (q r : versor K) (hq : dot_quat q q = 1)
    (hr : dot_quat r r = 1) (h : 1 ≤ dot_quat q r) : q = r := by
  simp only [dot_quat] at hq hr h
  have hs : (q.w - r.w) * (q.w - r.w) + (q.x - r.x) * (q.x - r.x)
      + (q.y - r.y) * (q.y - r.y) + (q.z - r.z) * (q.z - r.z) ≤ 0 := by linarith
  have nw := mul_self_nonneg (q.w - r.w)
  have nx := mul_self_nonneg (q.x - r.x)
  have ny := mul_self_nonneg (q.y - r.y)
  have nz := mul_self_nonneg (q.z - r.z)
  ext
  · exact sub_eq_zero.mp (mul_self_eq_zero.mp (le_antisymm (by linarith) nw))
  · exact sub_eq_zero.mp (mul_self_eq_zero.mp (le_antisymm (by linarith) nx))
  · exact sub_eq_zero.mp (mul_self_eq_zero.mp (le_antisymm (by linarith) ny))
  · exact sub_eq_zero.mp (mul_self_eq_zero.mp (le_antisymm (by linarith) nz))

/-- The value of `slerp_quat` at `t = 0` in terms of the quaternion `q1` that the code
interpolates from (`q`, or `-q` when the dot product is negative). -/
theorem slerp_quat_zero (sqrtf acosf sinf : K → K) (h0 : sinf 0 = 0)
    (hacos : ∀ c, |c| < 1 → sinf (acosf c) = sqrtf (1 - c * c)) (q r : versor K) :
    slerp_quat sqrtf acosf sinf q r 0
      = if dot_quat q r < 0 then mult_quat_f q (-1) else q := by
  simp only [slerp_quat]
  generalize (if dot_quat q r < 0 then mult_quat_f q (-1) else q) = q1
  generalize (if dot_quat q r < 0 then dot_quat q1 r else dot_quat q r) = c
  by_cases h1 : |c| ≥ 1
  · rw [if_pos h1]
  · rw [if_neg h1]
    by_cases h2 : |sqrtf (1 - c * c)| < 1 / 1000
    · rw [if_pos h2]
      ext <;> simp
    · rw [if_neg h2]
      have hs : sqrtf (1 - c * c) ≠ 0 := by
        intro e
        rw [e] at h2
        norm_num at h2
      have ha : sinf (acosf c) = sqrtf (1 - c * c) := hacos c (not_le.mp h1)
      simp only [sub_zero, one_mul, zero_mul, h0, ha, zero_div, div_self hs, mul_one, mul_zero,
        add_zero]

/-- The value of `slerp_quat` at `t = 1` outside the early return. -/
theorem slerp_quat_one (sqrtf acosf sinf : K → K) (h0 : sinf 0 = 0)
    (hacos : ∀ c, |c| < 1 → sinf (acosf c) = sqrtf (1 - c * c)) (q r : versor K)
    (hq : dot_quat q q = 1) (hr : dot_quat r r = 1) :
    slerp_quat sqrtf acosf sinf q r 1 = r := by
  simp only [slerp_quat]
  have hq1 : dot_quat (if dot_quat q r < 0 then mult_quat_f q (-1) else q)
      (if dot_quat q r < 0 then mult_quat_f q (-1) else q) = 1 := by
    split_ifs
    · simp only [dot_quat, mult_quat_f] at hq ⊢; linear_combination hq
    · exact hq
  have hc : 0 ≤ (if dot_quat q r < 0
      then dot_quat (if dot_quat q r < 0 then mult_quat_f q (-1) else q) r
      else dot_quat q r) ∧
      (if dot_quat q r < 0
      then dot_quat (if dot_quat q r < 0 then mult_quat_f q (-1) else q) r
      else dot_quat q r) = dot_quat (if dot_quat q r < 0 then mult_quat_f q (-1) else q) r := by
    by_cases h : dot_quat q r < 0
    · simp only [if_pos h]
      refine ⟨?_, trivial⟩
      simp only [dot_quat, mult_quat_f] at h ⊢
      linarith
    · simp only [if_neg h]
      exact ⟨not_lt.mp h, trivial⟩
  generalize (if dot_quat q r < 0 then mult_quat_f q (-1) else q) = q1 at hq1 hc ⊢
  generalize (if dot_quat q r < 0 then dot_quat q1 r else dot_quat q r) = c at hc ⊢
  obtain ⟨hc0, hc1⟩ := hc
  by_cases h1 : |c| ≥ 1
  · rw [if_pos h1]
    rw [abs_of_nonneg hc0] at h1
    exact versor_eq_of_dot_ge_one q1 r hq1 hr (hc1 ▸ h1)
  · rw [if_neg h1]
    by_cases h2 : |sqrtf (1 - c * c)| < 1 / 1000
    · rw [if_pos h2]
      ext <;> simp
    · rw [if_neg h2]
      have hs : sqrtf (1 - c * c) ≠ 0 := by
        intro e
        rw [e] at h2
        norm_num at h2
      have ha : sinf (acosf c) = sqrtf (1 - c * c) := hacos c (not_le.mp h1)
      simp only [sub_self, one_mul, zero_mul, h0, ha, zero_div, div_self hs, mul_one, mul_zero,
        zero_add]

theorem FLT_EPSILON_pos : (0 : K) < FLT_EPSILON := by
  simp only [FLT_EPSILON]; norm_num

/-- A parameter between the two (ordered) slab intersections is inside the slab. -/
theorem slab_interval (e f h t : K) (hf : f ≠ 0) (hh : 0 ≤ h)
    (h1 : (if (e + h) / f > (e - h) / f then (e - h) / f else (e + h) / f) ≤ t)
    (h2 : t ≤ (if (e + h) / f > (e - h) / f then (e + h) / f else (e - h) / f)) :
    |-e + t * f| ≤ h := by
  rw [abs_le]
  rcases lt_or_gt_of_ne hf with hneg | hpos
  · -- f < 0
    have hle : (e + h) / f ≤ (e - h) / f := by
      rw [div_le_div_right_of_neg hneg]; linarith
    rw [if_neg (not_lt.mpr hle)] at h1 h2
    have a1 := (div_le_iff_of_neg hneg).mp h1
    have a2 := (le_div_iff_of_neg hneg).mp h2
    constructor <;> linarith
  · have hle : (e - h) / f ≤ (e + h) / f := by
      rw [div_le_div_iff_of_pos_right hpos]; linarith
    rcases hle.lt_or_eq with hlt | heq
    · rw [if_pos hlt] at h1 h2
      have a1 := (div_le_iff₀ hpos).mp h1
      have a2 := (le_div_iff₀ hpos).mp h2
      constructor <;> linarith
    · rw [if_neg (by rw [heq]; exact lt_irrefl _)] at h1 h2
      rw [← heq] at h1
      have a1 := (div_le_iff₀ hpos).mp h1
      rw [heq] at h2
      have a2 := (le_div_iff₀ hpos).mp h2
      constructor <;> linarith

/-- One iteration of the loop of `ray_obb` that does not return: the state keeps its shape,
the interval `[tmin, tmax]` shrinks to parameters inside slab `i`, and it is finite, ordered
and ends at a non-negative value as soon as one axis is not parallel to the ray. -/
theorem ray_obb_slab_some (box : obb_t K) (p d : vec3 K) (st st' : ray_obb_state K)
    (i : Fin 3) (hstep : ray_obb_slab box p d st i = some st')
    (hf : dot_vec3 (box.norm_side_dir i) d = 0 ∨
      |dot_vec3 (box.norm_side_dir i) d| > FLT_EPSILON)
    (hh : 0 ≤ box.half_lengths i)
    (hg : (st.tmin = .neg_inf ∨ ∃ a, st.tmin = .val a) ∧
      (st.tmax = .pos_inf ∨ ∃ b, st.tmax = .val b)) :
    ((st'.tmin = .neg_inf ∨ ∃ a, st'.tmin = .val a) ∧
      (st'.tmax = .pos_inf ∨ ∃ b, st'.tmax = .val b)) ∧
    (∀ t : K, xfloat.le st'.tmin (.val t) = true → xfloat.le (.val t) st'.tmax = true →
      xfloat.le st.tmin (.val t) = true ∧ xfloat.le (.val t) st.tmax = true ∧
      |-(dot_vec3 (box.norm_side_dir i) p) + t * dot_vec3 (box.norm_side_dir i) d|
        ≤ box.half_lengths i) ∧
    (dot_vec3 (box.norm_side_dir i) d ≠ 0 →
      ∃ a b, st'.tmin = .val a ∧ st'.tmax = .val b ∧ a ≤ b ∧ 0 ≤ b) ∧
    ((∃ a b, st.tmin = .val a ∧ st.tmax = .val b ∧ a ≤ b ∧ 0 ≤ b) →
      ∃ a b, st'.tmin = .val a ∧ st'.tmax = .val b ∧ a ≤ b ∧ 0 ≤ b) := by
  obtain ⟨tmin, tmax, imin, imax⟩ := st
  simp only at hg ⊢
  simp only [ray_obb_slab] at hstep
  generalize dot_vec3 (box.norm_side_dir i) p = e at hstep ⊢
  generalize dot_vec3 (box.norm_side_dir i) d = f at hstep hf ⊢
  generalize box.half_lengths i = h at hstep hh ⊢
  by_cases hpar : |f| > FLT_EPSILON
  · have hf0 : f ≠ 0 := by
      intro e0
      rw [e0, abs_zero] at hpar
      exact absurd hpar (not_lt.mpr FLT_EPSILON_pos.le)
    rw [if_pos hpar] at hstep
    have key := slab_interval e f h
    generalize (if (e + h) / f > (e - h) / f then (e - h) / f else (e + h) / f) = t1s
      at hstep key
    generalize (if (e + h) / f > (e - h) / f then (e + h) / f else (e - h) / f) = t2s
      at hstep key
    rcases hg with ⟨rfl | ⟨a, rfl⟩, rfl | ⟨b, rfl⟩⟩ <;>
      simp only [xfloat.lt, decide_eq_true_eq, if_true, if_false, reduceIte] at hstep <;>
      split_ifs at hstep <;>
      obtain rfl := Option.some.inj hstep <;>
      simp only [xfloat.lt, xfloat.le, decide_eq_true_eq, not_lt] at * <;>
      refine ⟨⟨by simp, by simp⟩,
        fun t h1 h2 => ⟨?_, ?_, key t hf0 hh (by linarith) (by linarith)⟩,
        fun _ => ⟨_, _, rfl, rfl, by linarith, by linarith⟩,
        fun _ => ⟨_, _, rfl, rfl, by linarith, by linarith⟩⟩ <;>
      first
        | trivial
        | linarith
  · rw [if_neg hpar] at hstep
    have hf0 : f = 0 := hf.resolve_right hpar
    by_cases hc : -e - h > 0 ∨ -e + h < 0
    · rw [if_pos hc] at hstep
      exact absurd hstep (by simp)
    · rw [if_neg hc] at hstep
      have hst : st' = ⟨tmin, tmax, imin, imax⟩ := (Option.some.inj hstep).symm
      subst hst
      simp only
      push_neg at hc
      refine ⟨hg, fun t h1 h2 => ⟨h1, h2, ?_⟩, fun hne => absurd hf0 hne, fun hfin => hfin⟩
      rw [hf0, mul_zero, add_zero, abs_le]
      constructor <;> linarith [hc.1, hc.2]

/-- The loop of `ray_obb` unrolled into its three iterations. -/
theorem ray_obb_loop (box : obb_t K) (p d : vec3 K) (st : ray_obb_state K) :
    ([0, 1, 2] : List (Fin 3)).foldlM (ray_obb_slab box p d) st
      = (ray_obb_slab box p d st 0).bind (fun s1 =>
          (ray_obb_slab box p d s1 1).bind (fun s2 => ray_obb_slab box p d s2 2)) := by
  simp only [List.foldlM_cons, List.foldlM_nil, Option.bind_eq_bind, bind_pure]

/-- The offset of a ray point from the centre, along a side direction, in terms of the dot
products `e` and `f` that `ray_obb` computes. -/
theorem ray_point_offset (n c o d : vec3 K) (t : K) :
    dot_vec3 n (sub_vec3_vec3 (add_vec3_vec3 o (mult_vec3_f d t)) c)
      = -(dot_vec3 n (sub_vec3_vec3 c o)) + t * dot_vec3 n d := by
  simp only [dot_vec3, sub_vec3_vec3, add_vec3_vec3, mult_vec3_f]; ring

theorem fin3_cases (i : Fin 3) : i = 0 ∨ i = 1 ∨ i = 2 := by
  revert i; decide

/-- A hit of `ray_obb` comes from a final loop state whose interval `[tmin, tmax]` is finite,
ordered, ends at a non-negative value, and holds only parameters inside all three slabs. -/
theorem ray_obb_hit_state (box : obb_t K) (ray_o ray_d : vec3 K) (face_num0 : Int)
    (hh : ∀ i, 0 ≤ box.half_lengths i)
    (hf : ∀ i, dot_vec3 (box.norm_side_dir i) ray_d = 0 ∨
      |dot_vec3 (box.norm_side_dir i) ray_d| > FLT_EPSILON)
    (hne : ∃ i, dot_vec3 (box.norm_side_dir i) ray_d ≠ 0)
    (hhit : (ray_obb box ray_o ray_d face_num0).hit = true) :
    ∃ (a b : K) (imin imax : Int),
      ray_obb box ray_o ray_d face_num0
        = ⟨true, if 0 < a then .val a else .val b, if 0 < a then imin + 1 else imax + 1⟩ ∧
      a ≤ b ∧ 0 ≤ b ∧
      ∀ t : K, a ≤ t → t ≤ b → ∀ i,
        |dot_vec3 (box.norm_side_dir i)
          (sub_vec3_vec3 (add_vec3_vec3 ray_o (mult_vec3_f ray_d t)) box.centre)|
          ≤ box.half_lengths i := by
  simp only [ray_obb, ray_obb_loop] at hhit ⊢
  cases h0 : ray_obb_slab box (sub_vec3_vec3 box.centre ray_o) ray_d
      ⟨.neg_inf, .pos_inf, 0, 0⟩ 0 with
  | none => simp [h0] at hhit
  | some s1 =>
    cases h1 : ray_obb_slab box (sub_vec3_vec3 box.centre ray_o) ray_d s1 1 with
    | none => simp [h0, h1] at hhit
    | some s2 =>
      cases h2 : ray_obb_slab box (sub_vec3_vec3 box.centre ray_o) ray_d s2 2 with
      | none => simp [h0, h1, h2] at hhit
      | some s3 =>
        obtain ⟨g1, w1, n1, -⟩ := ray_obb_slab_some box _ ray_d _ s1 0 h0 (hf 0) (hh 0)
          ⟨Or.inl rfl, Or.inl rfl⟩
        obtain ⟨g2, w2, n2, k2⟩ := ray_obb_slab_some box _ ray_d _ s2 1 h1 (hf 1) (hh 1) g1
        obtain ⟨g3, w3, n3, k3⟩ := ray_obb_slab_some box _ ray_d _ s3 2 h2 (hf 2) (hh 2) g2
        have hfin : ∃ a b, s3.tmin = .val a ∧ s3.tmax = .val b ∧ a ≤ b ∧ 0 ≤ b := by
          obtain ⟨i, hi⟩ := hne
          rcases fin3_cases i with rfl | rfl | rfl
          · exact k3 (k2 (n1 hi))
          · exact k3 (n2 hi)
          · exact n3 hi
        obtain ⟨a, b, ha, hb, hab, hb0⟩ := hfin
        refine ⟨a, b, s3.imin, s3.imax, ?_, hab, hb0, ?_⟩
        · simp only [h0, h1, h2, Option.some_bind, ha, hb, xfloat.lt, decide_eq_true_eq]
        · intro t hat htb i
          have x3 := w3 t (by simp only [ha, xfloat.le, decide_eq_true_eq]; exact hat)
            (by simp only [hb, xfloat.le, decide_eq_true_eq]; exact htb)
          have x2 := w2 t x3.1 x3.2.1
          have x1 := w1 t x2.1 x2.2.1
          rw [ray_point_offset]
          rcases fin3_cases i with rfl | rfl | rfl
          · exact x1.2.2
          · exact x2.2.2
          · exact x3.2.2

theorem range3 : List.range 3 = [0, 1, 2] := rfl

theorem unit_obb_get :
    (unit_obb : obb_t K).norm_side_dir 0 = ⟨1, 0, 0⟩ ∧
    (unit_obb : obb_t K).norm_side_dir 1 = ⟨0, 1, 0⟩ ∧
    (unit_obb : obb_t K).norm_side_dir 2 = ⟨0, 0, 1⟩ ∧
    (unit_obb : obb_t K).half_lengths 0 = 1 ∧
    (unit_obb : obb_t K).half_lengths 1 = 1 ∧
    (unit_obb : obb_t K).half_lengths 2 = 1 ∧
    (unit_obb : obb_t K).centre = ⟨0, 0, 0⟩ :=
  ⟨rfl, rfl, rfl, rfl, rfl, rfl, rfl⟩

/-- The two magnitudes that occur in the scenarios, against `FLT_EPSILON`. -/
theorem half_gt_eps : ¬ ((0 : K) > FLT_EPSILON) ∧ (1 : K) > FLT_EPSILON := by
  simp only [FLT_EPSILON]; constructor <;> norm_num

/-- The scenario ray from `(3,0,0)` towards `-X` against the unit box. -/
theorem ray_obb_unit_from_pos_x (face_num0 : Int) :
    ray_obb (unit_obb : obb_t K) ⟨3, 0, 0⟩ ⟨-1, 0, 0⟩ face_num0 = ⟨true, .val 2, 1⟩ := by
  obtain ⟨a0, a1, a2, l0, l1, l2, c⟩ := unit_obb_get (K := K)
  obtain ⟨e0, e1⟩ := half_gt_eps (K := K)
  have s0 : ray_obb_slab (unit_obb : obb_t K) ⟨-3, 0, 0⟩ ⟨-1, 0, 0⟩
      ⟨.neg_inf, .pos_inf, 0, 0⟩ 0 = some ⟨.val 2, .val 4, 0, 0⟩ := by
    norm_num [ray_obb_slab, a0, l0, dot_vec3, e1, xfloat.lt]
  have s1 : ray_obb_slab (unit_obb : obb_t K) ⟨-3, 0, 0⟩ ⟨-1, 0, 0⟩
      ⟨.val 2, .val 4, 0, 0⟩ 1 = some ⟨.val 2, .val 4, 0, 0⟩ := by
    norm_num [ray_obb_slab, a1, l1, dot_vec3, e0]
  have s2 : ray_obb_slab (unit_obb : obb_t K) ⟨-3, 0, 0⟩ ⟨-1, 0, 0⟩
      ⟨.val 2, .val 4, 0, 0⟩ 2 = some ⟨.val 2, .val 4, 0, 0⟩ := by
    norm_num [ray_obb_slab, a2, l2, dot_vec3, e0]
  have hp : sub_vec3_vec3 (unit_obb : obb_t K).centre ⟨3, 0, 0⟩ = ⟨-3, 0, 0⟩ := by
    rw [c]; simp [sub_vec3_vec3]
  simp [ray_obb, hp, s0, s1, s2, xfloat.lt]

/-- The mirrored ray from `(-3,0,0)` towards `+X` against the unit box. -/
theorem ray_obb_unit_from_neg_x (face_num0 : Int) :
    ray_obb (unit_obb : obb_t K) ⟨-3, 0, 0⟩ ⟨1, 0, 0⟩ face_num0 = ⟨true, .val 2, 1⟩ := by
  obtain ⟨a0, a1, a2, l0, l1, l2, c⟩ := unit_obb_get (K := K)
  obtain ⟨e0, e1⟩ := half_gt_eps (K := K)
  have s0 : ray_obb_slab (unit_obb : obb_t K) ⟨3, 0, 0⟩ ⟨1, 0, 0⟩
      ⟨.neg_inf, .pos_inf, 0, 0⟩ 0 = some ⟨.val 2, .val 4, 0, 0⟩ := by
    norm_num [ray_obb_slab, a0, l0, dot_vec3, e1, xfloat.lt]
  have s1 : ray_obb_slab (unit_obb : obb_t K) ⟨3, 0, 0⟩ ⟨1, 0, 0⟩
      ⟨.val 2, .val 4, 0, 0⟩ 1 = some ⟨.val 2, .val 4, 0, 0⟩ := by
    norm_num [ray_obb_slab, a1, l1, dot_vec3, e0]
  have s2 : ray_obb_slab (unit_obb : obb_t K) ⟨3, 0, 0⟩ ⟨1, 0, 0⟩
      ⟨.val 2, .val 4, 0, 0⟩ 2 = some ⟨.val 2, .val 4, 0, 0⟩ := by
    norm_num [ray_obb_slab, a2, l2, dot_vec3, e0]
  have hp : sub_vec3_vec3 (unit_obb : obb_t K).centre ⟨-3, 0, 0⟩ = ⟨3, 0, 0⟩ := by
    rw [c]; simp [sub_vec3_vec3]
  simp [ray_obb, hp, s0, s1, s2, xfloat.lt]

/-- A ray that starts at the centre of the unit box and leaves through the `+Y` face. -/
theorem ray_obb_unit_from_centre_y (face_num0 : Int) :
    ray_obb (unit_obb : obb_t K) ⟨0, 0, 0⟩ ⟨0, 1, 0⟩ face_num0 = ⟨true, .val 1, 0⟩ := by
  obtain ⟨a0, a1, a2, l0, l1, l2, c⟩ := unit_obb_get (K := K)
  obtain ⟨e0, e1⟩ := half_gt_eps (K := K)
  have s0 : ray_obb_slab (unit_obb : obb_t K) ⟨0, 0, 0⟩ ⟨0, 1, 0⟩
      ⟨.neg_inf, .pos_inf, 0, 0⟩ 0 = some ⟨.neg_inf, .pos_inf, 0, 0⟩ := by
    norm_num [ray_obb_slab, a0, l0, dot_vec3, e0]
  have s1 : ray_obb_slab (unit_obb : obb_t K) ⟨0, 0, 0⟩ ⟨0, 1, 0⟩
      ⟨.neg_inf, .pos_inf, 0, 0⟩ 1 = some ⟨.val (-1), .val 1, 1, -1⟩ := by
    norm_num [ray_obb_slab, a1, l1, dot_vec3, e1, xfloat.lt]
  have s2 : ray_obb_slab (unit_obb : obb_t K) ⟨0, 0, 0⟩ ⟨0, 1, 0⟩
      ⟨.val (-1), .val 1, 1, -1⟩ 2 = some ⟨.val (-1), .val 1, 1, -1⟩ := by
    norm_num [ray_obb_slab, a2, l2, dot_vec3, e0]
  have hp : sub_vec3_vec3 (unit_obb : obb_t K).centre ⟨0, 0, 0⟩ = ⟨0, 0, 0⟩ := by
    rw [c]; simp [sub_vec3_vec3]
  simp [ray_obb, hp, s0, s1, s2, xfloat.lt]

/-- A ray that starts at the centre of the unit box and leaves through the `+Z` face. -/
theorem ray_obb_unit_from_centre_z (face_num0 : Int) :
    ray_obb (unit_obb : obb_t K) ⟨0, 0, 0⟩ ⟨0, 0, 1⟩ face_num0 = ⟨true, .val 1, -1⟩ := by
  obtain ⟨a0, a1, a2, l0, l1, l2, c⟩ := unit_obb_get (K := K)
  obtain ⟨e0, e1⟩ := half_gt_eps (K := K)
  have s0 : ray_obb_slab (unit_obb : obb_t K) ⟨0, 0, 0⟩ ⟨0, 0, 1⟩
      ⟨.neg_inf, .pos_inf, 0, 0⟩ 0 = some ⟨.neg_inf, .pos_inf, 0, 0⟩ := by
    norm_num [ray_obb_slab, a0, l0, dot_vec3, e0]
  have s1 : ray_obb_slab (unit_obb : obb_t K) ⟨0, 0, 0⟩ ⟨0, 0, 1⟩
      ⟨.neg_inf, .pos_inf, 0, 0⟩ 1 = some ⟨.neg_inf, .pos_inf, 0, 0⟩ := by
    norm_num [ray_obb_slab, a1, l1, dot_vec3, e0]
  have s2 : ray_obb_slab (unit_obb : obb_t K) ⟨0, 0, 0⟩ ⟨0, 0, 1⟩
      ⟨.neg_inf, .pos_inf, 0, 0⟩ 2 = some ⟨.val (-1), .val 1, 2, -2⟩ := by
    norm_num [ray_obb_slab, a2, l2, dot_vec3, e1, xfloat.lt]
  have hp : sub_vec3_vec3 (unit_obb : obb_t K).centre ⟨0, 0, 0⟩ = ⟨0, 0, 0⟩ := by
    rw [c]; simp [sub_vec3_vec3]
  simp [ray_obb, hp, s0, s1, s2, xfloat.lt]

/-- The negative branch of `wrap_degrees_360`, for a value between -360 and 0: the quotient
truncates to 0 and the value comes back unchanged. -/
theorem wrap_degrees_360_small_neg [FloorRing K] (x : K) (h1 : -360 < x) (h2 : x < 0) :
    wrap_degrees_360 x = x := by
  simp only [wrap_degrees_360, float_to_int]
  have hq : ¬ (0 ≤ x / 360) := by
    rw [not_le, div_lt_iff₀ (by norm_num : (0 : K) < 360)]
    simpa using h2
  have hc : ⌈x / 360⌉ = 0 := by
    rw [Int.ceil_eq_iff]
    constructor
    · rw [lt_div_iff₀ (by norm_num : (0 : K) < 360)]
      push_cast
      linarith
    · push_cast
      exact (not_le.mp hq).le
  rw [if_neg (fun h => absurd h.1 (not_le.mpr h2)), if_neg (not_lt.mpr h2.le), if_neg hq, hc]
  simp

/-- The negative branch of `wrap_degrees_360` in general: the value moves away from zero by
the truncated multiples of 360. -/
theorem wrap_degrees_360_of_neg [FloorRing K] (x : K) (h : x < 0) :
    wrap_degrees_360 x = x + (⌈x / 360⌉ : K) * 360 := by
  simp only [wrap_degrees_360, float_to_int]
  have hq : ¬ (0 ≤ x / 360) := by
    rw [not_le, div_lt_iff₀ (by norm_num : (0 : K) < 360)]
    simpa using h
  rw [if_neg (fun h' => absurd h'.1 (not_le.mpr h)), if_neg (not_lt.mpr h.le), if_neg hq]

/-- The elements of the transpose, one per index. -/
theorem transpose_mat4_get (M : mat4 K) (i : Nat) (hi : i < 16) :
    (transpose_mat4 M).get i = M.get (i / 4 + 4 * (i % 4)) := by
  interval_cases i <;> rfl

/-- A value within half a unit of an integer `n` rounds to `n`; a value exactly half a unit
away rounds to `n` when `n` is even. -/
theorem round_half_even_eq [FloorRing K] (x : K) (n : Int)
    (h : |x - n| < 1 / 2 ∨ (|x - n| = 1 / 2 ∧ n % 2 = 0)) :
    round_half_even x = n := by
  by_cases hx : (n : K) ≤ x
  · have hd : |x - n| = x - n := abs_of_nonneg (by linarith)
    rw [hd] at h
    have hf : ⌊x⌋ = n := by
      rw [Int.floor_eq_iff]
      rcases h with h | ⟨h, -⟩ <;> constructor <;> linarith
    simp only [round_half_even, hf]
    rcases h with h | ⟨h, hn⟩
    · rw [if_pos h]
    · rw [if_neg (by linarith), if_neg (by linarith), if_pos hn]
  · have hd : |x - n| = n - x := by
      rw [abs_of_neg (by linarith)]; ring
    rw [hd] at h
    have hf : ⌊x⌋ = n - 1 := by
      rw [Int.floor_eq_iff]; push_cast
      rcases h with h | ⟨h, -⟩ <;> constructor <;> linarith
    simp only [round_half_even, hf]
    push_cast
    rcases h with h | ⟨h, hn⟩
    · rw [if_neg (by linarith), if_pos (by linarith)]
      ring
    · rw [if_neg (by linarith), if_neg (by linarith), if_neg (by omega)]
      ring

/-- The unit in the last place of a non-zero `x` with `2^(e+23) ≤ |x| < 2^(e+24)`, or with
`|x| < 2^(-125)` and `e = -149` in the subnormal range, has exponent `e`. -/
theorem f32_ulp_exp_eq [FloorRing K] (x : K) (e : Int) (hx : x ≠ 0) (he : -149 ≤ e)
    (hlo : e = -149 ∨ (2 : K) ^ (e + 23) ≤ |x|) (hhi : |x| < (2 : K) ^ (e + 24)) :
    f32_ulp_exp x = e := by
  have hpos : 0 < |x| := abs_pos.mpr hx
  have h2 : ((2 : ℕ) : K) = 2 := by norm_num
  have hup : Int.log 2 |x| < e + 24 := by
    rw [← Int.lt_zpow_iff_log_lt (by norm_num) hpos, h2]; exact hhi
  simp only [f32_ulp_exp]
  rcases hlo with rfl | hlo
  · exact max_eq_right (by omega)
  · have hdown : e + 23 ≤ Int.log 2 |x| := by
      rw [← Int.zpow_le_iff_le_log (by norm_num) hpos, h2]; exact hlo
    rw [max_eq_left (by omega)]; omega

theorem round_f32_zero [FloorRing K] : round_f32 (0 : K) = .val 0 := by
  have h : round_half_even ((0 : K) / 2 ^ f32_ulp_exp (0 : K)) = 0 := by
    apply round_half_even_eq; left; norm_num
  simp only [round_f32, h]
  norm_num

/-- Evaluation of `round_f32`: when `x` is in the binade whose unit in the last place is
`2^e` and `y = n * 2^e` is within half a unit of `x`, or exactly half a unit away with `n`
even, then `x` rounds to `y`. -/
theorem round_f32_eq [FloorRing K] (x y : K) (n e : Int) (he : -149 ≤ e)
    (hlo : e = -149 ∨ (2 : K) ^ (e + 23) ≤ |x|) (hhi : |x| < (2 : K) ^ (e + 24))
    (hy : (n : K) * (2 : K) ^ e = y)
    (hnear : |x - y| < (2 : K) ^ e / 2 ∨ (|x - y| = (2 : K) ^ e / 2 ∧ n % 2 = 0))
    (hfin : |y| < 2 ^ 128) :
    round_f32 x = .val y := by
  subst hy
  have hp : (0 : K) < 2 ^ e := zpow_pos (by norm_num) e
  by_cases hx : x = 0
  · subst hx
    have hn : n = 0 := by
      rw [zero_sub, abs_neg, abs_mul, abs_of_pos hp] at hnear
      have h1 : |(n : K)| < 1 := by
        by_contra hc
        have := mul_le_mul_of_nonneg_right (not_lt.mp hc) hp.le
        rcases hnear with h | ⟨h, -⟩ <;> linarith
      have h2 : |n| < 1 := by exact_mod_cast h1
      exact Int.abs_lt_one_iff.mp h2
    rw [round_f32_zero, hn]; simp
  · have hr : round_half_even (x / 2 ^ e) = n := by
      apply round_half_even_eq
      have : x / 2 ^ e - n = (x - n * 2 ^ e) / 2 ^ e := by field_simp; ring
      rw [this, abs_div, abs_of_pos hp, div_lt_iff₀ hp, div_eq_iff hp.ne.symm]
      rcases hnear with h | ⟨h, hn⟩
      · left; linarith
      · right; exact ⟨by linarith, hn⟩
    rw [abs_lt] at hfin
    simp only [round_f32, f32_ulp_exp_eq x e hx he hlo hhi, hr]
    rw [if_neg (by linarith), if_neg (by linarith)]

/-- The literal `0.0001f`: the binary32 value nearest to 1/10000 is 13743895 / 2^37. -/
theorem round_f32_thresh :
    round_f32 (1 / 10000 : ℚ) = .val (13743895 / 137438953472) := by
  apply round_f32_eq _ _ 13743895 (-37) <;> norm_num [abs_lt, le_abs, abs_div, abs_neg]

/-- Rounding to an integer moves a value by at most one half. -/
theorem round_half_even_near [FloorRing K] (y : K) : |(round_half_even y : K) - y| ≤ 1 / 2 := by
  have h1 := Int.floor_le y
  have h2 := Int.lt_floor_add_one y
  simp only [round_half_even]
  split_ifs with a b c
  · rw [abs_le]; constructor <;> linarith
  · push_cast; rw [abs_le]; constructor <;> linarith
  · rw [abs_le]; constructor <;> linarith
  · push_cast; rw [abs_le]; constructor <;> linarith

/-- Below magnitude 2 the unit in the last place is at most `2^-23`: rounding to binary32
gives a finite value within `2^-24` of the exact one. -/
theorem round_f32_near [FloorRing K] (x : K) (hx : |x| < 2) :
    ∃ y : K, round_f32 x = .val y ∧ |y - x| ≤ 1 / 16777216 := by
  have he : f32_ulp_exp x ≤ -23 := by
    simp only [f32_ulp_exp]
    apply max_le _ (by norm_num)
    by_cases h0 : x = 0
    · simp [h0]
    · have hpos : 0 < |x| := abs_pos.mpr h0
      have : Int.log 2 |x| < 1 := by
        rw [← Int.lt_zpow_iff_log_lt (by norm_num) hpos]
        simpa using hx
      omega
  have hp : (0 : K) < 2 ^ f32_ulp_exp x := zpow_pos (by norm_num) _
  have hle : (2 : K) ^ f32_ulp_exp x ≤ 1 / 8388608 := by
    calc (2 : K) ^ f32_ulp_exp x ≤ 2 ^ (-23 : Int) := zpow_le_zpow_right₀ (by norm_num) he
      _ = 1 / 8388608 := by norm_num
  have hn := round_half_even_near (x / 2 ^ f32_ulp_exp x)
  have hr : |(round_half_even (x / 2 ^ f32_ulp_exp x) : K) * 2 ^ f32_ulp_exp x - x|
      ≤ 1 / 16777216 := by
    have : (round_half_even (x / 2 ^ f32_ulp_exp x) : K) * 2 ^ f32_ulp_exp x - x
        = ((round_half_even (x / 2 ^ f32_ulp_exp x) : K) - x / 2 ^ f32_ulp_exp x)
          * 2 ^ f32_ulp_exp x := by
      field_simp
    rw [this, abs_mul, abs_of_pos hp]
    calc _ ≤ 1 / 2 * (1 / 8388608 : K) := mul_le_mul hn hle hp.le (by norm_num)
      _ = 1 / 16777216 := by norm_num
  refine ⟨_, ?_, hr⟩
  rw [abs_le] at hr
  rw [abs_lt] at hx
  simp only [round_f32]
  rw [if_neg (by norm_num; linarith), if_neg (by norm_num; linarith)]

/-- The guard of `normalise_quat` in binary32 on finite components of exact squared length
`s < 3/2`: the difference `1.0f - sum` the code computes is finite, and its eight roundings
move it from `1 - s` by at most `8 * 2^-24 = 2^-21`. -/
theorem normalise_quat_f32_guard_near [FloorRing K] (w x y z : K)
    (hs : w * w + x * x + y * y + z * z < 3 / 2) :
    ∃ d : K,
      f32_sub (.val 1)
        (f32_add (f32_add (f32_add (f32_mul (.val w) (.val w)) (f32_mul (.val x) (.val x)))
          (f32_mul (.val y) (.val y))) (f32_mul (.val z) (.val z))) = .val d ∧
      |d - (1 - (w * w + x * x + y * y + z * z))| ≤ 1 / 2097152 := by
  have hw := mul_self_nonneg w
  have hx := mul_self_nonneg x
  have hy := mul_self_nonneg y
  have hz := mul_self_nonneg z
  obtain ⟨a1, e1, b1⟩ := round_f32_near (w * w) (by
    rw [abs_lt]; constructor <;> linarith only [hs, hw, hx, hy, hz])
  obtain ⟨a2, e2, b2⟩ := round_f32_near (x * x) (by
    rw [abs_lt]; constructor <;> linarith only [hs, hw, hx, hy, hz])
  obtain ⟨a3, e3, b3⟩ := round_f32_near (y * y) (by
    rw [abs_lt]; constructor <;> linarith only [hs, hw, hx, hy, hz])
  obtain ⟨a4, e4, b4⟩ := round_f32_near (z * z) (by
    rw [abs_lt]; constructor <;> linarith only [hs, hw, hx, hy, hz])
  rw [abs_le] at b1 b2 b3 b4
  obtain ⟨c1, f1, g1⟩ := round_f32_near (a1 + a2) (by
    rw [abs_lt]; constructor <;> linarith only [hs, hw, hx, hy, hz, b1.1, b1.2, b2.1, b2.2])
  rw [abs_le] at g1
  obtain ⟨c2, f2, g2⟩ := round_f32_near (c1 + a3) (by
    rw [abs_lt]
    constructor <;>
      linarith only [hs, hw, hx, hy, hz, b1.1, b1.2, b2.1, b2.2, b3.1, b3.2, g1.1, g1.2])
  rw [abs_le] at g2
  have k1 : -(6 / 16777216) ≤ c2 + a4 - (w * w + x * x + y * y + z * z) := by
    linarith only [b1.1, b2.1, b3.1, b4.1, g1.1, g2.1]
  have k2 : c2 + a4 - (w * w + x * x + y * y + z * z) ≤ 6 / 16777216 := by
    linarith only [b1.2, b2.2, b3.2, b4.2, g1.2, g2.2]
  obtain ⟨c3, f3, g3⟩ := round_f32_near (c2 + a4) (by
    rw [abs_lt]; constructor <;> linarith only [hs, hw, hx, hy, hz, k1, k2])
  rw [abs_le] at g3
  obtain ⟨d, f4, g4⟩ := round_f32_near (1 + -c3) (by
    rw [abs_lt]; constructor <;> linarith only [hs, hw, hx, hy, hz, k1, k2, g3.1, g3.2])
  rw [abs_le] at g4
  refine ⟨d, ?_, ?_⟩
  · simp only [f32_mul, f32_add, f32_sub, xfloat.mul, xfloat.add, xfloat.neg, xfloat.rnd,
      e1, e2, e3, e4, f1, f2, f3, f4]
  · rw [abs_le]
    constructor
    · linarith only [k1, k2, g3.1, g3.2, g4.1, g4.2]
    · linarith only [k1, k2, g3.1, g3.2, g4.1, g4.2]

/-- Raising the lower end `lo` of an interval to `a` when `lo < a`: the new end is not NaN,
and a value is above it exactly when it is above `lo` and not at or below `a`.  A NaN `a`
changes nothing. -/
theorem xfloat.lt_raise (lo a : xfloat K) (hlo : lo ≠ .nan) :
    (if xfloat.lt lo a then a else lo) ≠ .nan ∧
    ∀ t : K, xfloat.lt (if xfloat.lt lo a then a else lo) (.val t) = true ↔
      (xfloat.lt lo (.val t) = true ∧ xfloat.le (.val t) a = false) := by
  rcases lo with _ | _ | l | _ <;> rcases a with _ | _ | a | _ <;>
    simp only [xfloat.lt, xfloat.le, ne_eq, not_true_eq_false, not_false_eq_true,
      Bool.false_eq_true, if_false, if_true, true_and, and_true, and_false, false_and,
      decide_eq_true_eq, decide_eq_false_iff_not, not_le, reduceCtorEq, iff_self,
      implies_true, and_self] at hlo ⊢
  by_cases h : l < a
  · simp only [h, if_true, xfloat.lt, decide_eq_true_eq, reduceCtorEq, not_false_eq_true,
      true_and]
    exact fun t => ⟨fun h' => ⟨lt_trans h h', h'⟩, fun h' => h'.2⟩
  · simp only [h, if_false, xfloat.lt, decide_eq_true_eq, reduceCtorEq, not_false_eq_true,
      true_and]
    exact fun t => ⟨fun h' => ⟨h', lt_of_le_of_lt (not_lt.mp h) h'⟩, fun h' => h'.1⟩

/-- Lowering the upper end `hi` of an interval to `b` when `b < hi`: the new end is not NaN,
and a value is below it exactly when it is below `hi` and not at or above `b`.  A NaN `b`
changes nothing. -/
theorem xfloat.lt_lower (hi b : xfloat K) (hhi : hi ≠ .nan) :
    (if xfloat.lt b hi then b else hi) ≠ .nan ∧
    ∀ t : K, xfloat.lt (.val t) (if xfloat.lt b hi then b else hi) = true ↔
      (xfloat.lt (.val t) hi = true ∧ xfloat.le b (.val t) = false) := by
  rcases hi with _ | _ | u | _ <;> rcases b with _ | _ | b | _ <;>
    simp only [xfloat.lt, xfloat.le, ne_eq, not_true_eq_false, not_false_eq_true,
      Bool.false_eq_true, if_false, if_true, true_and, and_true, and_false, false_and,
      decide_eq_true_eq, decide_eq_false_iff_not, not_le, reduceCtorEq, iff_self,
      implies_true, and_self] at hhi ⊢
  by_cases h : b < u
  · simp only [h, if_true, xfloat.lt, decide_eq_true_eq, reduceCtorEq, not_false_eq_true,
      true_and]
    exact fun t => ⟨fun h' => ⟨lt_trans h' h, h'⟩, fun h' => h'.2⟩
  · simp only [h, if_false, xfloat.lt, decide_eq_true_eq, reduceCtorEq, not_false_eq_true,
      true_and]
    exact fun t => ⟨fun h' => ⟨h', lt_of_lt_of_le h' (not_lt.mp h)⟩, fun h' => h'.1⟩

/-- An interval with ends that are not NaN is non-empty exactly when the comparison
`hi <= lo` fails. -/
theorem xfloat.le_eq_false_iff (lo hi : xfloat K) (hlo : lo ≠ .nan) (hhi : hi ≠ .nan) :
    xfloat.le hi lo = false ↔
      ∃ t : K, xfloat.lt lo (.val t) = true ∧ xfloat.lt (.val t) hi = true := by
  rcases lo with _ | _ | l | _ <;> rcases hi with _ | _ | u | _ <;>
    simp only [xfloat.lt, xfloat.le, ne_eq, not_true_eq_false, not_false_eq_true,
      Bool.false_eq_true, true_and, and_true, and_false, false_and, exists_false,
      decide_eq_true_eq, decide_eq_false_iff_not, not_le, reduceCtorEq, exists_const,
      iff_self, false_iff, true_iff, not_exists] at hlo hhi ⊢
  · exact ⟨u - 1, by linarith⟩
  · exact ⟨fun h => ⟨(l + u) / 2, by linarith, by linarith⟩, fun ⟨t, h1, h2⟩ => lt_trans h1 h2⟩
  · exact ⟨l + 1, by linarith⟩

/-- A property of the three loop indices. -/
theorem forall_lt_three (P : Nat → Prop) : (∀ i, i < 3 → P i) ↔ (P 0 ∧ P 1 ∧ P 2) := by
  constructor
  · exact fun h => ⟨h 0 (by norm_num), h 1 (by norm_num), h 2 (by norm_num)⟩
  · rintro ⟨h0, h1, h2⟩ i hi
    interval_cases i
    · exact h0
    · exact h1
    · exact h2

/-- One iteration of `ray_aabb` in binary32 on ends that are not NaN: the new ends are not
NaN, the iteration leaves with `false` exactly when the new upper end is at or below the new
lower end, and a value is strictly between the new ends exactly when it is strictly between
the old ones and neither at or below the computed `t0` nor at or above the computed `t1`. -/
theorem ray_aabb_slab_f32_inter [FloorRing K] (o d bmin bmax : vec3 K) (lo hi : xfloat K)
    (i : Nat) (hlo : lo ≠ .nan) (hhi : hi ≠ .nan) :
    ∃ lo' hi' : xfloat K, lo' ≠ .nan ∧ hi' ≠ .nan ∧
      ray_aabb_slab_f32 o d bmin bmax (lo, hi) i
        = (if xfloat.le hi' lo' then none else some (lo', hi')) ∧
      ∀ t : K, (xfloat.lt lo' (.val t) = true ∧ xfloat.lt (.val t) hi' = true) ↔
        (xfloat.lt lo (.val t) = true ∧ xfloat.lt (.val t) hi = true ∧
          xfloat.le (.val t) (ray_aabb_t0_t1_f32 o d bmin bmax i).1 = false ∧
          xfloat.le (ray_aabb_t0_t1_f32 o d bmin bmax i).2 (.val t) = false) := by
  obtain ⟨h1, h2⟩ := xfloat.lt_raise lo (ray_aabb_t0_t1_f32 o d bmin bmax i).1 hlo
  obtain ⟨h3, h4⟩ := xfloat.lt_lower hi (ray_aabb_t0_t1_f32 o d bmin bmax i).2 hhi
  refine ⟨_, _, h1, h3, rfl, fun t => ?_⟩
  rw [h2, h4]; tauto

/-- The three iterations of `ray_aabb` in binary32 combined, for a `tmin` and a `tmax` that
are not NaN: the result is `true` exactly when some value is strictly between `tmin` and
`tmax` and, on every axis, neither at or below the computed `t0` nor at or above the computed
`t1`. -/
theorem ray_aabb_f32_computed_iff [FloorRing K] (o d bmin bmax : vec3 K)
    (tmin tmax : xfloat K) (htmin : tmin ≠ .nan) (htmax : tmax ≠ .nan) :
    ray_aabb_f32 o d bmin bmax tmin tmax = true ↔
      ∃ t : K, xfloat.lt tmin (.val t) = true ∧ xfloat.lt (.val t) tmax = true ∧
        ∀ i, i < 3 →
          xfloat.le (.val t) (ray_aabb_t0_t1_f32 o d bmin bmax i).1 = false ∧
          xfloat.le (ray_aabb_t0_t1_f32 o d bmin bmax i).2 (.val t) = false := by
  obtain ⟨lo1, hi1, n1, m1, e1, w1⟩ :=
    ray_aabb_slab_f32_inter o d bmin bmax tmin tmax 0 htmin htmax
  obtain ⟨lo2, hi2, n2, m2, e2, w2⟩ := ray_aabb_slab_f32_inter o d bmin bmax lo1 hi1 1 n1 m1
  obtain ⟨lo3, hi3, n3, m3, e3, w3⟩ := ray_aabb_slab_f32_inter o d bmin bmax lo2 hi2 2 n2 m2
  have k1 : ∀ t : K, (xfloat.lt tmin (.val t) = true ∧ xfloat.lt (.val t) tmax = true ∧
      ∀ i, i < 3 →
        xfloat.le (.val t) (ray_aabb_t0_t1_f32 o d bmin bmax i).1 = false ∧
        xfloat.le (ray_aabb_t0_t1_f32 o d bmin bmax i).2 (.val t) = false) →
      (xfloat.lt lo1 (.val t) = true ∧ xfloat.lt (.val t) hi1 = true) ∧
      (xfloat.lt lo2 (.val t) = true ∧ xfloat.lt (.val t) hi2 = true) ∧
      (xfloat.lt lo3 (.val t) = true ∧ xfloat.lt (.val t) hi3 = true) := by
    rintro t ⟨a1, a2, a3⟩
    rw [forall_lt_three] at a3
    have b1 := (w1 t).mpr ⟨a1, a2, a3.1⟩
    have b2 := (w2 t).mpr ⟨b1.1, b1.2, a3.2.1⟩
    exact ⟨b1, b2, (w3 t).mpr ⟨b2.1, b2.2, a3.2.2⟩⟩
  simp only [ray_aabb_f32, range3, List.foldlM_cons, List.foldlM_nil, Option.bind_eq_bind,
    Option.pure_def, e1]
  by_cases c1 : xfloat.le hi1 lo1 = true
  · simp only [if_pos c1, Option.none_bind]
    constructor
    · intro h; exact absurd h (by simp)
    · rintro ⟨t, ht⟩
      have := (xfloat.le_eq_false_iff lo1 hi1 n1 m1).mpr ⟨t, (k1 t ht).1⟩
      rw [this] at c1; exact absurd c1 (by simp)
  · simp only [if_neg c1, Option.some_bind, e2]
    by_cases c2 : xfloat.le hi2 lo2 = true
    · simp only [if_pos c2, Option.none_bind]
      constructor
      · intro h; exact absurd h (by simp)
      · rintro ⟨t, ht⟩
        have := (xfloat.le_eq_false_iff lo2 hi2 n2 m2).mpr ⟨t, (k1 t ht).2.1⟩
        rw [this] at c2; exact absurd c2 (by simp)
    · simp only [if_neg c2, Option.some_bind, e3]
      by_cases c3 : xfloat.le hi3 lo3 = true
      · simp only [if_pos c3, Option.none_bind]
        constructor
        · intro h; exact absurd h (by simp)
        · rintro ⟨t, ht⟩
          have := (xfloat.le_eq_false_iff lo3 hi3 n3 m3).mpr ⟨t, (k1 t ht).2.2⟩
          rw [this] at c3; exact absurd c3 (by simp)
      · simp only [if_neg c3, Option.some_bind, true_iff]
        obtain ⟨t, ht⟩ := (xfloat.le_eq_false_iff lo3 hi3 n3 m3).mp
          (Bool.eq_false_iff.mpr c3)
        have b3 := (w3 t).mp ht
        have b2 := (w2 t).mp ⟨b3.1, b3.2.1⟩
        have b1 := (w1 t).mp ⟨b2.1, b2.2.1⟩
        exact ⟨t, b1.1, b1.2.1, (forall_lt_three _).mpr ⟨b1.2.2, b2.2.2, b3.2.2⟩⟩

/-- Axis `i` of `ray_aabb` in binary32 when its quotient `1 / d` and its two products are
computed without rounding error: a value is neither at or below the computed `t0` nor at or
above the computed `t1` exactly when the ray point is strictly between the two box planes of
the axis. -/
theorem ray_aabb_t0_t1_f32_exact [FloorRing K] (o d bmin bmax : vec3 K) (i : Nat)
    (hd : d.idx i ≠ 0)
    (hinv : f32_div (.val 1) (.val (d.idx i)) = .val (1 / d.idx i))
    (h0 : f32_mul (f32_sub (.val (bmin.idx i)) (.val (o.idx i)))
        (f32_div (.val 1) (.val (d.idx i))) = .val ((bmin.idx i - o.idx i) * (1 / d.idx i)))
    (h1 : f32_mul (f32_sub (.val (bmax.idx i)) (.val (o.idx i)))
        (f32_div (.val 1) (.val (d.idx i))) = .val ((bmax.idx i - o.idx i) * (1 / d.idx i)))
    (t : K) :
    (xfloat.le (.val t) (ray_aabb_t0_t1_f32 o d bmin bmax i).1 = false ∧
      xfloat.le (ray_aabb_t0_t1_f32 o d bmin bmax i).2 (.val t) = false) ↔
    (bmin.idx i < o.idx i + t * d.idx i ∧ o.idx i + t * d.idx i < bmax.idx i) := by
  simp only [ray_aabb_t0_t1_f32]
  rw [h0, h1, hinv]
  simp only [xfloat.lt, decide_eq_true_eq, mul_one_div]
  generalize d.idx i = e at hd
  generalize bmin.idx i = p
  generalize bmax.idx i = q
  generalize o.idx i = c
  rcases lt_or_gt_of_ne hd with hn | hp
  · rw [if_pos (one_div_neg.mpr hn)]
    simp only [xfloat.le, decide_eq_false_iff_not, not_le, div_lt_iff_of_neg hn,
      lt_div_iff_of_neg hn]
    constructor <;> rintro ⟨a, b⟩ <;> constructor <;> linarith
  · rw [if_neg (not_lt.mpr (one_div_pos.mpr hp).le)]
    simp only [xfloat.le, decide_eq_false_iff_not, not_le, div_lt_iff₀ hp, lt_div_iff₀ hp]
    constructor <;> rintro ⟨a, b⟩ <;> constructor <;> linarith

end Lemmas

/-! ## Claims -/

section Claims

variable {K : Type} [LinearOrderedField K]

/-- C1: for every matrix `M` with non-zero determinant, `inverse_mat4 M` is a two-sided
inverse of `M` for `mult_mat4_mat4`: both products equal `identity_mat4`. -/
theorem inverse_mat4_two_sided (M : mat4 K) (h : det_mat4 M ≠ 0) :
    mult_mat4_mat4 M (inverse_mat4 M) = identity_mat4 ∧
    mult_mat4_mat4 (inverse_mat4 M) M = identity_mat4 :=
  ⟨mult_mat4_mat4_inverse_right M h, mult_mat4_mat4_inverse_left M h⟩

/-- C1 at the scenario matrix `T = translate((1,2,3)) · rot_y_deg(30) · scale((2,2,2))` over
the reals: its determinant is 8, and `T` times its inverse is the identity on both sides. -/
theorem inverse_mat4_two_sided_witness :
    det_mat4 (mult_mat4_mat4 (mult_mat4_mat4 (translate_mat4 (⟨1, 2, 3⟩ : vec3 ℝ))
      (rot_y_deg_mat4 Real.sin Real.cos Real.pi 30)) (scale_mat4 ⟨2, 2, 2⟩)) ≠ 0 ∧
    mult_mat4_mat4
      (mult_mat4_mat4 (mult_mat4_mat4 (translate_mat4 (⟨1, 2, 3⟩ : vec3 ℝ))
        (rot_y_deg_mat4 Real.sin Real.cos Real.pi 30)) (scale_mat4 ⟨2, 2, 2⟩))
      (inverse_mat4 (mult_mat4_mat4 (mult_mat4_mat4 (translate_mat4 (⟨1, 2, 3⟩ : vec3 ℝ))
        (rot_y_deg_mat4 Real.sin Real.cos Real.pi 30)) (scale_mat4 ⟨2, 2, 2⟩)))
      = identity_mat4 ∧
    mult_mat4_mat4
      (inverse_mat4 (mult_mat4_mat4 (mult_mat4_mat4 (translate_mat4 (⟨1, 2, 3⟩ : vec3 ℝ))
        (rot_y_deg_mat4 Real.sin Real.cos Real.pi 30)) (scale_mat4 ⟨2, 2, 2⟩)))
      (mult_mat4_mat4 (mult_mat4_mat4 (translate_mat4 (⟨1, 2, 3⟩ : vec3 ℝ))
        (rot_y_deg_mat4 Real.sin Real.cos Real.pi 30)) (scale_mat4 ⟨2, 2, 2⟩))
      = identity_mat4 := by
  have hd := det_mat4_scenario Real.sin Real.cos Real.pi
    (fun x => by have := Real.sin_sq_add_cos_sq x; nlinarith)
  have hne : det_mat4 (mult_mat4_mat4 (mult_mat4_mat4 (translate_mat4 (⟨1, 2, 3⟩ : vec3 ℝ))
      (rot_y_deg_mat4 Real.sin Real.cos Real.pi 30)) (scale_mat4 ⟨2, 2, 2⟩)) ≠ 0 := by
    rw [hd]; norm_num
  exact ⟨hne, inverse_mat4_two_sided _ hne⟩

/-- C2: when the determinant of `M` is exactly zero, `inverse_mat4 M` is `M` itself, all 16
elements unchanged; the function is total and has no error channel. -/
theorem inverse_mat4_singular (M : mat4 K) (h : det_mat4 M = 0) : inverse_mat4 M = M := by
  simp [inverse_mat4, h]

/-- C2 at the singular matrix `scale((2,3,0))` over the rationals. -/
theorem inverse_mat4_singular_witness :
    det_mat4 (scale_mat4 (⟨2, 3, 0⟩ : vec3 ℚ)) = 0 ∧
    inverse_mat4 (scale_mat4 (⟨2, 3, 0⟩ : vec3 ℚ)) = scale_mat4 ⟨2, 3, 0⟩ :=
  ⟨by simp (disch := decide) [det_mat4, scale_mat4, identity_mat4, ↓mat4.get_set_eq,
      ↓mat4.get_set_ne, mat4.get_zero],
   inverse_mat4_singular _
    (by simp (disch := decide) [det_mat4, scale_mat4, identity_mat4, ↓mat4.get_set_eq,
      ↓mat4.get_set_ne, mat4.get_zero])⟩

/-- C3: `det_mat4 M` is the determinant of the 4x4 matrix whose entry at row `r`, column `c`
is `M.m[r + 4*c]`. -/
theorem det_mat4_eq_det (M : mat4 K) :
    det_mat4 M = Matrix.det (Matrix.of fun (r c : Fin 4) => M.get (r.val + 4 * c.val)) := by
  have e1 : ∀ j : Fin 3,
      (Fin.succAbove (1 : Fin 4) j).val = if j.val = 0 then 0 else j.val + 1 := by decide
  have e2 : ∀ j : Fin 3,
      (Fin.succAbove (2 : Fin 4) j).val = if j.val ≤ 1 then j.val else j.val + 1 := by decide
  have e3 : ∀ j : Fin 3, (Fin.succAbove (3 : Fin 4) j).val = j.val := by decide
  rw [Matrix.det_succ_row_zero]
  simp [Fin.sum_univ_succ, Matrix.det_fin_three, e1, e2, e3, det_mat4]
  ring

/-- C4: applying `mult_mat4_mat4 A B` to a column vector applies `B` first and then `A`, and
the element at row `r`, column `c` of the product is the sum over `i` of
`A.m[r + 4*i] * B.m[i + 4*c]`. -/
theorem mult_mat4_mat4_composes (A B : mat4 K) :
    (∀ v : vec4 K,
      mult_mat4_vec4 (mult_mat4_mat4 A B) v = mult_mat4_vec4 A (mult_mat4_vec4 B v)) ∧
    (∀ r c : Fin 4, (mult_mat4_mat4 A B).get (r.val + 4 * c.val)
        = ∑ i : Fin 4, A.get (r.val + 4 * i.val) * B.get (i.val + 4 * c.val)) := by
  refine ⟨mult_mat4_vec4_mult A B, ?_⟩
  intro r c
  rw [mult_mat4_mat4_get _ _ _ (by omega)]
  fin_cases r <;> fin_cases c <;> simp [Fin.sum_univ_succ] <;> ring

/-- C5: for every eye, target and up vector, `look_at` maps the point `(target, 1)` to
`(0, 0, -|target - eye|, 1)`: the target lies on the view-space -Z axis at its distance from
the eye.  `sqrtf` is any function that returns the non-negative square root. -/
theorem look_at_target (sqrtf : K → K)
    (hsq : ∀ x, 0 ≤ x → 0 ≤ sqrtf x ∧ sqrtf x * sqrtf x = x) (eye target up : vec3 K) :
    mult_mat4_vec4 (look_at sqrtf eye target up) (v4_v3f target 1) =
      ⟨0, 0, -length_vec3 sqrtf (sub_vec3_vec3 target eye), 1⟩ := by
  rw [look_at_apply, dot_normalise_self sqrtf hsq]
  obtain ⟨k0, h0⟩ := normalise_vec3_scale sqrtf (sub_vec3_vec3 target eye)
  obtain ⟨k1, h1⟩ := normalise_vec3_scale sqrtf
    (cross_vec3 (normalise_vec3 sqrtf (sub_vec3_vec3 target eye)) up)
  obtain ⟨k2, h2⟩ := normalise_vec3_scale sqrtf (cross_vec3
    (normalise_vec3 sqrtf (cross_vec3 (normalise_vec3 sqrtf (sub_vec3_vec3 target eye)) up))
    (normalise_vec3 sqrtf (sub_vec3_vec3 target eye)))
  rw [h2, h1, h0]
  ext <;> simp [dot_vec3, cross_vec3, sub_vec3_vec3] <;> ring

/-- C5 at the scenario of the specification, over the reals with the real square root:
`look_at((0,0,5), (0,0,0), (0,1,0))` applied to `(0,0,0,1)` gives `(0,0,-5,1)`. -/
theorem look_at_target_witness :
    mult_mat4_vec4 (look_at Real.sqrt (⟨0, 0, 5⟩ : vec3 ℝ) ⟨0, 0, 0⟩ ⟨0, 1, 0⟩) ⟨0, 0, 0, 1⟩
      = ⟨0, 0, -5, 1⟩ := by
  have h := look_at_target Real.sqrt
    (fun x hx => ⟨Real.sqrt_nonneg x, Real.mul_self_sqrt hx⟩)
    (⟨0, 0, 5⟩ : vec3 ℝ) ⟨0, 0, 0⟩ ⟨0, 1, 0⟩
  have e : length_vec3 Real.sqrt (sub_vec3_vec3 (⟨0, 0, 0⟩ : vec3 ℝ) ⟨0, 0, 5⟩) = 5 := by
    simp only [length_vec3, sub_vec3_vec3]
    rw [show ((0:ℝ) - 0) * (0 - 0) + (0 - 0) * (0 - 0) + (0 - 5) * (0 - 5) = 5 ^ 2 by norm_num]
    exact Real.sqrt_sq (by norm_num)
  rw [e] at h
  simpa [v4_v3f] using h

/-- C6: for every `fovy` and `aspect` and all `near`, `far` that are non-zero and different,
and every `x`, `y`: `perspective` maps `(x, y, -near, 1)` to a clip vector with `z / w = -1`
and `(x, y, -far, 1)` to a clip vector with `z / w = 1`. -/
theorem perspective_near_far (tanf : K → K) (pi fovy aspect near far x y : K)
    (hn : near ≠ 0) (hf : far ≠ 0) (hnf : near ≠ far) :
    (mult_mat4_vec4 (perspective tanf pi fovy aspect near far) ⟨x, y, -near, 1⟩).z /
      (mult_mat4_vec4 (perspective tanf pi fovy aspect near far) ⟨x, y, -near, 1⟩).w = -1 ∧
    (mult_mat4_vec4 (perspective tanf pi fovy aspect near far) ⟨x, y, -far, 1⟩).z /
      (mult_mat4_vec4 (perspective tanf pi fovy aspect near far) ⟨x, y, -far, 1⟩).w = 1 := by
  have hd : far - near ≠ 0 := sub_ne_zero.mpr (Ne.symm hnf)
  constructor
  · simp (disch := decide) [mult_mat4_vec4, perspective, ↓mat4.get_set_eq, ↓mat4.get_set_ne,
      mat4.get_zero]
    field_simp
    ring
  · simp (disch := decide) [mult_mat4_vec4, perspective, ↓mat4.get_set_eq, ↓mat4.get_set_ne,
      mat4.get_zero]
    field_simp
    ring

/-- C6 at the scenario of the specification, over the reals: `perspective(90, 1, 1, 100)`
applied to `(0, 0, -1, 1)` has `z / w = -1`, with `w = 1` and `z = -1`. -/
theorem perspective_near_far_witness :
    (mult_mat4_vec4 (perspective Real.tan Real.pi 90 1 1 100) (⟨0, 0, -1, 1⟩ : vec4 ℝ)).z /
      (mult_mat4_vec4 (perspective Real.tan Real.pi 90 1 1 100) (⟨0, 0, -1, 1⟩ : vec4 ℝ)).w
        = -1 ∧
    (mult_mat4_vec4 (perspective Real.tan Real.pi 90 1 1 100) (⟨0, 0, -1, 1⟩ : vec4 ℝ)).w = 1 ∧
    (mult_mat4_vec4 (perspective Real.tan Real.pi 90 1 1 100) (⟨0, 0, -1, 1⟩ : vec4 ℝ)).z
      = -1 := by
  refine ⟨(perspective_near_far Real.tan Real.pi 90 1 1 100 0 0
    (by norm_num) (by norm_num) (by norm_num)).1, ?_, ?_⟩
  · simp (disch := decide) [mult_mat4_vec4, perspective, ↓mat4.get_set_eq, ↓mat4.get_set_ne,
      mat4.get_zero]
  · simp (disch := decide) [mult_mat4_vec4, perspective, ↓mat4.get_set_eq, ↓mat4.get_set_ne,
      mat4.get_zero]
    norm_num

/-- C7: when the tangent of `fovy / 2` (in radians) is non-zero, `aspect` and `near` are
non-zero and `far` differs from `near`, the matrix of `perspective` has
`m[5] = 1 / tan(fovy/2)`, `m[0] = m[5] / aspect = 1 / (aspect * tan(fovy/2))`,
`m[10] = -(far+near)/(far-near)`, `m[14] = -2*far*near/(far-near)`, `m[11] = -1`, and every
other element zero. -/
theorem perspective_elements (tanf : K → K) (pi fovy aspect near far : K)
    (ht : tanf (fovy / 2 * (pi / 180)) ≠ 0) (ha : aspect ≠ 0) (hn : near ≠ 0)
    (hfn : far ≠ near) :
    (perspective tanf pi fovy aspect near far).get 5 = 1 / tanf (fovy / 2 * (pi / 180)) ∧
    (perspective tanf pi fovy aspect near far).get 0
      = (perspective tanf pi fovy aspect near far).get 5 / aspect ∧
    (perspective tanf pi fovy aspect near far).get 0
      = 1 / (aspect * tanf (fovy / 2 * (pi / 180))) ∧
    (perspective tanf pi fovy aspect near far).get 10 = -(far + near) / (far - near) ∧
    (perspective tanf pi fovy aspect near far).get 14 = -2 * far * near / (far - near) ∧
    (perspective tanf pi fovy aspect near far).get 11 = -1 ∧
    ∀ i : Fin 16, i.val ≠ 0 → i.val ≠ 5 → i.val ≠ 10 → i.val ≠ 14 → i.val ≠ 11 →
      (perspective tanf pi fovy aspect near far).get i.val = 0 := by
  have harg : fovy * (2 * pi) / 360 / 2 = fovy / 2 * (pi / 180) := by ring
  have e5 : (perspective tanf pi fovy aspect near far).get 5
      = near / (tanf (fovy * (2 * pi) / 360 / 2) * near) := rfl
  have e0 : (perspective tanf pi fovy aspect near far).get 0
      = (2 * near) / (tanf (fovy * (2 * pi) / 360 / 2) * near * aspect
          + tanf (fovy * (2 * pi) / 360 / 2) * near * aspect) := rfl
  have e10 : (perspective tanf pi fovy aspect near far).get 10
      = -(far + near) / (far - near) := rfl
  have e14 : (perspective tanf pi fovy aspect near far).get 14
      = -2 * far * near / (far - near) := by
    have e : (perspective tanf pi fovy aspect near far).get 14
        = -(2 * far * near) / (far - near) := rfl
    rw [e]; ring
  have e11 : (perspective tanf pi fovy aspect near far).get 11 = -1 := rfl
  have rest : ∀ i : Fin 16, i.val ≠ 0 → i.val ≠ 5 → i.val ≠ 10 → i.val ≠ 14 → i.val ≠ 11 →
      (perspective tanf pi fovy aspect near far).get i.val = 0 := by
    intro i h0 h5 h10 h14 h11
    fin_cases i <;> first
      | rfl
      | exact absurd rfl h0
      | exact absurd rfl h5
      | exact absurd rfl h10
      | exact absurd rfl h14
      | exact absurd rfl h11
  refine ⟨?_, ?_, ?_, e10, e14, e11, rest⟩
  · rw [e5, harg]
    generalize tanf (fovy / 2 * (pi / 180)) = t at ht
    field_simp
    ring
  · rw [e5, e0, harg]
    generalize tanf (fovy / 2 * (pi / 180)) = t at ht
    field_simp
    ring
  · rw [e0, harg]
    generalize tanf (fovy / 2 * (pi / 180)) = t at ht
    field_simp
    ring

/-- C7 over the reals at `perspective(90, 1, 1, 100)`, where the tangent of 45 degrees is 1:
`m[5] = 1`, `m[0] = 1`, `m[10] = -101/99`, `m[14] = -200/99`, `m[11] = -1`. -/
theorem perspective_elements_witness :
    (perspective Real.tan Real.pi 90 1 1 100).get 5 = 1 ∧
    (perspective Real.tan Real.pi 90 1 1 100).get 0 = 1 ∧
    (perspective Real.tan Real.pi 90 1 1 100).get 10 = -(101 / 99) ∧
    (perspective Real.tan Real.pi 90 1 1 100).get 14 = -(200 / 99) ∧
    (perspective Real.tan Real.pi 90 1 1 100).get 11 = -1 := by
  have ht : Real.tan ((90 : ℝ) / 2 * (Real.pi / 180)) = 1 := by
    rw [show (90 : ℝ) / 2 * (Real.pi / 180) = Real.pi / 4 by ring]
    exact Real.tan_pi_div_four
  have h := perspective_elements Real.tan Real.pi 90 1 1 100 (by rw [ht]; norm_num)
    (by norm_num) (by norm_num) (by norm_num)
  rw [ht] at h
  obtain ⟨h5, h0, -, h10, h14, h11, -⟩ := h
  exact ⟨by rw [h5]; norm_num, by rw [h0, h5]; norm_num, by rw [h10]; norm_num,
    by rw [h14]; norm_num, h11⟩

/-- C8: when `PV` has non-zero determinant and each of the eight back-transformed clip
corners has non-zero `w`, every point `i` written by `frustum_points_from_PV`, extended by 1,
transformed by `PV` and divided by its own `w`, is the `i`-th clip corner in the order
nbl, ntl, ntr, nbr, fbl, ftl, ftr, fbr. -/
theorem frustum_points_project_to_corners (PV : mat4 K) (hdet : det_mat4 PV ≠ 0)
    (hw : ∀ i : Fin 8, (mult_mat4_vec4 (inverse_mat4 PV)
      ((![⟨-1, -1, -1, 1⟩, ⟨-1, 1, -1, 1⟩, ⟨1, 1, -1, 1⟩, ⟨1, -1, -1, 1⟩,
          ⟨-1, -1, 1, 1⟩, ⟨-1, 1, 1, 1⟩, ⟨1, 1, 1, 1⟩, ⟨1, -1, 1, 1⟩] : Fin 8 → vec4 K) i)).w
        ≠ 0)
    (i : Fin 8) :
    div_vec4_f (mult_mat4_vec4 PV (v4_v3f (frustum_points_from_PV PV i) 1))
        (mult_mat4_vec4 PV (v4_v3f (frustum_points_from_PV PV i) 1)).w
      = (![⟨-1, -1, -1, 1⟩, ⟨-1, 1, -1, 1⟩, ⟨1, 1, -1, 1⟩, ⟨1, -1, -1, 1⟩,
          ⟨-1, -1, 1, 1⟩, ⟨-1, 1, 1, 1⟩, ⟨1, 1, 1, 1⟩, ⟨1, -1, 1, 1⟩] : Fin 8 → vec4 K) i := by
  have hc : (![⟨-1, -1, -1, 1⟩, ⟨-1, 1, -1, 1⟩, ⟨1, 1, -1, 1⟩, ⟨1, -1, -1, 1⟩,
          ⟨-1, -1, 1, 1⟩, ⟨-1, 1, 1, 1⟩, ⟨1, 1, 1, 1⟩, ⟨1, -1, 1, 1⟩] : Fin 8 → vec4 K)
      = corners_clip := rfl
  rw [hc] at hw ⊢
  have hcw := corners_clip_w (K := K) i
  have hq := hw i
  have e : v4_v3f (frustum_points_from_PV PV i) 1
      = div_vec4_f (mult_mat4_vec4 (inverse_mat4 PV) (corners_clip i))
          (mult_mat4_vec4 (inverse_mat4 PV) (corners_clip i)).w := by
    simp only [frustum_points_from_PV, v4_v3f, v3_v4, div_vec4_f]
    ext <;> simp [div_self hq]
  rw [e, mult_mat4_vec4_div, mult_mat4_vec4_inverse PV hdet]
  generalize (mult_mat4_vec4 (inverse_mat4 PV) (corners_clip i)).w = q at hq
  ext <;> simp [div_vec4_f, hcw] <;> field_simp

/-- C8 at the projection `perspective(90, 1, 1, 3)` over the rationals (tangent of 45 degrees
taken as 1): the point written at index 6 (ftr) projects back to the clip corner
`(1, 1, 1, 1)`. -/
theorem frustum_points_project_to_corners_witness :
    div_vec4_f
      (mult_mat4_vec4 (perspective (fun _ => (1 : ℚ)) 0 90 1 1 3)
        (v4_v3f (frustum_points_from_PV (perspective (fun _ => (1 : ℚ)) 0 90 1 1 3) 6) 1))
      (mult_mat4_vec4 (perspective (fun _ => (1 : ℚ)) 0 90 1 1 3)
        (v4_v3f (frustum_points_from_PV (perspective (fun _ => (1 : ℚ)) 0 90 1 1 3) 6) 1)).w
      = ⟨1, 1, 1, 1⟩ := by
  have hd : det_mat4 (perspective (fun _ => (1 : ℚ)) 0 90 1 1 3) = -3 := by
    simp [det_mat4, perspective_example_get]
  have hd0 : ¬ (0 = det_mat4 (perspective (fun _ => (1 : ℚ)) 0 90 1 1 3)) := by
    rw [hd]; norm_num
  exact frustum_points_project_to_corners (perspective (fun _ => (1 : ℚ)) 0 90 1 1 3)
    (by rw [hd]; norm_num)
    (by
      intro i
      have hcw := corners_clip_w (K := ℚ) i
      have hcz := corners_clip_z (K := ℚ) i
      show (mult_mat4_vec4 (inverse_mat4 _) (corners_clip i)).w ≠ 0
      simp only [inverse_mat4, if_neg hd0, hd]
      simp (disch := decide) [mult_mat4_vec4, ↓mat4.get_set_eq, ↓mat4.get_set_ne, mat4.get_zero,
        perspective_example_get, hcw]
      rcases hcz with h | h <;> rw [h] <;> norm_num) 6

/-- C9: for the frustum looking down -Z with near half-extents `a, b > 0` at `z = -n` and far
half-extents `A, B > 0` at `z = -f`, `0 < n < f`, `frustum_planes_from_points` returns six
unit normals, in the order right, left, top, bottom, near, far, each pointing inwards: the
dot product of normal `k` with the centroid minus any corner on face `k` is strictly
positive.  The corners on the right (left) face are those with positive (negative) `x`, on the
top (bottom) face those with positive (negative) `y`, on the near (far) face those with
`z = -n` (`z = -f`). -/
theorem frustum_planes_point_inwards (sqrtf : K → K)
    (hsq : ∀ x, 0 ≤ x → 0 ≤ sqrtf x ∧ sqrtf x * sqrtf x = x)
    (a b A B n f : K) (ha : 0 < a) (hb : 0 < b) (hA : 0 < A) (hB : 0 < B)
    (hn : 0 < n) (hnf : n < f) :
    (∀ k : Fin 6, length_vec3 sqrtf
      (frustum_planes_from_points sqrtf (symmetric_frustum a b A B n f) k) = 1) ∧
    (∀ j : Fin 8, 0 < (symmetric_frustum a b A B n f j).x →
      0 < dot_vec3 (frustum_planes_from_points sqrtf (symmetric_frustum a b A B n f) 0)
        (sub_vec3_vec3 (centroid (symmetric_frustum a b A B n f))
          (symmetric_frustum a b A B n f j))) ∧
    (∀ j : Fin 8, (symmetric_frustum a b A B n f j).x < 0 →
      0 < dot_vec3 (frustum_planes_from_points sqrtf (symmetric_frustum a b A B n f) 1)
        (sub_vec3_vec3 (centroid (symmetric_frustum a b A B n f))
          (symmetric_frustum a b A B n f j))) ∧
    (∀ j : Fin 8, 0 < (symmetric_frustum a b A B n f j).y →
      0 < dot_vec3 (frustum_planes_from_points sqrtf (symmetric_frustum a b A B n f) 2)
        (sub_vec3_vec3 (centroid (symmetric_frustum a b A B n f))
          (symmetric_frustum a b A B n f j))) ∧
    (∀ j : Fin 8, (symmetric_frustum a b A B n f j).y < 0 →
      0 < dot_vec3 (frustum_planes_from_points sqrtf (symmetric_frustum a b A B n f) 3)
        (sub_vec3_vec3 (centroid (symmetric_frustum a b A B n f))
          (symmetric_frustum a b A B n f j))) ∧
    (∀ j : Fin 8, (symmetric_frustum a b A B n f j).z = -n →
      0 < dot_vec3 (frustum_planes_from_points sqrtf (symmetric_frustum a b A B n f) 4)
        (sub_vec3_vec3 (centroid (symmetric_frustum a b A B n f))
          (symmetric_frustum a b A B n f j))) ∧
    (∀ j : Fin 8, (symmetric_frustum a b A B n f j).z = -f →
      0 < dot_vec3 (frustum_planes_from_points sqrtf (symmetric_frustum a b A B n f) 5)
        (sub_vec3_vec3 (centroid (symmetric_frustum a b A B n f))
          (symmetric_frustum a b A B n f j))) := by
  obtain ⟨p0, p1, p2, p3, p4, p5⟩ :=
    frustum_planes_from_points_get sqrtf (symmetric_frustum a b A B n f)
  obtain ⟨c0, -, -, -, c4, -, c6, -⟩ := symmetric_frustum_get a b A B n f
  have q0 := symmetric_frustum_right a b A B n f ha hA hB hnf
  have q1 := symmetric_frustum_left a b A B n f ha hA hB hnf
  have q2 := symmetric_frustum_top a b A B n f ha hb hB hnf
  have q3 := symmetric_frustum_bottom a b A B n f hb hA hB hnf
  have q4 := symmetric_frustum_near a b A B n f ha hb hnf
  have q5 := symmetric_frustum_far a b A B n f hA hB hnf
  refine ⟨?_, ?_, ?_, ?_, ?_, ?_, ?_⟩
  · intro k
    fin_cases k
    · exact p0 ▸ length_normalise_vec3 sqrtf hsq _
        (length2_pos_of_dot_pos _ _ (q0 6 (by rw [c6]; exact hA)))
    · exact p1 ▸ length_normalise_vec3 sqrtf hsq _
        (length2_pos_of_dot_pos _ _ (q1 4 (by rw [c4]; exact neg_lt_zero.mpr hA)))
    · exact p2 ▸ length_normalise_vec3 sqrtf hsq _
        (length2_pos_of_dot_pos _ _ (q2 6 (by rw [c6]; exact hB)))
    · exact p3 ▸ length_normalise_vec3 sqrtf hsq _
        (length2_pos_of_dot_pos _ _ (q3 4 (by rw [c4]; exact neg_lt_zero.mpr hB)))
    · exact p4 ▸ length_normalise_vec3 sqrtf hsq _
        (length2_pos_of_dot_pos _ _ (q4 0 (by rw [c0])))
    · exact p5 ▸ length_normalise_vec3 sqrtf hsq _
        (length2_pos_of_dot_pos _ _ (q5 4 (by rw [c4])))
  · intro j hj; rw [p0]; exact dot_normalise_pos sqrtf hsq _ _ (q0 j hj)
  · intro j hj; rw [p1]; exact dot_normalise_pos sqrtf hsq _ _ (q1 j hj)
  · intro j hj; rw [p2]; exact dot_normalise_pos sqrtf hsq _ _ (q2 j hj)
  · intro j hj; rw [p3]; exact dot_normalise_pos sqrtf hsq _ _ (q3 j hj)
  · intro j hj; rw [p4]; exact dot_normalise_pos sqrtf hsq _ _ (q4 j hj)
  · intro j hj; rw [p5]; exact dot_normalise_pos sqrtf hsq _ _ (q5 j hj)

/-- C9 over the reals with the real square root, for the frustum with near half-extents 1, 1
at `z = -1` and far half-extents 2, 2 at `z = -2`: the right-plane normal has length 1 and
points from the corner ftr towards the centroid. -/
theorem frustum_planes_point_inwards_witness :
    length_vec3 Real.sqrt
      (frustum_planes_from_points Real.sqrt (symmetric_frustum (1 : ℝ) 1 2 2 1 2) 0) = 1 ∧
    0 < dot_vec3 (frustum_planes_from_points Real.sqrt (symmetric_frustum (1 : ℝ) 1 2 2 1 2) 0)
      (sub_vec3_vec3 (centroid (symmetric_frustum (1 : ℝ) 1 2 2 1 2))
        (symmetric_frustum (1 : ℝ) 1 2 2 1 2 6)) := by
  have h := frustum_planes_point_inwards Real.sqrt
    (fun x hx => ⟨Real.sqrt_nonneg x, Real.mul_self_sqrt hx⟩) (1 : ℝ) 1 2 2 1 2
    (by norm_num) (by norm_num) (by norm_num) (by norm_num) (by norm_num) (by norm_num)
  exact ⟨h.1 0, h.2.1 6 (by
    rw [(symmetric_frustum_get (1 : ℝ) 1 2 2 1 2).2.2.2.2.2.2.1]; norm_num)⟩

/-- C10: for non-zero `vp_w`, `vp_h`, `subvp_w`, `subvp_h` and every `P_orig`,
`perspective_offcentre_viewport` returns `M * P_orig` for a matrix `M` that maps the
sub-rectangle onto the full clip square: with `x_ndc = 2*subvp_x/vp_w - 1` and
`w_ndc = 2*subvp_w/vp_w` (same for y), `M` sends `(x_ndc, y_ndc, z, 1)` to `(-1, -1, z, 1)`
and `(x_ndc + w_ndc, y_ndc + h_ndc, z, 1)` to `(1, 1, z, 1)`. -/
theorem perspective_offcentre_viewport_maps (vp_w vp_h subvp_x subvp_y subvp_w subvp_h : Int)
    (hvw : vp_w ≠ 0) (hvh : vp_h ≠ 0) (hsw : subvp_w ≠ 0) (hsh : subvp_h ≠ 0) :
    ∃ M : mat4 K,
      (∀ P_orig : mat4 K,
        perspective_offcentre_viewport vp_w vp_h subvp_x subvp_y subvp_w subvp_h P_orig
          = mult_mat4_mat4 M P_orig) ∧
      (∀ z : K,
        mult_mat4_vec4 M
            ⟨2 * (subvp_x : K) / (vp_w : K) - 1, 2 * (subvp_y : K) / (vp_h : K) - 1, z, 1⟩
          = ⟨-1, -1, z, 1⟩ ∧
        mult_mat4_vec4 M
            ⟨2 * (subvp_x : K) / (vp_w : K) - 1 + 2 * (subvp_w : K) / (vp_w : K),
             2 * (subvp_y : K) / (vp_h : K) - 1 + 2 * (subvp_h : K) / (vp_h : K), z, 1⟩
          = ⟨1, 1, z, 1⟩) := by
  have h1 : (vp_w : K) ≠ 0 := Int.cast_ne_zero.mpr hvw
  have h2 : (vp_h : K) ≠ 0 := Int.cast_ne_zero.mpr hvh
  have h3 : (subvp_w : K) ≠ 0 := Int.cast_ne_zero.mpr hsw
  have h4 : (subvp_h : K) ≠ 0 := Int.cast_ne_zero.mpr hsh
  refine ⟨_, fun P_orig => rfl, fun z => ⟨?_, ?_⟩⟩
  · ext <;>
      simp (disch := decide) only [mult_mat4_vec4, ↓mat4.get_set_eq, ↓mat4.get_set_ne,
        mat4.get_zero, mul_zero, zero_mul, add_zero, zero_add, mul_one, one_mul] <;>
      field_simp <;> ring
  · ext <;>
      simp (disch := decide) only [mult_mat4_vec4, ↓mat4.get_set_eq, ↓mat4.get_set_ne,
        mat4.get_zero, mul_zero, zero_mul, add_zero, zero_add, mul_one, one_mul] <;>
      field_simp <;> ring

/-- C10 over the rationals for an 800x600 viewport and the sub-window at (200, 150) of size
400x300, whose corners in NDC are `(-1/2, -1/2)` and `(1/2, 1/2)`. -/
theorem perspective_offcentre_viewport_maps_witness :
    ∃ M : mat4 ℚ,
      (∀ P_orig : mat4 ℚ,
        perspective_offcentre_viewport 800 600 200 150 400 300 P_orig
          = mult_mat4_mat4 M P_orig) ∧
      (∀ z : ℚ, mult_mat4_vec4 M ⟨-(1 / 2), -(1 / 2), z, 1⟩ = ⟨-1, -1, z, 1⟩ ∧
        mult_mat4_vec4 M ⟨1 / 2, 1 / 2, z, 1⟩ = ⟨1, 1, z, 1⟩) := by
  obtain ⟨M, hM, hz⟩ := perspective_offcentre_viewport_maps (K := ℚ) 800 600 200 150 400 300
    (by decide) (by decide) (by decide) (by decide)
  refine ⟨M, hM, fun z => ?_⟩
  have := hz z
  norm_num at this
  exact this

/-- C12, as stated, fails at two binary32 inputs.  At `q = (16776377/2^24, 2^-13, 0, 0)` the
exact squared length `s` has `|1 - s|` below `0.0001f`, hence below 0.0001, but the sum the
code computes rounds to `1 - 1678/2^24`, which is outside the threshold: `normalise_quat`
divides and returns `(1, 2097257/2^34, 0, 0)`.  At `q = (16776377/2^24, 127469/2^30, 0, 0)`
the exact `|1 - s|` is below 0.0001 and the computed sum is the same: `normalise_quat` divides
and returns `(1, 1019803/2^33, 0, 0)`.  `sqrtf` is the correctly rounded real square root. -/
theorem normalise_quat_f32_divides :
    (|1 - ((16776377 / 16777216 : ℝ) * (16776377 / 16777216)
        + 1 / 8192 * (1 / 8192) + 0 * 0 + 0 * 0)| < 13743895 / 137438953472 ∧
      |1 - ((16776377 / 16777216 : ℝ) * (16776377 / 16777216)
        + 1 / 8192 * (1 / 8192) + 0 * 0 + 0 * 0)| < 1 / 10000 ∧
      normalise_quat_f32 (xfloat.libm Real.sqrt)
          ⟨.val (16776377 / 16777216), .val (1 / 8192), .val 0, .val 0⟩
        = ⟨.val 1, .val (2097257 / 17179869184), .val 0, .val 0⟩ ∧
      normalise_quat_f32 (xfloat.libm Real.sqrt)
          ⟨.val (16776377 / 16777216), .val (1 / 8192), .val 0, .val 0⟩
        ≠ ⟨.val (16776377 / 16777216), .val (1 / 8192), .val 0, .val 0⟩) ∧
    (|1 - ((16776377 / 16777216 : ℝ) * (16776377 / 16777216)
        + 127469 / 1073741824 * (127469 / 1073741824) + 0 * 0 + 0 * 0)| < 1 / 10000 ∧
      normalise_quat_f32 (xfloat.libm Real.sqrt)
          ⟨.val (16776377 / 16777216), .val (127469 / 1073741824), .val 0, .val 0⟩
        = ⟨.val 1, .val (1019803 / 8589934592), .val 0, .val 0⟩ ∧
      normalise_quat_f32 (xfloat.libm Real.sqrt)
          ⟨.val (16776377 / 16777216), .val (127469 / 1073741824), .val 0, .val 0⟩
        ≠ ⟨.val (16776377 / 16777216), .val (127469 / 1073741824), .val 0, .val 0⟩) := by
  have hww : f32_mul (.val (16776377 / 16777216 : ℝ)) (.val (16776377 / 16777216))
      = .val (8387769 / 8388608) := by
    simp only [f32_mul, xfloat.mul, xfloat.rnd]
    apply round_f32_eq _ _ 16775538 (-24) <;> norm_num [abs_lt, le_abs, abs_div, abs_neg]
  have hxx : f32_mul (.val (127469 / 1073741824 : ℝ)) (.val (127469 / 1073741824))
      = .val (15867525 / 1125899906842624) := by
    simp only [f32_mul, xfloat.mul, xfloat.rnd]
    apply round_f32_eq _ _ 15867525 (-50) <;> norm_num [abs_lt, le_abs, abs_div, abs_neg]
  have hyy : f32_mul (.val (1 / 8192 : ℝ)) (.val (1 / 8192)) = .val (1 / 67108864) := by
    simp only [f32_mul, xfloat.mul, xfloat.rnd]
    apply round_f32_eq _ _ 8388608 (-49) <;> norm_num [abs_lt, le_abs, abs_div, abs_neg]
  have h00 : f32_mul (.val (0 : ℝ)) (.val 0) = .val 0 := by
    simp only [f32_mul, xfloat.mul, xfloat.rnd, mul_zero, round_f32_zero]
  have hs1 : f32_add (.val (8387769 / 8388608 : ℝ)) (.val (15867525 / 1125899906842624))
      = .val (8387769 / 8388608) := by
    simp only [f32_add, xfloat.add, xfloat.rnd]
    apply round_f32_eq _ _ 16775538 (-24) <;> norm_num [abs_lt, le_abs, abs_div, abs_neg]
  have hs3 : f32_add (.val (8387769 / 8388608 : ℝ)) (.val (1 / 67108864))
      = .val (8387769 / 8388608) := by
    simp only [f32_add, xfloat.add, xfloat.rnd]
    apply round_f32_eq _ _ 16775538 (-24) <;> norm_num [abs_lt, le_abs, abs_div, abs_neg]
  have hs2 : f32_add (.val (8387769 / 8388608 : ℝ)) (.val 0) = .val (8387769 / 8388608) := by
    simp only [f32_add, xfloat.add, xfloat.rnd]
    apply round_f32_eq _ _ 16775538 (-24) <;> norm_num [abs_lt, le_abs, abs_div, abs_neg]
  have hd : f32_sub (.val (1 : ℝ)) (.val (8387769 / 8388608)) = .val (839 / 8388608) := by
    simp only [f32_sub, xfloat.neg, xfloat.add, xfloat.rnd]
    apply round_f32_eq _ _ 13746176 (-37) <;> norm_num [abs_lt, le_abs, abs_div, abs_neg]
  have hlo : (16776377 / 16777216 - 1 / 33554432 : ℝ) < Real.sqrt (8387769 / 8388608) := by
    rw [Real.lt_sqrt (by norm_num)]; norm_num
  have hhi : Real.sqrt (8387769 / 8388608) < (16776377 / 16777216 + 1 / 33554432 : ℝ) := by
    rw [Real.sqrt_lt' (by norm_num)]; norm_num
  have hm : xfloat.libm Real.sqrt (.val (8387769 / 8388608 : ℝ))
      = .val (16776377 / 16777216) := by
    simp only [xfloat.libm]
    have hpos := Real.sqrt_nonneg (8387769 / 8388608 : ℝ)
    generalize Real.sqrt (8387769 / 8388608 : ℝ) = r at hlo hhi hpos ⊢
    apply round_f32_eq _ _ 16776377 (-24)
    · norm_num
    · right; rw [abs_of_nonneg hpos]; norm_num; linarith
    · rw [abs_of_nonneg hpos]; norm_num; linarith
    · norm_num
    · left; rw [abs_lt]; norm_num; constructor <;> linarith
    · norm_num [abs_lt]
  have hw : f32_div (.val (16776377 / 16777216 : ℝ)) (.val (16776377 / 16777216)) = .val 1 := by
    simp only [f32_div, xfloat.div, xfloat.rnd]
    rw [if_neg (by norm_num)]
    apply round_f32_eq _ _ 8388608 (-23) <;> norm_num [abs_lt, le_abs, abs_div, abs_neg]
  have hx : f32_div (.val (127469 / 1073741824 : ℝ)) (.val (16776377 / 16777216))
      = .val (1019803 / 8589934592) := by
    simp only [f32_div, xfloat.div, xfloat.rnd]
    rw [if_neg (by norm_num)]
    apply round_f32_eq _ _ 16316848 (-37) <;> norm_num [abs_lt, le_abs, abs_div, abs_neg]
  have hy : f32_div (.val (1 / 8192 : ℝ)) (.val (16776377 / 16777216))
      = .val (2097257 / 17179869184) := by
    simp only [f32_div, xfloat.div, xfloat.rnd]
    rw [if_neg (by norm_num)]
    apply round_f32_eq _ _ 8389028 (-36) <;> norm_num [abs_lt, le_abs, abs_div, abs_neg]
  have h0 : f32_div (.val (0 : ℝ)) (.val (16776377 / 16777216)) = .val 0 := by
    simp only [f32_div, xfloat.div]
    rw [if_neg (by norm_num)]
    simp only [xfloat.rnd, zero_div, round_f32_zero]
  have hA : normalise_quat_f32 (xfloat.libm Real.sqrt)
        ⟨.val (16776377 / 16777216), .val (1 / 8192), .val 0, .val 0⟩
      = ⟨.val 1, .val (2097257 / 17179869184), .val 0, .val 0⟩ := by
    simp only [normalise_quat_f32, hww, hyy, h00, hs3, hs2, hd, xfloat.abs, xfloat.lt, hm,
      div_quat_f_f32, hw, hy, h0]
    norm_num [abs_of_pos]
  have hB : normalise_quat_f32 (xfloat.libm Real.sqrt)
        ⟨.val (16776377 / 16777216), .val (127469 / 1073741824), .val 0, .val 0⟩
      = ⟨.val 1, .val (1019803 / 8589934592), .val 0, .val 0⟩ := by
    simp only [normalise_quat_f32, hww, hxx, h00, hs1, hs2, hd, xfloat.abs, xfloat.lt, hm,
      div_quat_f_f32, hw, hx, h0]
    norm_num [abs_of_pos]
  refine ⟨⟨by norm_num [abs_lt], by norm_num [abs_lt], hA, ?_⟩, by norm_num [abs_lt], hB, ?_⟩
  · rw [hA]
    intro h
    have := congrArg versor.w h
    simp only [xfloat.val.injEq] at this
    norm_num at this
  · rw [hB]
    intro h
    have := congrArg versor.w h
    simp only [xfloat.val.injEq] at this
    norm_num at this

/-- C12, amended, on `normalise_quat` in binary32.  With `s'` the sum
`q.w*q.w + q.x*q.x + q.y*q.y + q.z*q.z` as the code computes it (every product and every sum
rounded) and `0.0001f` the binary32 constant 13743895 / 2^37: if `|1 - s'| < 0.0001f`, the
difference rounded as well, then `normalise_quat q` is `q` unchanged; otherwise it is `q`
divided componentwise, each quotient rounded, by `sqrtf s'`.  In terms of the exact squared
length `s` of a quaternion `p` with finite components: the roundings move `1 - s` by at most
`2^-21`, so `p` is returned unchanged when `|1 - s| < 0.0001f - 2^-21`, and is divided when
`|1 - s| ≥ 0.0001f + 2^-21` and `s < 3/2`.  In exact arithmetic `p` divided componentwise by
the square root of `s > 0` has squared length exactly 1; there `sqrtf` is any function that
returns the non-negative square root of a non-negative number. -/
theorem normalise_quat_f32_cases [FloorRing K] (sqrtf32 : xfloat K → xfloat K)
    (q : versor (xfloat K)) (sqrtf : K → K)
    (hsq : ∀ x, 0 ≤ x → 0 ≤ sqrtf x ∧ sqrtf x * sqrtf x = x) (p : versor K) :
    (xfloat.lt (xfloat.abs (f32_sub (.val 1)
        (f32_add (f32_add (f32_add (f32_mul q.w q.w) (f32_mul q.x q.x)) (f32_mul q.y q.y))
          (f32_mul q.z q.z)))) (.val (13743895 / 137438953472)) = true →
      normalise_quat_f32 sqrtf32 q = q) ∧
    (xfloat.lt (xfloat.abs (f32_sub (.val 1)
        (f32_add (f32_add (f32_add (f32_mul q.w q.w) (f32_mul q.x q.x)) (f32_mul q.y q.y))
          (f32_mul q.z q.z)))) (.val (13743895 / 137438953472)) = false →
      normalise_quat_f32 sqrtf32 q
        = div_quat_f_f32 q (sqrtf32
            (f32_add (f32_add (f32_add (f32_mul q.w q.w) (f32_mul q.x q.x)) (f32_mul q.y q.y))
              (f32_mul q.z q.z)))) ∧
    (|1 - (p.w * p.w + p.x * p.x + p.y * p.y + p.z * p.z)|
        < 13743895 / 137438953472 - 1 / 2097152 →
      normalise_quat_f32 sqrtf32 ⟨.val p.w, .val p.x, .val p.y, .val p.z⟩
        = ⟨.val p.w, .val p.x, .val p.y, .val p.z⟩) ∧
    (13743895 / 137438953472 + 1 / 2097152
        ≤ |1 - (p.w * p.w + p.x * p.x + p.y * p.y + p.z * p.z)| →
      p.w * p.w + p.x * p.x + p.y * p.y + p.z * p.z < 3 / 2 →
      normalise_quat_f32 sqrtf32 ⟨.val p.w, .val p.x, .val p.y, .val p.z⟩
        = div_quat_f_f32 ⟨.val p.w, .val p.x, .val p.y, .val p.z⟩ (sqrtf32
            (f32_add (f32_add (f32_add (f32_mul (.val p.w) (.val p.w))
              (f32_mul (.val p.x) (.val p.x))) (f32_mul (.val p.y) (.val p.y)))
              (f32_mul (.val p.z) (.val p.z))))) ∧
    (0 < p.w * p.w + p.x * p.x + p.y * p.y + p.z * p.z →
      dot_quat (div_quat_f p (sqrtf (p.w * p.w + p.x * p.x + p.y * p.y + p.z * p.z)))
        (div_quat_f p (sqrtf (p.w * p.w + p.x * p.x + p.y * p.y + p.z * p.z))) = 1) := by
  refine ⟨fun h => ?_, fun h => ?_, fun h => ?_, fun h hs => ?_,
    fun h => dot_quat_div_sqrt sqrtf hsq p h⟩
  · simp only [normalise_quat_f32, h, if_true]
  · simp only [normalise_quat_f32, h, Bool.false_eq_true, if_false]
  · have hs : p.w * p.w + p.x * p.x + p.y * p.y + p.z * p.z < 3 / 2 := by
      linarith only [(abs_lt.mp h).1]
    obtain ⟨d, hd, hn⟩ := normalise_quat_f32_guard_near p.w p.x p.y p.z hs
    have hlt : |d| < 13743895 / 137438953472 := by
      rw [abs_lt]
      constructor
      · linarith only [(abs_lt.mp h).1, (abs_lt.mp h).2, (abs_le.mp hn).1, (abs_le.mp hn).2]
      · linarith only [(abs_lt.mp h).1, (abs_lt.mp h).2, (abs_le.mp hn).1, (abs_le.mp hn).2]
    simp only [normalise_quat_f32, hd, xfloat.abs, xfloat.lt]
    rw [if_pos (by simpa using hlt)]
  · obtain ⟨d, hd, hn⟩ := normalise_quat_f32_guard_near p.w p.x p.y p.z hs
    have hge : ¬ |d| < 13743895 / 137438953472 := by
      rw [not_lt]
      have h1 := (abs_le.mp hn).1
      have h2 := (abs_le.mp hn).2
      rcases le_abs.mp h with h3 | h3
      · exact le_trans (by linarith only [h1, h2, h3]) (le_abs_self d)
      · exact le_trans (by linarith only [h1, h2, h3]) (neg_le_abs d)
    simp only [normalise_quat_f32, hd, xfloat.abs, xfloat.lt]
    rw [if_neg (by simpa using hge)]

/-- C12 amended, over the reals with the correctly rounded square root: `(1,0,0,0)` comes
back unchanged, `(2,0,0,0)`, whose squared length 4 is outside the threshold, is divided by
`sqrtf 4 = 2` and comes back as `(1,0,0,0)`, `(1/2,0,0,0)`, of exact squared length 1/4, is
divided by the `sqrtf` of the computed sum, and in exact arithmetic `(2,0,0,0)` divided by
the square root of its squared length has squared length 1. -/
theorem normalise_quat_f32_cases_witness :
    normalise_quat_f32 (xfloat.libm Real.sqrt) ⟨.val 1, .val 0, .val 0, .val 0⟩
      = ⟨.val 1, .val 0, .val 0, .val 0⟩ ∧
    normalise_quat_f32 (xfloat.libm Real.sqrt) ⟨.val 2, .val 0, .val 0, .val 0⟩
      = ⟨.val 1, .val 0, .val 0, .val 0⟩ ∧
    normalise_quat_f32 (xfloat.libm Real.sqrt) ⟨.val (1 / 2), .val 0, .val 0, .val 0⟩
      = div_quat_f_f32 ⟨.val (1 / 2), .val 0, .val 0, .val 0⟩ (xfloat.libm Real.sqrt
          (f32_add (f32_add (f32_add (f32_mul (.val (1 / 2)) (.val (1 / 2)))
            (f32_mul (.val 0) (.val 0))) (f32_mul (.val 0) (.val 0)))
            (f32_mul (.val 0) (.val 0)))) ∧
    dot_quat (div_quat_f (⟨2, 0, 0, 0⟩ : versor ℝ) (Real.sqrt (2 * 2 + 0 * 0 + 0 * 0 + 0 * 0)))
      (div_quat_f (⟨2, 0, 0, 0⟩ : versor ℝ) (Real.sqrt (2 * 2 + 0 * 0 + 0 * 0 + 0 * 0)))
      = 1 := by
  have hsq : ∀ x : ℝ, 0 ≤ x → 0 ≤ Real.sqrt x ∧ Real.sqrt x * Real.sqrt x = x :=
    fun x hx => ⟨Real.sqrt_nonneg x, Real.mul_self_sqrt hx⟩
  have h00 : f32_mul (.val (0 : ℝ)) (.val 0) = .val 0 := by
    simp only [f32_mul, xfloat.mul, xfloat.rnd, mul_zero, round_f32_zero]
  have h22 : f32_mul (.val (2 : ℝ)) (.val 2) = .val 4 := by
    simp only [f32_mul, xfloat.mul, xfloat.rnd]
    apply round_f32_eq _ _ 8388608 (-21) <;> norm_num [abs_lt, le_abs, abs_div, abs_neg]
  have h40 : f32_add (.val (4 : ℝ)) (.val 0) = .val 4 := by
    simp only [f32_add, xfloat.add, xfloat.rnd]
    apply round_f32_eq _ _ 8388608 (-21) <;> norm_num [abs_lt, le_abs, abs_div, abs_neg]
  have hs4 : f32_sub (.val (1 : ℝ)) (.val 4) = .val (-3) := by
    simp only [f32_sub, xfloat.neg, xfloat.add, xfloat.rnd]
    apply round_f32_eq _ _ (-12582912) (-22) <;>
      norm_num [abs_lt, le_abs, abs_div, abs_neg]
  have hr : xfloat.libm Real.sqrt (.val (4 : ℝ)) = .val 2 := by
    have h4 : Real.sqrt 4 = 2 := by
      rw [show (4 : ℝ) = 2 * 2 by norm_num]
      exact Real.sqrt_mul_self (by norm_num)
    simp only [xfloat.libm, h4]
    apply round_f32_eq _ _ 8388608 (-22) <;> norm_num [abs_lt, le_abs, abs_div, abs_neg]
  have hd2 : f32_div (.val (2 : ℝ)) (.val 2) = .val 1 := by
    simp only [f32_div, xfloat.div, xfloat.rnd]
    rw [if_neg (by norm_num)]
    apply round_f32_eq _ _ 8388608 (-23) <;> norm_num [abs_lt, le_abs, abs_div, abs_neg]
  have hd0 : f32_div (.val (0 : ℝ)) (.val 2) = .val 0 := by
    simp only [f32_div, xfloat.div]
    rw [if_neg (by norm_num)]
    simp only [xfloat.rnd, zero_div, round_f32_zero]
  have ha := (normalise_quat_f32_cases (xfloat.libm Real.sqrt)
    ⟨.val (1 : ℝ), .val 0, .val 0, .val 0⟩ Real.sqrt hsq ⟨1, 0, 0, 0⟩).2.2.1
    (by norm_num)
  have hb := (normalise_quat_f32_cases (xfloat.libm Real.sqrt)
    ⟨.val (2 : ℝ), .val 0, .val 0, .val 0⟩ Real.sqrt hsq ⟨2, 0, 0, 0⟩).2.1
    (by simp only [h22, h00, h40, hs4, xfloat.abs, xfloat.lt]; norm_num [abs_of_neg])
  have hc := (normalise_quat_f32_cases (xfloat.libm Real.sqrt)
    ⟨.val (2 : ℝ), .val 0, .val 0, .val 0⟩ Real.sqrt hsq ⟨1 / 2, 0, 0, 0⟩).2.2.2.1
    (by norm_num [abs_of_pos]) (by norm_num)
  have he := (normalise_quat_f32_cases (xfloat.libm Real.sqrt)
    ⟨.val (2 : ℝ), .val 0, .val 0, .val 0⟩ Real.sqrt hsq ⟨2, 0, 0, 0⟩).2.2.2.2 (by norm_num)
  refine ⟨ha, ?_, hc, he⟩
  rw [hb]
  simp only [h22, h00, h40, hr, div_quat_f_f32, hd2, hd0]

/-- C13: for every unit quaternion `q` and every `v`, `mult_quat_vec3 q v` is the xyz part of
`quat_to_mat4 q` applied to `(v, 0)`. -/
theorem mult_quat_vec3_eq_mat4 (q : versor K)
    (hq : q.w * q.w + q.x * q.x + q.y * q.y + q.z * q.z = 1) (v : vec3 K) :
    mult_quat_vec3 q v = v3_v4 (mult_mat4_vec4 (quat_to_mat4 q) (v4_v3f v 0)) := by
  simp (disch := decide) only [mult_quat_vec3, mult_mat4_vec4, quat_to_mat4, v3_v4, v4_v3f,
    ↓mat4.get_set_eq, ↓mat4.get_set_ne, mat4.get_zero, dot_vec3, cross_vec3, mult_vec3_f,
    add_vec3_vec3]
  ext
  · linear_combination v.x * hq
  · linear_combination v.y * hq
  · linear_combination v.z * hq

/-- C13 over the reals at `q = quat_from_axis_deg(90, (0,1,0))`, which is a unit quaternion,
and `v = (0,0,-1)`. -/
theorem mult_quat_vec3_eq_mat4_witness :
    mult_quat_vec3 (quat_from_axis_deg Real.sin Real.cos Real.pi 90 (⟨0, 1, 0⟩ : vec3 ℝ))
        ⟨0, 0, -1⟩
      = v3_v4 (mult_mat4_vec4
          (quat_to_mat4 (quat_from_axis_deg Real.sin Real.cos Real.pi 90 (⟨0, 1, 0⟩ : vec3 ℝ)))
          (v4_v3f ⟨0, 0, -1⟩ 0)) :=
  mult_quat_vec3_eq_mat4 _
    (quat_from_axis_deg_unit Real.sin Real.cos Real.pi
      (fun x => by have := Real.sin_sq_add_cos_sq x; nlinarith) 90 ⟨0, 1, 0⟩ (by norm_num))
    ⟨0, 0, -1⟩

/-- C14, as stated, fails: `q = (1,0,0,0)` and `r = (-1,0,0,0)` are unit quaternions, and
`slerp_quat q r 0` is not `q` (it is `-q`). -/
theorem slerp_quat_zero_ne :
    dot_quat (⟨1, 0, 0, 0⟩ : versor ℝ) ⟨1, 0, 0, 0⟩ = 1 ∧
    dot_quat (⟨-1, 0, 0, 0⟩ : versor ℝ) ⟨-1, 0, 0, 0⟩ = 1 ∧
    slerp_quat Real.sqrt Real.arccos Real.sin (⟨1, 0, 0, 0⟩ : versor ℝ) ⟨-1, 0, 0, 0⟩ 0
      ≠ ⟨1, 0, 0, 0⟩ := by
  refine ⟨by norm_num [dot_quat], by norm_num [dot_quat], ?_⟩
  rw [slerp_quat_zero Real.sqrt Real.arccos Real.sin Real.sin_zero
    (fun c _ => by rw [Real.sin_arccos, sq])]
  norm_num [dot_quat, mult_quat_f]

/-- C14, amended: for all unit quaternions `q` and `r`, `slerp_quat q r 0` is `q` when the
dot product of `q` and `r` is non-negative, and `-q` (the same rotation) when it is negative.
`sinf`, `acosf` and `sqrtf` are any functions with `sin 0 = 0` and
`sin (acos c) = sqrt (1 - c*c)` for `|c| < 1`. -/
theorem slerp_quat_at_zero (sqrtf acosf sinf : K → K) (h0 : sinf 0 = 0)
    (hacos : ∀ c, |c| < 1 → sinf (acosf c) = sqrtf (1 - c * c)) (q r : versor K)
    (hq : dot_quat q q = 1) (hr : dot_quat r r = 1) :
    (0 ≤ dot_quat q r → slerp_quat sqrtf acosf sinf q r 0 = q) ∧
    (dot_quat q r < 0 → slerp_quat sqrtf acosf sinf q r 0 = mult_quat_f q (-1)) := by
  rw [slerp_quat_zero sqrtf acosf sinf h0 hacos]
  exact ⟨fun h => if_neg (not_lt.mpr h), fun h => if_pos h⟩

/-- C14 amended, over the reals: for the unit quaternions `q = (1,0,0,0)` and
`r = (0,1,0,0)`, whose dot product is 0, `slerp_quat q r 0` is `q`. -/
theorem slerp_quat_at_zero_witness :
    slerp_quat Real.sqrt Real.arccos Real.sin (⟨1, 0, 0, 0⟩ : versor ℝ) ⟨0, 1, 0, 0⟩ 0
      = ⟨1, 0, 0, 0⟩ :=
  (slerp_quat_at_zero Real.sqrt Real.arccos Real.sin Real.sin_zero
    (fun c _ => by rw [Real.sin_arccos, sq]) (⟨1, 0, 0, 0⟩ : versor ℝ) ⟨0, 1, 0, 0⟩
    (by norm_num [dot_quat]) (by norm_num [dot_quat])).1 (by norm_num [dot_quat])

/-- C15: for all unit quaternions `q` and `r`, `slerp_quat q r 1` is `r`, whichever branch is
taken.  `sinf`, `acosf` and `sqrtf` are any functions with `sin 0 = 0` and
`sin (acos c) = sqrt (1 - c*c)` for `|c| < 1`. -/
theorem slerp_quat_at_one (sqrtf acosf sinf : K → K) (h0 : sinf 0 = 0)
    (hacos : ∀ c, |c| < 1 → sinf (acosf c) = sqrtf (1 - c * c)) (q r : versor K)
    (hq : dot_quat q q = 1) (hr : dot_quat r r = 1) :
    slerp_quat sqrtf acosf sinf q r 1 = r :=
  slerp_quat_one sqrtf acosf sinf h0 hacos q r hq hr

/-- C15 over the reals, on the early-return branch: `q = (1,0,0,0)` and `r = (-1,0,0,0)`
are unit quaternions with dot product -1, and `slerp_quat q r 1` is `r`. -/
theorem slerp_quat_at_one_witness :
    slerp_quat Real.sqrt Real.arccos Real.sin (⟨1, 0, 0, 0⟩ : versor ℝ) ⟨-1, 0, 0, 0⟩ 1
      = ⟨-1, 0, 0, 0⟩ :=
  slerp_quat_at_one Real.sqrt Real.arccos Real.sin Real.sin_zero
    (fun c _ => by rw [Real.sin_arccos, sq]) (⟨1, 0, 0, 0⟩ : versor ℝ) ⟨-1, 0, 0, 0⟩
    (by norm_num [dot_quat]) (by norm_num [dot_quat])

/-- C16: for a box with non-negative half lengths and a ray whose direction has, along each
side direction, a component `f_i` that is exactly 0 or larger in absolute value than
`FLT_EPSILON`, with at least one `f_i` non-zero: if `ray_obb` reports a hit, the distance it
writes is a finite `t ≥ 0` and the point `origin + t*dir` is in the box,
`|axes[i] · (origin + t*dir - centre)| ≤ half_lengths[i]` for the three axes. -/
theorem ray_obb_hit_in_box (box : obb_t K) (ray_o ray_d : vec3 K) (face_num0 : Int)
    (hh : ∀ i, 0 ≤ box.half_lengths i)
    (hf : ∀ i, dot_vec3 (box.norm_side_dir i) ray_d = 0 ∨
      |dot_vec3 (box.norm_side_dir i) ray_d| > FLT_EPSILON)
    (hne : ∃ i, dot_vec3 (box.norm_side_dir i) ray_d ≠ 0)
    (hhit : (ray_obb box ray_o ray_d face_num0).hit = true) :
    ∃ t : K, (ray_obb box ray_o ray_d face_num0).t = .val t ∧ 0 ≤ t ∧
      ∀ i, |dot_vec3 (box.norm_side_dir i)
          (sub_vec3_vec3 (add_vec3_vec3 ray_o (mult_vec3_f ray_d t)) box.centre)|
        ≤ box.half_lengths i := by
  obtain ⟨a, b, imin, imax, hres, hab, hb0, hin⟩ :=
    ray_obb_hit_state box ray_o ray_d face_num0 hh hf hne hhit
  rw [hres]
  by_cases ha : 0 < a
  · exact ⟨a, by simp only [if_pos ha], ha.le, hin a le_rfl hab⟩
  · exact ⟨b, by simp only [if_neg ha], hb0, hin b hab le_rfl⟩

/-- C16 at the scenario of the specification, over the rationals: the unit box at the origin
and the ray from `(3,0,0)` with direction `(-1,0,0)` give a hit with `t = 2` and `face = 1`,
and the point at the reported distance is in the box. -/
theorem ray_obb_hit_in_box_witness :
    ray_obb (unit_obb : obb_t ℚ) ⟨3, 0, 0⟩ ⟨-1, 0, 0⟩ 0 = ⟨true, .val 2, 1⟩ ∧
    ∃ t : ℚ, (ray_obb (unit_obb : obb_t ℚ) ⟨3, 0, 0⟩ ⟨-1, 0, 0⟩ 0).t = .val t ∧ 0 ≤ t ∧
      ∀ i, |dot_vec3 ((unit_obb : obb_t ℚ).norm_side_dir i)
          (sub_vec3_vec3 (add_vec3_vec3 ⟨3, 0, 0⟩ (mult_vec3_f ⟨-1, 0, 0⟩ t))
            (unit_obb : obb_t ℚ).centre)|
        ≤ (unit_obb : obb_t ℚ).half_lengths i := by
  obtain ⟨a0, a1, a2, l0, l1, l2, -⟩ := unit_obb_get (K := ℚ)
  obtain ⟨-, e1⟩ := half_gt_eps (K := ℚ)
  refine ⟨ray_obb_unit_from_pos_x 0, ray_obb_hit_in_box _ _ _ 0 ?_ ?_ ?_ ?_⟩
  · intro i
    rcases fin3_cases i with rfl | rfl | rfl
    · rw [l0]; norm_num
    · rw [l1]; norm_num
    · rw [l2]; norm_num
  · intro i
    rcases fin3_cases i with rfl | rfl | rfl
    · right; rw [a0]; norm_num [dot_vec3]; exact e1
    · left; rw [a1]; norm_num [dot_vec3]
    · left; rw [a2]; norm_num [dot_vec3]
  · exact ⟨0, by rw [a0]; norm_num [dot_vec3]⟩
  · rw [ray_obb_unit_from_pos_x]

/-- C17 at a failing input: for the unit box and the ray from its centre `(0,0,0)` with
direction `(0,1,0)`, `ray_obb` reports a hit at `t = 1` on the slab of axis 1 and writes
`face_num = 0`, which is neither `+2` nor `-2`; with direction `(0,0,1)` it writes
`face_num = -1` for the slab of axis 2. -/
theorem ray_obb_face_num_zero :
    ray_obb (unit_obb : obb_t ℚ) ⟨0, 0, 0⟩ ⟨0, 1, 0⟩ 7 = ⟨true, .val 1, 0⟩ ∧
    ray_obb (unit_obb : obb_t ℚ) ⟨0, 0, 0⟩ ⟨0, 0, 1⟩ 7 = ⟨true, .val 1, -1⟩ :=
  ⟨ray_obb_unit_from_centre_y 7, ray_obb_unit_from_centre_z 7⟩

/-- C18 at a failing input: the two rays that enter the unit box through its opposite X faces,
from `(3,0,0)` with direction `(-1,0,0)` and from `(-3,0,0)` with direction `(1,0,0)`, both
get `face_num = 1`. -/
theorem ray_obb_opposite_faces_same_sign :
    (ray_obb (unit_obb : obb_t ℚ) ⟨3, 0, 0⟩ ⟨-1, 0, 0⟩ 0).face_num = 1 ∧
    (ray_obb (unit_obb : obb_t ℚ) ⟨-3, 0, 0⟩ ⟨1, 0, 0⟩ 0).face_num = 1 := by
  rw [ray_obb_unit_from_pos_x, ray_obb_unit_from_neg_x]
  exact ⟨rfl, rfl⟩

/-- C19: with `1 / 0 = +infinity` on the zero direction components,
`ray_aabb((0,0,0), (1,0,0), (1,-1,-1), (2,1,1), 0, +infinity)` is true and the same call with
direction `(-1,0,0)` is false. -/
theorem ray_aabb_scenario :
    ray_aabb (⟨0, 0, 0⟩ : vec3 ℚ) ⟨1, 0, 0⟩ ⟨1, -1, -1⟩ ⟨2, 1, 1⟩ (.val 0) .pos_inf = true ∧
    ray_aabb (⟨0, 0, 0⟩ : vec3 ℚ) ⟨-1, 0, 0⟩ ⟨1, -1, -1⟩ ⟨2, 1, 1⟩ (.val 0) .pos_inf
      = false := by
  constructor
  · have s0 : ray_aabb_slab (⟨0, 0, 0⟩ : vec3 ℚ) ⟨1, 0, 0⟩ ⟨1, -1, -1⟩ ⟨2, 1, 1⟩
        (.val 0, .pos_inf) 0 = some (.val 1, .val 2) := by
      norm_num [ray_aabb_slab, vec3.idx, xfloat.div, xfloat.mul, xfloat.lt, xfloat.le]
    have s1 : ray_aabb_slab (⟨0, 0, 0⟩ : vec3 ℚ) ⟨1, 0, 0⟩ ⟨1, -1, -1⟩ ⟨2, 1, 1⟩
        (.val 1, .val 2) 1 = some (.val 1, .val 2) := by
      norm_num [ray_aabb_slab, vec3.idx, xfloat.div, xfloat.mul, xfloat.lt, xfloat.le,
        xfloat.signed_inf]
    have s2 : ray_aabb_slab (⟨0, 0, 0⟩ : vec3 ℚ) ⟨1, 0, 0⟩ ⟨1, -1, -1⟩ ⟨2, 1, 1⟩
        (.val 1, .val 2) 2 = some (.val 1, .val 2) := by
      norm_num [ray_aabb_slab, vec3.idx, xfloat.div, xfloat.mul, xfloat.lt, xfloat.le,
        xfloat.signed_inf]
    simp only [ray_aabb, range3, List.foldlM_cons, List.foldlM_nil, s0, s1, s2,
      Option.bind_eq_bind, Option.some_bind, Option.pure_def]
  · have s0 : ray_aabb_slab (⟨0, 0, 0⟩ : vec3 ℚ) ⟨-1, 0, 0⟩ ⟨1, -1, -1⟩ ⟨2, 1, 1⟩
        (.val 0, .pos_inf) 0 = none := by
      norm_num [ray_aabb_slab, vec3.idx, xfloat.div, xfloat.mul, xfloat.lt, xfloat.le]
    simp only [ray_aabb, range3, List.foldlM_cons, List.foldlM_nil, s0,
      Option.bind_eq_bind, Option.none_bind]

/-- C20: when the ray direction is not perpendicular to the plane normal, the parameter
returned by `ray_plane` puts the ray point on the plane, `(origin + t*dir) · n + d = 0`, and
it is `-(origin · n + d) / (dir · n)`. -/
theorem ray_plane_on_plane (ray_origin ray_direction plane_normal : vec3 K) (plane_d : K)
    (h : dot_vec3 ray_direction plane_normal ≠ 0) :
    dot_vec3 (add_vec3_vec3 ray_origin
        (mult_vec3_f ray_direction (ray_plane ray_origin ray_direction plane_normal plane_d)))
      plane_normal + plane_d = 0 ∧
    ray_plane ray_origin ray_direction plane_normal plane_d
      = -(dot_vec3 ray_origin plane_normal + plane_d)
          / dot_vec3 ray_direction plane_normal := by
  refine ⟨?_, rfl⟩
  simp only [ray_plane]
  generalize hden : dot_vec3 ray_direction plane_normal = den at h
  have hd : ray_direction.x * plane_normal.x + ray_direction.y * plane_normal.y
      + ray_direction.z * plane_normal.z = den := hden
  simp only [dot_vec3, add_vec3_vec3, mult_vec3_f]
  field_simp
  linear_combination (-(ray_origin.x * plane_normal.x + ray_origin.y * plane_normal.y
      + ray_origin.z * plane_normal.z + plane_d)) * hd

/-- C20 over the rationals: the ray from `(0,0,5)` with direction `(0,0,-1)` meets the plane
`z = 0` (normal `(0,0,1)`, `d = 0`) at `t = 5`. -/
theorem ray_plane_on_plane_witness :
    dot_vec3 (add_vec3_vec3 (⟨0, 0, 5⟩ : vec3 ℚ)
        (mult_vec3_f ⟨0, 0, -1⟩ (ray_plane (⟨0, 0, 5⟩ : vec3 ℚ) ⟨0, 0, -1⟩ ⟨0, 0, 1⟩ 0)))
      ⟨0, 0, 1⟩ + 0 = 0 ∧
    ray_plane (⟨0, 0, 5⟩ : vec3 ℚ) ⟨0, 0, -1⟩ ⟨0, 0, 1⟩ 0 = 5 := by
  have h := ray_plane_on_plane (⟨0, 0, 5⟩ : vec3 ℚ) ⟨0, 0, -1⟩ ⟨0, 0, 1⟩ 0
    (by norm_num [dot_vec3])
  exact ⟨h.1, by rw [h.2]; norm_num [dot_vec3]⟩

/-- C21 at failing inputs: `wrap_degrees_360(-90)` is `-90` and `wrap_degrees_360(-450)` is
`-810`: for a negative argument the truncated quotient is zero or negative, and adding it
times 360 leaves the value negative. -/
theorem wrap_degrees_360_negative :
    wrap_degrees_360 (-90 : ℚ) = -90 ∧ wrap_degrees_360 (-450 : ℚ) = -810 := by
  refine ⟨wrap_degrees_360_small_neg _ (by norm_num) (by norm_num), ?_⟩
  rw [wrap_degrees_360_of_neg _ (by norm_num)]
  have h : ⌈(-450 : ℚ) / 360⌉ = -1 := by
    rw [Int.ceil_eq_iff]; norm_num
  rw [h]; norm_num

/-- C22 at a failing input, on `wrap_degrees_360` in binary32: `x = 188744752` is not negative
and its quotient by 360 fits in an `int`, yet `wrap_degrees_360 x` is `-16`, where
`x - 360 * floor(x / 360)` is 352.  The quotient `524290.97...` rounds up to `524291`, so
`multiples` is one too many, and the product `524291 * 360 = 188744760` rounds to
`188744768`. -/
theorem wrap_degrees_360_f32_large :
    wrap_degrees_360_f32 (.val (188744752 : ℚ)) = .val (-16) ∧
    (188744752 : ℚ) - 360 * (⌊(188744752 : ℚ) / 360⌋ : ℚ) = 352 := by
  refine ⟨?_, by
    have h : ⌊(188744752 : ℚ) / 360⌋ = 524290 := by
      rw [Int.floor_eq_iff]; norm_num
    rw [h]; norm_num⟩
  have hq : f32_div (.val (188744752 : ℚ)) (.val 360) = .val 524291 := by
    simp only [f32_div, xfloat.div, xfloat.rnd]
    rw [if_neg (by norm_num)]
    apply round_f32_eq _ _ 8388656 (-4) <;> norm_num [abs_lt, le_abs, abs_div, abs_neg]
  have hm : xfloat.to_int (.val (524291 : ℚ)) = 524291 := by
    simp only [xfloat.to_int, float_to_int]
    rw [if_pos (by norm_num)]
    exact Int.floor_intCast (524291 : Int)
  have hc : int_to_f32 524291 = (.val 524291 : xfloat ℚ) := by
    simp only [int_to_f32]
    apply round_f32_eq _ _ 8388656 (-4) <;> norm_num [abs_lt, le_abs, abs_div, abs_neg]
  have hp : f32_mul (.val (524291 : ℚ)) (.val 360) = .val 188744768 := by
    simp only [f32_mul, xfloat.mul, xfloat.rnd]
    apply round_f32_eq _ _ 11796548 4 <;> norm_num [abs_lt, le_abs, abs_div, abs_neg]
  have hs : f32_sub (.val (188744752 : ℚ)) (.val 188744768) = .val (-16) := by
    simp only [f32_sub, xfloat.neg, xfloat.add, xfloat.rnd]
    apply round_f32_eq _ _ (-8388608) (-19) <;> norm_num [abs_lt, le_abs, abs_div, abs_neg]
  simp only [wrap_degrees_360_f32, hq, hm, hc, hp, hs, xfloat.le, xfloat.lt]
  norm_num

/-- C23 at a failing input: `abs_diff_btw_degrees(-450, 0)` is 450, outside `[0, 180]`,
because `wrap_degrees_360(-450)` is `-810`. -/
theorem abs_diff_btw_degrees_out_of_range :
    abs_diff_btw_degrees (-450 : ℚ) 0 = 450 := by
  have h1 : wrap_degrees_360 (-450 : ℚ) = -810 := by
    rw [wrap_degrees_360_of_neg _ (by norm_num)]
    have h : ⌈(-450 : ℚ) / 360⌉ = -1 := by
      rw [Int.ceil_eq_iff]; norm_num
    rw [h]; norm_num
  have h0 : wrap_degrees_360 (0 : ℚ) = 0 := by
    simp [wrap_degrees_360]
  simp only [abs_diff_btw_degrees, h1, h0]
  norm_num [abs_of_pos]

/-- C24: if the length of `v` is 0 then `normalise_vec3 v` is the zero vector; otherwise it is
`v` divided by its length, and its own length is 1.  `sqrtf` is any function that returns the
non-negative square root. -/
theorem normalise_vec3_cases (sqrtf : K → K)
    (hsq : ∀ x, 0 ≤ x → 0 ≤ sqrtf x ∧ sqrtf x * sqrtf x = x) (v : vec3 K) :
    (length_vec3 sqrtf v = 0 → normalise_vec3 sqrtf v = ⟨0, 0, 0⟩) ∧
    (length_vec3 sqrtf v ≠ 0 →
      normalise_vec3 sqrtf v
        = ⟨v.x / length_vec3 sqrtf v, v.y / length_vec3 sqrtf v, v.z / length_vec3 sqrtf v⟩ ∧
      length_vec3 sqrtf (normalise_vec3 sqrtf v) = 1) := by
  constructor
  · intro h
    simp only [normalise_vec3, if_pos h.symm]
  · intro h
    have hne : ¬ (0 = length_vec3 sqrtf v) := fun e => h e.symm
    refine ⟨by simp only [normalise_vec3, if_neg hne], ?_⟩
    apply length_normalise_vec3 sqrtf hsq
    rcases (length2_nonneg v).lt_or_eq with h1 | h1
    · exact h1
    · exfalso
      apply h
      have h2 := (hsq _ (length2_nonneg v)).2
      rw [← h1] at h2
      simp only [length_vec3, ← h1]
      exact mul_self_eq_zero.mp h2

/-- C24 over the reals with the real square root, at `v = (3, 0, 4)` of length 5: the
normalised vector is `v / 5` componentwise and has length 1. -/
theorem normalise_vec3_cases_witness :
    normalise_vec3 Real.sqrt (⟨3, 0, 4⟩ : vec3 ℝ)
      = ⟨3 / length_vec3 Real.sqrt ⟨3, 0, 4⟩, 0 / length_vec3 Real.sqrt ⟨3, 0, 4⟩,
         4 / length_vec3 Real.sqrt ⟨3, 0, 4⟩⟩ ∧
    length_vec3 Real.sqrt (normalise_vec3 Real.sqrt (⟨3, 0, 4⟩ : vec3 ℝ)) = 1 ∧
    length_vec3 Real.sqrt (⟨3, 0, 4⟩ : vec3 ℝ) = 5 := by
  have e : length_vec3 Real.sqrt (⟨3, 0, 4⟩ : vec3 ℝ) = 5 := by
    simp only [length_vec3]
    rw [show ((3 : ℝ) * 3 + 0 * 0 + 4 * 4) = 5 ^ 2 by norm_num]
    exact Real.sqrt_sq (by norm_num)
  have h := (normalise_vec3_cases Real.sqrt
    (fun x hx => ⟨Real.sqrt_nonneg x, Real.mul_self_sqrt hx⟩) (⟨3, 0, 4⟩ : vec3 ℝ)).2
    (by rw [e]; norm_num)
  exact ⟨h.1, h.2, e⟩

/-- C25: the cross product of `a` and `b` is orthogonal to both `a` and `b`. -/
theorem cross_vec3_orthogonal (a b : vec3 K) :
    dot_vec3 (cross_vec3 a b) a = 0 ∧ dot_vec3 (cross_vec3 a b) b = 0 := by
  simp only [dot_vec3, cross_vec3]
  constructor <;> ring

/-- C26: with the real sine, cosine and pi, `rot_y_deg_mat4(90)` applied to `(0,0,-1,0)` has
xyz part `(-1, 0, 0)`. -/
theorem rot_y_deg_mat4_right_handed :
    v3_v4 (mult_mat4_vec4 (rot_y_deg_mat4 Real.sin Real.cos Real.pi 90)
      (⟨0, 0, -1, 0⟩ : vec4 ℝ)) = ⟨-1, 0, 0⟩ := by
  have harg : (90 : ℝ) * (2 * Real.pi) / 360 = Real.pi / 2 := by ring
  simp (disch := decide) only [rot_y_deg_mat4, mult_mat4_vec4, identity_mat4, v3_v4,
    ↓mat4.get_set_eq, ↓mat4.get_set_ne, mat4.get_zero, harg, Real.sin_pi_div_two,
    Real.cos_pi_div_two]
  ext <;> norm_num

/-- C27: element `r + 4*c` of `transpose_mat4 M` is element `c + 4*r` of `M`, for all rows
and columns; consequently transposing twice gives `M` back. -/
theorem transpose_mat4_involutive (M : mat4 K) :
    (∀ r c : Fin 4,
      (transpose_mat4 M).get (r.val + 4 * c.val) = M.get (c.val + 4 * r.val)) ∧
    transpose_mat4 (transpose_mat4 M) = M := by
  constructor
  · intro r c
    rw [transpose_mat4_get _ _ (by omega)]
    congr 1
    omega
  · apply mat4.ext_get
    intro i hi
    rw [transpose_mat4_get _ _ hi, transpose_mat4_get _ _ (by omega)]
    congr 1
    omega

/-- C28, as stated, fails in two ways.  Rounding: with direction `(41, 1, 1)` from the origin,
box `(-1, -1, -1)` to `(5169789/8388608, 1, 1)`, `tmin = 4034957/268435456` and
`tmax = +inf`, the binary32 exit parameter of the first axis rounds down to `tmin` itself and
`ray_aabb` returns false, although the binary32 value `t = 16139829/1073741824` is above
`tmin` and puts the ray point strictly inside the box on all three axes.  NaN: with a NaN
`tmax` the comparisons never hold, `ray_aabb` returns true, and no `t` is below `tmax`. -/
theorem ray_aabb_f32_not_iff :
    (ray_aabb_f32 (⟨0, 0, 0⟩ : vec3 ℚ) ⟨41, 1, 1⟩ ⟨-1, -1, -1⟩ ⟨5169789 / 8388608, 1, 1⟩
        (.val (4034957 / 268435456)) .pos_inf = false ∧
      ∃ t : ℚ, xfloat.lt (.val (4034957 / 268435456)) (.val t) = true ∧
        xfloat.lt (.val t) .pos_inf = true ∧
        ∀ i, i < 3 →
          (⟨-1, -1, -1⟩ : vec3 ℚ).idx i
            < (⟨0, 0, 0⟩ : vec3 ℚ).idx i + t * (⟨41, 1, 1⟩ : vec3 ℚ).idx i ∧
          (⟨0, 0, 0⟩ : vec3 ℚ).idx i + t * (⟨41, 1, 1⟩ : vec3 ℚ).idx i
            < (⟨5169789 / 8388608, 1, 1⟩ : vec3 ℚ).idx i) ∧
    (ray_aabb_f32 (⟨0, 0, 0⟩ : vec3 ℚ) ⟨1, 1, 1⟩ ⟨1, 1, 1⟩ ⟨2, 2, 2⟩ (.val 0) .nan = true ∧
      ¬ ∃ t : ℚ, xfloat.lt (.val 0) (.val t) = true ∧ xfloat.lt (.val t) .nan = true) := by
  have hinv : f32_div (.val (1 : ℚ)) (.val 41) = .val (3273603 / 134217728) := by
    simp only [f32_div, xfloat.div, xfloat.rnd]
    rw [if_neg (by norm_num)]
    apply round_f32_eq _ _ 13094412 (-29) <;> norm_num [abs_lt, le_abs, abs_div, abs_neg]
  have hs0 : f32_sub (.val (-1 : ℚ)) (.val 0) = .val (-1) := by
    simp only [f32_sub, xfloat.neg, xfloat.add, xfloat.rnd]
    apply round_f32_eq _ _ (-8388608) (-23) <;> norm_num [abs_lt, le_abs, abs_div, abs_neg]
  have hs1 : f32_sub (.val (5169789 / 8388608 : ℚ)) (.val 0) = .val (5169789 / 8388608) := by
    simp only [f32_sub, xfloat.neg, xfloat.add, xfloat.rnd]
    apply round_f32_eq _ _ 10339578 (-24) <;> norm_num [abs_lt, le_abs, abs_div, abs_neg]
  have hm0 : f32_mul (.val (-1 : ℚ)) (.val (3273603 / 134217728))
      = .val (-(3273603 / 134217728)) := by
    simp only [f32_mul, xfloat.mul, xfloat.rnd]
    apply round_f32_eq _ _ (-13094412) (-29) <;> norm_num [abs_lt, le_abs, abs_div, abs_neg]
  have hm1 : f32_mul (.val (5169789 / 8388608 : ℚ)) (.val (3273603 / 134217728))
      = .val (4034957 / 268435456) := by
    simp only [f32_mul, xfloat.mul, xfloat.rnd]
    apply round_f32_eq _ _ 16139828 (-30) <;> norm_num [abs_lt, le_abs, abs_div, abs_neg]
  have hd1 : f32_div (.val (1 : ℚ)) (.val 1) = .val 1 := by
    simp only [f32_div, xfloat.div, xfloat.rnd]
    rw [if_neg (by norm_num)]
    apply round_f32_eq _ _ 8388608 (-23) <;> norm_num [abs_lt, le_abs, abs_div, abs_neg]
  have hp1 : f32_sub (.val (1 : ℚ)) (.val 0) = .val 1 := by
    simp only [f32_sub, xfloat.neg, xfloat.add, xfloat.rnd]
    apply round_f32_eq _ _ 8388608 (-23) <;> norm_num [abs_lt, le_abs, abs_div, abs_neg]
  have hp2 : f32_sub (.val (2 : ℚ)) (.val 0) = .val 2 := by
    simp only [f32_sub, xfloat.neg, xfloat.add, xfloat.rnd]
    apply round_f32_eq _ _ 8388608 (-22) <;> norm_num [abs_lt, le_abs, abs_div, abs_neg]
  have hq1 : f32_mul (.val (1 : ℚ)) (.val 1) = .val 1 := by
    simp only [f32_mul, xfloat.mul, xfloat.rnd]
    apply round_f32_eq _ _ 8388608 (-23) <;> norm_num [abs_lt, le_abs, abs_div, abs_neg]
  have hq2 : f32_mul (.val (2 : ℚ)) (.val 1) = .val 2 := by
    simp only [f32_mul, xfloat.mul, xfloat.rnd]
    apply round_f32_eq _ _ 8388608 (-22) <;> norm_num [abs_lt, le_abs, abs_div, abs_neg]
  have ha : ray_aabb_slab_f32 (⟨0, 0, 0⟩ : vec3 ℚ) ⟨41, 1, 1⟩ ⟨-1, -1, -1⟩
      ⟨5169789 / 8388608, 1, 1⟩ (.val (4034957 / 268435456), .pos_inf) 0 = none := by
    simp only [ray_aabb_slab_f32, ray_aabb_t0_t1_f32, vec3.idx, hinv, hs0, hs1, hm0, hm1,
      xfloat.lt, xfloat.le]
    norm_num
  have hb0 : ray_aabb_slab_f32 (⟨0, 0, 0⟩ : vec3 ℚ) ⟨1, 1, 1⟩ ⟨1, 1, 1⟩ ⟨2, 2, 2⟩
      (.val 0, .nan) 0 = some (.val 1, .nan) := by
    simp only [ray_aabb_slab_f32, ray_aabb_t0_t1_f32, vec3.idx, hd1, hp1, hp2, hq1, hq2,
      xfloat.lt, xfloat.le]
    norm_num
  have hb1 : ray_aabb_slab_f32 (⟨0, 0, 0⟩ : vec3 ℚ) ⟨1, 1, 1⟩ ⟨1, 1, 1⟩ ⟨2, 2, 2⟩
      (.val 1, .nan) 1 = some (.val 1, .nan) := by
    simp only [ray_aabb_slab_f32, ray_aabb_t0_t1_f32, vec3.idx, hd1, hp1, hp2, hq1, hq2,
      xfloat.lt, xfloat.le]
    norm_num
  have hb2 : ray_aabb_slab_f32 (⟨0, 0, 0⟩ : vec3 ℚ) ⟨1, 1, 1⟩ ⟨1, 1, 1⟩ ⟨2, 2, 2⟩
      (.val 1, .nan) 2 = some (.val 1, .nan) := by
    simp only [ray_aabb_slab_f32, ray_aabb_t0_t1_f32, vec3.idx, hd1, hp1, hp2, hq1, hq2,
      xfloat.lt, xfloat.le]
    norm_num
  refine ⟨⟨?_, 16139829 / 1073741824, ?_, ?_, ?_⟩, ?_, ?_⟩
  · simp only [ray_aabb_f32, range3, List.foldlM_cons, Option.bind_eq_bind, ha,
      Option.none_bind]
  · simp only [xfloat.lt]; norm_num
  · simp only [xfloat.lt]
  · intro i hi
    interval_cases i <;> simp only [vec3.idx] <;> norm_num
  · simp only [ray_aabb_f32, range3, List.foldlM_cons, List.foldlM_nil, Option.bind_eq_bind,
      Option.pure_def, hb0, hb1, hb2, Option.some_bind]
  · rintro ⟨t, -, h⟩
    simp only [xfloat.lt] at h
    exact absurd h (by simp)

/-- C28, amended, on `ray_aabb` in binary32, for a ray whose three direction components are
non-zero and a `tmin` and `tmax` that are not NaN.  `ray_aabb` returns true if and only if
there is a `t` with `tmin < t < tmax` that on every axis is strictly between the two slab
parameters the code computes, `t0` and `t1` after the swap; a NaN slab parameter constrains
nothing.  On axes where the quotient `1 / dir[i]` and the two products are computed without
rounding error, that is the same as `box_min[i] < origin[i] + t * dir[i] < box_max[i]`: when
this holds on all three axes, `ray_aabb` returns true if and only if there is such a `t` with
the ray point strictly inside the box. -/
theorem ray_aabb_f32_iff [FloorRing K] (o d bmin bmax : vec3 K) (tmin tmax : xfloat K)
    (hd : ∀ i, i < 3 → d.idx i ≠ 0) (htmin : tmin ≠ .nan) (htmax : tmax ≠ .nan) :
    (ray_aabb_f32 o d bmin bmax tmin tmax = true ↔
      ∃ t : K, xfloat.lt tmin (.val t) = true ∧ xfloat.lt (.val t) tmax = true ∧
        ∀ i, i < 3 →
          xfloat.le (.val t) (ray_aabb_t0_t1_f32 o d bmin bmax i).1 = false ∧
          xfloat.le (ray_aabb_t0_t1_f32 o d bmin bmax i).2 (.val t) = false) ∧
    ((∀ i, i < 3 →
        f32_div (.val 1) (.val (d.idx i)) = .val (1 / d.idx i) ∧
        f32_mul (f32_sub (.val (bmin.idx i)) (.val (o.idx i)))
          (f32_div (.val 1) (.val (d.idx i))) = .val ((bmin.idx i - o.idx i) * (1 / d.idx i)) ∧
        f32_mul (f32_sub (.val (bmax.idx i)) (.val (o.idx i)))
          (f32_div (.val 1) (.val (d.idx i)))
            = .val ((bmax.idx i - o.idx i) * (1 / d.idx i))) →
      (ray_aabb_f32 o d bmin bmax tmin tmax = true ↔
        ∃ t : K, xfloat.lt tmin (.val t) = true ∧ xfloat.lt (.val t) tmax = true ∧
          ∀ i, i < 3 →
            bmin.idx i < o.idx i + t * d.idx i ∧ o.idx i + t * d.idx i < bmax.idx i)) := by
  refine ⟨ray_aabb_f32_computed_iff o d bmin bmax tmin tmax htmin htmax, fun hex => ?_⟩
  rw [ray_aabb_f32_computed_iff o d bmin bmax tmin tmax htmin htmax]
  constructor
  · rintro ⟨t, h1, h2, h3⟩
    refine ⟨t, h1, h2, fun i hi => ?_⟩
    exact (ray_aabb_t0_t1_f32_exact o d bmin bmax i (hd i hi) (hex i hi).1 (hex i hi).2.1
      (hex i hi).2.2 t).mp (h3 i hi)
  · rintro ⟨t, h1, h2, h3⟩
    refine ⟨t, h1, h2, fun i hi => ?_⟩
    exact (ray_aabb_t0_t1_f32_exact o d bmin bmax i (hd i hi) (hex i hi).1 (hex i hi).2.1
      (hex i hi).2.2 t).mpr (h3 i hi)

/-- C28 amended, over the rationals, for the ray from the origin along `(1, 1, 1)`, the box
from `(1, 1, 1)` to `(2, 2, 2)`, `tmin = 0` and `tmax = +inf`: every operation is exact, the
point at `t = 3/2` is strictly inside the box, and `ray_aabb` returns true. -/
theorem ray_aabb_f32_iff_witness :
    ray_aabb_f32 (⟨0, 0, 0⟩ : vec3 ℚ) ⟨1, 1, 1⟩ ⟨1, 1, 1⟩ ⟨2, 2, 2⟩ (.val 0) .pos_inf
      = true := by
  have hd1 : f32_div (.val (1 : ℚ)) (.val 1) = .val 1 := by
    simp only [f32_div, xfloat.div, xfloat.rnd]
    rw [if_neg (by norm_num)]
    apply round_f32_eq _ _ 8388608 (-23) <;> norm_num [abs_lt, le_abs, abs_div, abs_neg]
  have hp1 : f32_sub (.val (1 : ℚ)) (.val 0) = .val 1 := by
    simp only [f32_sub, xfloat.neg, xfloat.add, xfloat.rnd]
    apply round_f32_eq _ _ 8388608 (-23) <;> norm_num [abs_lt, le_abs, abs_div, abs_neg]
  have hp2 : f32_sub (.val (2 : ℚ)) (.val 0) = .val 2 := by
    simp only [f32_sub, xfloat.neg, xfloat.add, xfloat.rnd]
    apply round_f32_eq _ _ 8388608 (-22) <;> norm_num [abs_lt, le_abs, abs_div, abs_neg]
  have hq1 : f32_mul (.val (1 : ℚ)) (.val 1) = .val 1 := by
    simp only [f32_mul, xfloat.mul, xfloat.rnd]
    apply round_f32_eq _ _ 8388608 (-23) <;> norm_num [abs_lt, le_abs, abs_div, abs_neg]
  have hq2 : f32_mul (.val (2 : ℚ)) (.val 1) = .val 2 := by
    simp only [f32_mul, xfloat.mul, xfloat.rnd]
    apply round_f32_eq _ _ 8388608 (-22) <;> norm_num [abs_lt, le_abs, abs_div, abs_neg]
  have h := (ray_aabb_f32_iff (⟨0, 0, 0⟩ : vec3 ℚ) ⟨1, 1, 1⟩ ⟨1, 1, 1⟩ ⟨2, 2, 2⟩ (.val 0)
    .pos_inf
    (by intro i hi; interval_cases i <;> simp only [vec3.idx] <;> norm_num)
    (by simp) (by simp)).2
    (by
      intro i hi
      interval_cases i <;> simp only [vec3.idx, hd1, hp1, hp2, hq1, hq2] <;> norm_num)
  refine h.mpr ⟨3 / 2, ?_, ?_, fun i hi => ?_⟩
  · simp only [xfloat.lt]; norm_num
  · simp only [xfloat.lt]
  · interval_cases i <;> simp only [vec3.idx] <;> norm_num

/-- C29: for all unit quaternions `a` and `b` and every `v`, rotating `v` by
`mult_quat_quat a b` is rotating by `b` first and then by `a`. -/
theorem mult_quat_quat_composes (sqrtf : K → K) (a b : versor K)
    (ha : dot_quat a a = 1) (hb : dot_quat b b = 1) (v : vec3 K) :
    mult_quat_vec3 (mult_quat_quat sqrtf a b) v
      = mult_quat_vec3 a (mult_quat_vec3 b v) := by
  have hn := hamilton_norm a b
  rw [ha, hb, mul_one] at hn
  simp only [mult_quat_quat]
  rw [normalise_quat_of_lt sqrtf _ (by simp only [hn]; norm_num)]
  simp only [mult_quat_vec3, dot_vec3, cross_vec3, mult_vec3_f, add_vec3_vec3]
  ext <;> ring

/-- C29 over the reals at the unit quaternions `a = (0,1,0,0)`, `b = (0,0,1,0)` (half turns
about X and about Y) and `v = (1,0,0)`. -/
theorem mult_quat_quat_composes_witness :
    mult_quat_vec3 (mult_quat_quat Real.sqrt (⟨0, 1, 0, 0⟩ : versor ℝ) ⟨0, 0, 1, 0⟩)
        ⟨1, 0, 0⟩
      = mult_quat_vec3 (⟨0, 1, 0, 0⟩ : versor ℝ)
          (mult_quat_vec3 (⟨0, 0, 1, 0⟩ : versor ℝ) ⟨1, 0, 0⟩) :=
  mult_quat_quat_composes Real.sqrt (⟨0, 1, 0, 0⟩ : versor ℝ) ⟨0, 0, 1, 0⟩
    (by norm_num [dot_quat]) (by norm_num [dot_quat]) ⟨1, 0, 0⟩

end Claims

end Apg
